import Mathlib

/-!
# rtslam: absolute localisation sensor (`SensorAbsloc`)

A shallow embedding of `include/rtslam/sensorAbsloc.hpp`.

The source is embedded twice.

* First with exact rationals (`ℚ`) for the `double` values: comparisons, sums
  and products are the mathematical ones. This is the view of the runs in which
  every value is finite and no rounding occurs. A quotient whose divisor is zero
  has no rational value; the source computes it all the same (a NaN or an
  infinity) and goes on, and in this view such a run is marked
  `Fault.notFinite`, which is not an exit of the C++ code.
* Then, in the namespace `Fp`, over a scalar type whose operations are
  parameters (`Fp.Arith`), with the `double` values (finite, infinite, NaN) and
  the rounding to binary64 as instances. There `init` is total, and `process`
  ends early only where the C++ dereferences a null pointer or writes outside a
  buffer. `Fp.fp_init_finite_view` relates the two embeddings of `init`.

Conventions common to both:

* a `jblas::vec` / `jblas::mat` that is only read, or whose size is a constant of
  the source, is a total function of its indices (`RVec`, `RMat`);
* the buffers sized by `setHardwareSensor` (`GVec`, `GMat`) carry their size and
  every write to them is bounds-checked: a write outside the buffer is
  `Fault.outOfBounds`;
* the quaternion helpers of `rtslam/quatTools.hpp` and the filter's `correct`
  are not part of this file's source: they are parameters.
-/

namespace Rtslam

/-- Contents of a vector, by index. -/
abbrev RVec := Nat → ℚ

/-- Contents of a matrix, by row and column. -/
abbrev RMat := Nat → Nat → ℚ

/-- Three-component vector (`jblas::vec3`). -/
abbrev Vec3 := Fin 3 → ℚ

/-- Ways in which a call leaves the domain of the embedding. -/
inductive Fault where
  | nullPointer
  | outOfBounds
  | notFinite
  deriving DecidableEq, Repr

/-- Hardware reading source bound to the sensor: `dataSize()`, `getQuantity(qPos)`,
`getQuantity(qOriEuler)`, the ids listed by `queryAvailableRaws` and the data
delivered by `observeRaw` / `getRaw` for an id. -/
structure Hardware where
  dataSize : Nat
  qPos : Nat
  qOriEuler : Nat
  available : List Nat
  raw : Nat → RVec

/-! ## `SensorAbsloc::init` -/

/-- Initial value of `min_var` (line 81). -/
def min_var0 : Vec3 := fun _ => 1000

/-- Loop of lines 82-87: scan the available raws, lowering `min_var` on each
axis, until the raw with the target id has been read. The state is
`(min_var, reading.data)`. -/
def scanMinVar (raw : Nat → RVec) (inns id : Nat) : List Nat → Vec3 × RVec → Vec3 × RVec
  | [], st => st
  | it :: rest, st =>
    let reading : RVec := raw it
    let min_var : Vec3 := fun i =>
      if reading (i.val + 1 + inns) < st.1 i then reading (i.val + 1 + inns) else st.1 i
    if it = id then (min_var, reading) else scanMinVar raw inns id rest (min_var, reading)

/-- Loop of lines 92-99: accumulate `value * variance` and `variance` of the
readings whose variance is below `2 * min_var`. The state is
`(average, sum_coeffs, reading.data)`. -/
def accumulate (raw : Nat → RVec) (inns id : Nat) (min_var : Vec3) :
    List Nat → Vec3 × Vec3 × RVec → Vec3 × Vec3 × RVec
  | [], st => st
  | it :: rest, st =>
    let reading : RVec := raw it
    let average : Vec3 := fun i =>
      if reading (i.val + 1 + inns) < 2 * min_var i then
        st.1 i + reading (i.val + 1) * reading (i.val + 1 + inns)
      else st.1 i
    let sum_coeffs : Vec3 := fun i =>
      if reading (i.val + 1 + inns) < 2 * min_var i then
        st.2.1 i + reading (i.val + 1 + inns)
      else st.2.1 i
    if it = id then (average, sum_coeffs, reading)
    else accumulate raw inns id min_var rest (average, sum_coeffs, reading)

/-- Values of the locals of `init` when line 100 is reached. -/
structure InitAcc where
  min_var : Vec3
  average : Vec3
  sum_coeffs : Vec3
  reading : RVec

/-- Lines 77-99 of `init`. -/
def initAccumulate (hw : Hardware) (inns id : Nat) (reading : RVec) : InitAcc :=
  let m := scanMinVar hw.raw inns id hw.available (min_var0, reading)
  let a := accumulate hw.raw inns id m.1 hw.available (fun _ => 0, fun _ => 0, m.2)
  { min_var := m.1, average := a.1, sum_coeffs := a.2.1, reading := a.2.2 }

/-- Loop of line 103: for `i = 0, 1, 2` in turn, `reading.data(i+1) = average(i)`
and then `reading.data(i+1+inns) = min_var(i)`. -/
def writeBack (inns : Nat) (average min_var : Vec3) (reading : RVec) : RVec :=
  ([0, 1, 2] : List (Fin 3)).foldl
    (fun d i => Function.update (Function.update d (i.val + 1) (average i))
      (i.val + 1 + inns) (min_var i))
    reading

/-- The method `SensorAbsloc::init(id)` in exact arithmetic: the new contents of
`reading.data`. The three quotients of line 100 are all computed; the source does
not test the divisors. When a divisor is zero the quotient is not a rational
number and the run is marked `Fault.notFinite`; what the C++ leaves in
`reading.data` in that case is given by `Fp.init`. -/
def init (hw : Hardware) (inns id : Nat) (reading : RVec) : Except Fault RVec :=
  let acc := initAccumulate hw inns id reading
  if acc.sum_coeffs 0 = 0 ∨ acc.sum_coeffs 1 = 0 ∨ acc.sum_coeffs 2 = 0 then
    .error .notFinite
  else
    .ok (writeBack inns (fun i => acc.average i / acc.sum_coeffs i) acc.min_var acc.reading)

/-! ### Reference notions for `init` -/

/-- The scanned window: the available ids up to and including the first one
equal to the target (all of them when none is). -/
def window (id : Nat) : List Nat → List Nat
  | [] => []
  | it :: rest => if it = id then [it] else it :: window id rest

/-- Minimum of a list of rationals, `none` for the empty list. -/
def trueMin : List ℚ → Option ℚ
  | [] => none
  | x :: xs => some (xs.foldl min x)

/-- Variance reported on axis `i` by the raw with id `k`. -/
def varOf (raw : Nat → RVec) (inns : Nat) (i : Fin 3) (k : Nat) : ℚ :=
  raw k (i.val + 1 + inns)

/-- Value reported on axis `i` by the raw with id `k`. -/
def valOf (raw : Nat → RVec) (i : Fin 3) (k : Nat) : ℚ :=
  raw k (i.val + 1)

/-- The average as the specification words it: weights are the variances, the
samples are those of the window whose variance is strictly below twice the
window's minimum variance on the axis. -/
def specAverage (raw : Nat → RVec) (inns : Nat) (i : Fin 3) (w : List Nat) : Option ℚ :=
  match trueMin (w.map (varOf raw inns i)) with
  | none => none
  | some m =>
    let sel := w.filter (fun k => decide (varOf raw inns i k < 2 * m))
    let den := (sel.map (varOf raw inns i)).sum
    if den = 0 then none
    else some ((sel.map (fun k => valOf raw i k * varOf raw inns i k)).sum / den)

/-! ## Buffers of `SensorAbsloc` -/

/-- Dynamically sized vector (`jblas::vec` held by a `Gaussian`). -/
structure GVec where
  size : Nat
  e : RVec

/-- Dynamically sized matrix (`jblas::mat`). -/
structure GMat where
  rows : Nat
  cols : Nat
  e : RMat

/-- Read of `ublas::subrange(v, a, a+n)` for a total vector. -/
def subrange (v : RVec) (a n : Nat) : RVec := fun k => if k < n then v (a + k) else 0

/-- Read of `ublas::subrange(v, a, a+n)`. -/
def GVec.getSub (v : GVec) (a n : Nat) : Except Fault RVec :=
  if a + n ≤ v.size then .ok (subrange v.e a n) else .error .outOfBounds

/-- Assignment `ublas::subrange(v, a, a+n) = src`. -/
def GVec.setSub (v : GVec) (a n : Nat) (src : RVec) : Except Fault GVec :=
  if a + n ≤ v.size then
    .ok { v with e := fun k => if a ≤ k ∧ k < a + n then src (k - a) else v.e k }
  else .error .outOfBounds

/-- Assignment `v = src` of a vector expression of size `n` to a vector that
cannot be resized. -/
def GVec.assign (v : GVec) (n : Nat) (src : RVec) : Except Fault GVec :=
  if n = v.size then .ok { v with e := fun k => if k < n then src k else v.e k }
  else .error .outOfBounds

/-- Element assignment `m(i, j) = val`. -/
def GMat.set (m : GMat) (i j : Nat) (val : ℚ) : Except Fault GMat :=
  if i < m.rows ∧ j < m.cols then
    .ok { m with e := fun a b => if a = i ∧ b = j then val else m.e a b }
  else .error .outOfBounds

/-- Read of `ublas::subrange(m, r, r+nr, c, c+nc)`. -/
def GMat.getSub (m : GMat) (r nr c nc : Nat) : Except Fault RMat :=
  if r + nr ≤ m.rows ∧ c + nc ≤ m.cols then
    .ok (fun a b => if a < nr ∧ b < nc then m.e (r + a) (c + b) else 0)
  else .error .outOfBounds

/-- Assignment `ublas::subrange(m, r, r+nr, c, c+nc) = src`. -/
def GMat.setSub (m : GMat) (r nr c nc : Nat) (src : RMat) : Except Fault GMat :=
  if r + nr ≤ m.rows ∧ c + nc ≤ m.cols then
    .ok { m with e := fun a b =>
            if r ≤ a ∧ a < r + nr ∧ c ≤ b ∧ b < c + nc then src (a - r) (b - c) else m.e a b }
  else .error .outOfBounds

/-- Assignment `m = src` of an `nr x nc` matrix expression to a matrix that
cannot be resized. -/
def GMat.assign (m : GMat) (nr nc : Nat) (src : RMat) : Except Fault GMat :=
  if nr = m.rows ∧ nc = m.cols then
    .ok { m with e := fun a b => if a < nr ∧ b < nc then src a b else m.e a b }
  else .error .outOfBounds

/-- The call `m.clear()`: every entry becomes zero, the size is kept. -/
def GMat.clear (m : GMat) : GMat := { m with e := fun _ _ => 0 }

/-- The call `m.resize(r, c, false)`: new size, contents not preserved (they are left as
they were in the embedding; every reader overwrites them first). -/
def GMat.resize (m : GMat) (r c : Nat) : GMat := { m with rows := r, cols := c }

/-- A mean vector with its covariance (`Measurement`, `Expectation`, `Innovation`). -/
structure Gaussian where
  x : GVec
  P : GMat

/-- Modelled from the spec: the constructor `Gaussian(size)` of
`rtslam/gaussian.hpp` behind `new Measurement(inns)`, `new Expectation(inns)` and
`new Innovation(inns)`. The specification gives a (mean vector, covariance
matrix) pair of dimension `inns`, the measurement covariance being diagonal;
`process` writes the diagonal only, so the contents start at zero. -/
def Gaussian.ofSize (n : Nat) : Gaussian :=
  { x := { size := n, e := fun _ => 0 }, P := { rows := n, cols := n, e := fun _ _ => 0 } }

/-- The square, `jmath::sqr`. -/
def sqr (a : ℚ) : ℚ := a * a

/-- The identity matrix, `jblas::identity_mat`. -/
def identity_mat : RMat := fun a b => if a = b then 1 else 0

/-- The product `ublas::prod(A, B)` where `A` has `n` columns. -/
def prod (n : Nat) (A B : RMat) : RMat :=
  fun i j => Finset.sum (Finset.range n) (fun k => A i k * B k j)

/-- The function `ublasExtra::prod_JPJt(P, J)`, the matrix `J * P * J^T`, where `J` has `n`
columns and `P` is `n x n`. -/
def prod_JPJt (n : Nat) (P J : RMat) : RMat :=
  fun i j => Finset.sum (Finset.range n) (fun a =>
    Finset.sum (Finset.range n) (fun b => J i a * P a b * J j b))

/-- The projection `ublas::project(P, ia, ia)`. -/
def project (P : RMat) (ia : List Nat) : RMat :=
  fun a b => P (ia.getD a 0) (ia.getD b 0)

/-- The quaternion helpers of `rtslam/quatTools.hpp` used by `process`; the
matrices are the Jacobians the helpers write into their last argument. -/
structure QuatKernel where
  rotate : RVec → RVec → RVec
  rotate_by_dq : RVec → RVec → RMat
  qProd : RVec → RVec → RVec
  qProd_by_dq1 : RVec → RMat
  q2e : RVec → RVec × RMat
  e2q : RVec → RVec × RMat
  q2qc : RVec → RVec

/-- Arguments of one call `filterPtr->correct(ia_x, *innovation, INN_rs, ia_rs)`. -/
structure CorrectCall where
  ia_x : List Nat
  innovation : Gaussian
  INN_rs : GMat
  ia_rs : List Nat

/-- The robot and the map filter reached through `robotPtr()`: the joint state
mean `x` and covariance `P`, the indices `ia_pose` of the seven robot pose
components in the joint state, the origin offset, the indices of the used
states, and the record of the calls made to the filter's `correct`. -/
structure World where
  x : RVec
  P : RMat
  ia_pose : Nat → Nat
  origin_sensors : RVec
  ia_used_states : List Nat
  corrections : List CorrectCall

/-- The robot pose mean `robotPtr()->pose.x()`. -/
def World.pose_x (w : World) : RVec := fun k => w.x (w.ia_pose k)

/-- The robot pose covariance `robotPtr()->pose.P()`. -/
def World.pose_P (w : World) : RMat := fun a b => w.P (w.ia_pose a) (w.ia_pose b)

/-- Assignment `ublas::subrange(robotPtr()->pose.x(), off, off+n) = src`, element
by element through the pose indices. -/
def World.setPoseX (w : World) (off n : Nat) (src : RVec) : World :=
  { w with
    x := List.foldl (fun acc k => Function.update acc (w.ia_pose (off + k)) (src k)) w.x
      (List.range n) }

/-- One element assignment of a matrix held as a function. -/
def update2 (P : RMat) (i j : Nat) (val : ℚ) : RMat :=
  fun a b => if a = i ∧ b = j then val else P a b

/-- Assignment `ublas::subrange(robotPtr()->pose.P(), off,off+n, off,off+n) = src`,
element by element (row major) through the pose indices. -/
def World.setPoseP (w : World) (off n : Nat) (src : RMat) : World :=
  { w with
    P := List.foldl
      (fun acc a => List.foldl
        (fun acc2 b => update2 acc2 (w.ia_pose (off + a)) (w.ia_pose (off + b)) (src a b))
        acc (List.range n))
      w.P (List.range n) }

/-- The members of `SensorAbsloc` together with those it inherits and uses:
`use_for_init`, `reading.data`, the sensor's own pose `pose.x()` and the bound
hardware. A null pointer is `none`. -/
structure SensorAbsloc where
  ia_rs : List Nat
  innovation : Option Gaussian
  measurement : Option Gaussian
  expectation : Option Gaussian
  EXP_rs : GMat
  INN_rs : GMat
  EXP_q : GMat
  inns : Nat
  absolute : Bool
  first : Bool
  use_for_init : Bool
  reading : RVec
  pose : RVec
  hardware : Option Hardware

/-- The constructor (lines 55-59). The inherited members are arguments. -/
def SensorAbsloc.new (ia_globalPose : List Nat) ( absolute : Bool) (use_for_init : Bool)
    (reading pose : RVec) : SensorAbsloc :=
  { ia_rs := ia_globalPose, innovation := none, measurement := none, expectation := none,
    EXP_rs := { rows := 0, cols := 0, e := fun _ _ => 0 },
    INN_rs := { rows := 0, cols := 0, e := fun _ _ => 0 },
    EXP_q := { rows := 0, cols := 0, e := fun _ _ => 0 },
    inns := 0, absolute := absolute, first := true, use_for_init := use_for_init,
    reading := reading, pose := pose, hardware := none }

/-- The method `setHardwareSensor` (lines 61-72). -/
def setHardwareSensor (hw : Hardware) (s : SensorAbsloc) : SensorAbsloc :=
  { s with
    hardware := some hw
    inns := hw.dataSize
    innovation := some (Gaussian.ofSize hw.dataSize)
    measurement := some (Gaussian.ofSize hw.dataSize)
    expectation := some (Gaussian.ofSize hw.dataSize)
    EXP_rs := s.EXP_rs.resize hw.dataSize s.ia_rs.length
    INN_rs := s.INN_rs.resize hw.dataSize s.ia_rs.length
    EXP_q := s.EXP_q.resize 3 4 }

/-! ## `SensorAbsloc::process` -/

/-- Assignment `ublas::subrange(m, r, r+nr, c, c+nc) = src` from a sized matrix:
the sizes of the two sides have to agree. -/
def GMat.setSubFrom (m : GMat) (r nr c nc : Nat) (src : GMat) : Except Fault GMat :=
  if src.rows = nr ∧ src.cols = nc then m.setSub r nr c nc src.e else .error .outOfBounds

/-- Read of `ublas::subrange(m, r, r+nr, c, c+nc)` for a total matrix. -/
def subrange2 (m : RMat) (r nr c nc : Nat) : RMat :=
  fun a b => if a < nr ∧ b < nc then m (r + a) (c + b) else 0

/-- The buffers written and the index locals of `process` during lines 114-167. -/
structure Cycle where
  EXP_rs : GMat
  EXP_q : GMat
  measurement : Gaussian
  expectation : Gaussian
  indexE : Nat
  indexE_Pos : Nat
  indexE_OriEuler : Nat

/-- Position channel, lines 130-136: the Jacobian rows, the expected position
and the measured position. -/
def positionMean (K : QuatKernel) (indexD_Pos : Nat) (reading origin p q T Tr : RVec)
    (c : Cycle) : Except Fault Cycle := do
  let EXP_q ← c.EXP_q.setSub 0 3 0 4 (K.rotate_by_dq q T)
  let EXP_rs1 ← c.EXP_rs.setSub c.indexE 3 0 3 identity_mat
  let EXP_rs2 ← EXP_rs1.setSubFrom c.indexE 3 3 4 EXP_q
  let ex ← c.expectation.x.setSub c.indexE 3 (fun k => p k + Tr k)
  let mx ← c.measurement.x.setSub c.indexE 3
    (fun k => subrange reading indexD_Pos 3 k - origin k)
  pure { c with
    EXP_q := EXP_q
    EXP_rs := EXP_rs2
    expectation := { c.expectation with x := ex }
    measurement := { c.measurement with x := mx } }

/-- Position channel, lines 137-144: the measurement covariance and the index
bookkeeping. -/
def positionCov (inns indexD_Pos : Nat) (reading : RVec) (c : Cycle) : Except Fault Cycle := do
  let P0 ← c.measurement.P.set 0 0 (sqr (reading (indexD_Pos + 0 + inns)))
  let P1 ← P0.set 1 1 (sqr (reading (indexD_Pos + 1 + inns)))
  let P2 ← P1.set 2 2 (sqr (reading (indexD_Pos + 2 + inns)))
  pure { c with
    measurement := { c.measurement with P := P2 }
    indexE_Pos := c.indexE
    indexE := c.indexE + 3 }

/-- Orientation channel, lines 151-160: the expected Euler angles, the Jacobian
rows and the measured Euler angles. -/
def orientationMean (K : QuatKernel) (indexD_OriEuler : Nat) (reading q r : RVec)
    (c : Cycle) : Except Fault Cycle := do
  let qr := K.qProd q r
  let QR_q := K.qProd_by_dq1 r
  let eE := K.q2e qr
  let ex ← c.expectation.x.setSub c.indexE 3 eE.1
  let EXP_rs ← c.EXP_rs.setSub c.indexE 3 3 4 (prod 4 eE.2 QR_q)
  let mx ← c.measurement.x.setSub c.indexE 3 (subrange reading indexD_OriEuler 3)
  pure { c with
    EXP_rs := EXP_rs
    expectation := { c.expectation with x := ex }
    measurement := { c.measurement with x := mx } }

/-- Orientation channel, lines 161-166: the measurement covariance and the index
bookkeeping. -/
def orientationCov (inns indexD_OriEuler : Nat) (reading : RVec) (c : Cycle) :
    Except Fault Cycle := do
  let P3 ← c.measurement.P.set 3 3 (sqr (reading (indexD_OriEuler + 0 + inns)))
  let P4 ← P3.set 4 4 (sqr (reading (indexD_OriEuler + 1 + inns)))
  let P5 ← P4.set 5 5 (sqr (reading (indexD_OriEuler + 2 + inns)))
  pure { c with
    measurement := { c.measurement with P := P5 }
    indexE_OriEuler := c.indexE
    indexE := c.indexE + 3 }

/-- Line 115: the sensor position in the robot frame (the lever arm). -/
def SensorAbsloc.T (s : SensorAbsloc) : RVec := subrange s.pose 0 3

/-- Line 116: the sensor orientation in the robot frame. -/
def SensorAbsloc.r (s : SensorAbsloc) : RVec := subrange s.pose 3 4

/-- Line 117: the robot position at the entry of `process`. -/
def World.p (w : World) : RVec := subrange w.pose_x 0 3

/-- Line 118: the robot orientation at the entry of `process`. -/
def World.q (w : World) : RVec := subrange w.pose_x 3 4

/-- Line 119: the lever arm rotated by the robot orientation at the entry of
`process`. -/
def leverTr (K : QuatKernel) (s : SensorAbsloc) (w : World) : RVec := K.rotate w.q s.T

/-- Lines 109-112: the reading processed in this cycle, in exact arithmetic. -/
def fetchReading (hw : Hardware) (s : SensorAbsloc) (id : Nat) : Except Fault RVec :=
  if s.use_for_init then init hw s.inns id s.reading else pure (hw.raw id)

/-- Lines 114 and 121-122: the buffers and index locals before the channels
are composed. -/
def cycleStart (s : SensorAbsloc) (meas expe : Gaussian) : Cycle :=
  { EXP_rs := s.EXP_rs.clear, EXP_q := s.EXP_q, measurement := meas, expectation := expe,
    indexE := 0, indexE_Pos := 0, indexE_OriEuler := 0 }

/-- Lines 127-145: the position channel, when present. -/
def positionBlock (K : QuatKernel) (hw : Hardware) (s : SensorAbsloc) (reading : RVec)
    (w : World) (c : Cycle) : Except Fault Cycle :=
  if hw.qPos ≠ 0 then
    (positionMean K hw.qPos reading w.origin_sensors w.p w.q s.T (leverTr K s w) c) >>=
      positionCov s.inns hw.qPos reading
  else pure c

/-- Lines 148-167: the orientation channel, when present. -/
def orientationBlock (K : QuatKernel) (hw : Hardware) (s : SensorAbsloc) (reading : RVec)
    (w : World) (c : Cycle) : Except Fault Cycle :=
  if hw.qOriEuler ≠ 0 then
    (orientationMean K hw.qOriEuler reading w.q s.r c) >>=
      orientationCov s.inns hw.qOriEuler reading
  else pure c

/-- Lines 114-167: the measurement composer. -/
def compose (K : QuatKernel) (hw : Hardware) (s : SensorAbsloc) (meas expe : Gaussian)
    (reading : RVec) (w : World) : Except Fault Cycle :=
  (positionBlock K hw s reading w (cycleStart s meas expe)) >>=
    orientationBlock K hw s reading w

/-- First fix, lines 175-191: the robot orientation and its covariance. -/
def firstOrientation (K : QuatKernel) (r : RVec) (c : Cycle) (w : World) :
    Except Fault World := do
  let ri := K.q2qc r
  let em ← c.measurement.x.getSub c.indexE_OriEuler 3
  let qQ := K.e2q em
  let q := K.qProd qQ.1 ri
  let Q_qr := K.qProd_by_dq1 ri
  let Q_exp := prod 4 Q_qr qQ.2
  let w1 := w.setPoseX 3 4 q
  let Pm ← c.measurement.P.getSub c.indexE_OriEuler 3 c.indexE_OriEuler 3
  pure (w1.setPoseP 3 4 (prod_JPJt 3 Pm Q_exp))

/-- First fix, lines 193-212: the robot position, its covariance and the origin
offset. `Tr` is the local computed at line 119. -/
def firstPosition ( absolute : Bool) (Tr : RVec) (c : Cycle) (w : World) :
    Except Fault World := do
  let mx ← c.measurement.x.getSub c.indexE_Pos 3
  let mP ← c.measurement.P.getSub c.indexE_Pos 3 c.indexE_Pos 3
  if absolute then
    let w1 : World := { w with origin_sensors := fun _ => 0 }
    let w2 := w1.setPoseX 0 3 (subrange (fun k => mx k - Tr k) 0 3)
    pure (w2.setPoseP 0 3 (fun a b =>
      mP a b + prod_JPJt c.EXP_q.cols (subrange2 w2.pose_P 3 4 3 4) c.EXP_q.e a b))
  else
    let w1 : World := { w with origin_sensors := subrange (fun k => mx k - Tr k) 0 3 }
    let w2 := w1.setPoseX 0 3 (fun _ => 0)
    pure (w2.setPoseP 0 3 (fun a b =>
      mP a b + prod_JPJt c.EXP_q.cols (subrange2 w2.pose_P 3 4 3 4) c.EXP_q.e a b))

/-- First fix, lines 172-212. -/
def firstFix (K : QuatKernel) (hw : Hardware) ( absolute : Bool) (r Tr : RVec) (c : Cycle)
    (w : World) : Except Fault World := do
  let w1 ← if hw.qOriEuler ≠ 0 then firstOrientation K r c w else pure w
  if hw.qPos ≠ 0 then firstPosition absolute Tr c w1 else pure w1

/-- What the steady-state path leaves behind. -/
structure Steady where
  expectation : Gaussian
  innovation : Gaussian
  INN_rs : GMat
  world : World

/-- Steady state, lines 215-223. `F` is the effect of the filter's `correct`
on the joint mean and covariance. -/
def steadyState (F : CorrectCall → RVec × RMat → RVec × RMat) (ia_rs : List Nat) (inns : Nat)
    (inn : Gaussian) (c : Cycle) (w : World) : Except Fault Steady := do
  let J ← if c.EXP_rs.cols = ia_rs.length ∧ c.EXP_rs.rows = inns then pure c.EXP_rs
    else .error .outOfBounds
  let eP ← c.expectation.P.setSub 0 inns 0 inns
    (prod_JPJt J.cols (project w.P ia_rs) J.e)
  let expe : Gaussian := { c.expectation with P := eP }
  let ix ← if c.measurement.x.size = expe.x.size then
      inn.x.assign expe.x.size (fun k => c.measurement.x.e k - expe.x.e k)
    else .error .outOfBounds
  let iP ← if c.measurement.P.rows = expe.P.rows ∧ c.measurement.P.cols = expe.P.cols then
      inn.P.assign expe.P.rows expe.P.cols (fun a b => c.measurement.P.e a b + expe.P.e a b)
    else .error .outOfBounds
  let innovation : Gaussian := { x := ix, P := iP }
  let INN_rs : GMat := { rows := J.rows, cols := J.cols, e := fun a b => - J.e a b }
  let call : CorrectCall :=
    { ia_x := w.ia_used_states, innovation := innovation, INN_rs := INN_rs, ia_rs := ia_rs }
  let xP := F call (w.x, w.P)
  pure { expectation := expe, innovation := innovation, INN_rs := INN_rs,
         world := { w with x := xP.1, P := xP.2, corrections := w.corrections ++ [call] } }

/-- Lines 170-224: the first fix or the steady-state correction. -/
def cycleBranch (K : QuatKernel) (F : CorrectCall → RVec × RMat → RVec × RMat)
    (hw : Hardware) (s : SensorAbsloc) (inn : Gaussian) (reading : RVec) (c : Cycle)
    (w : World) : Except Fault (SensorAbsloc × World) :=
  let s1 : SensorAbsloc :=
    { s with reading := reading, EXP_rs := c.EXP_rs, EXP_q := c.EXP_q,
             measurement := some c.measurement, expectation := some c.expectation }
  if s.first then
    (firstFix K hw s.absolute s.r (leverTr K s w) c w) >>= fun w1 =>
      pure ({ s1 with first := false }, w1)
  else
    (steadyState F s.ia_rs s.inns inn c w) >>= fun st =>
      pure ({ s1 with expectation := some st.expectation,
                      innovation := some st.innovation, INN_rs := st.INN_rs }, st.world)

/-- Lines 226-230: a pending initialisation request is cleared and the raw is
fetched once more. -/
def finish (hw : Hardware) (id : Nat) ( use_for_init : Bool) (sw : SensorAbsloc × World) :
    SensorAbsloc × World :=
  if use_for_init then ({ sw.1 with use_for_init := false, reading := hw.raw id }, sw.2)
  else sw

/-- The method `SensorAbsloc::process(id)` (lines 107-233) in exact arithmetic: the sensor
and the world after the call. A cycle whose reading has no rational value is
marked `Fault.notFinite` here; the C++ runs it to the end, see `Fp.process`. -/
def process (K : QuatKernel) (F : CorrectCall → RVec × RMat → RVec × RMat) (id : Nat)
    (s : SensorAbsloc) (w : World) : Except Fault (SensorAbsloc × World) :=
  match s.hardware, s.measurement, s.expectation, s.innovation with
  | some hw, some meas, some expe, some inn =>
    (fetchReading hw s id) >>= fun reading =>
    (compose K hw s meas expe reading w) >>= fun c =>
    (cycleBranch K F hw s inn reading c w) >>= fun sw =>
    pure (finish hw id s.use_for_init sw)
  | _, _, _, _ => .error .nullPointer

/-! ## Concrete inputs used by the examples -/

/-- Vector with the three given components (zero elsewhere). -/
def vec3 (a b c : ℚ) : RVec := fun k => if k = 0 then a else if k = 1 then b else if k = 2 then c else 0

/-- A rational quaternion kernel for the examples: Hamilton product, conjugate,
rotation of a vector by a unit quaternion and the derivatives of the rotation
and of the product. The conversions between quaternions and Euler angles are
not rational functions; `e2q` answers the fixed quaternion `qr` and `q2e`
answers zero, both with a zero Jacobian. -/
def exampleKernel (qr : RVec) : QuatKernel where
  rotate := fun q v => vec3
    ((q 0 * q 0 + q 1 * q 1 - q 2 * q 2 - q 3 * q 3) * v 0
      + 2 * (q 1 * q 2 - q 0 * q 3) * v 1 + 2 * (q 1 * q 3 + q 0 * q 2) * v 2)
    (2 * (q 1 * q 2 + q 0 * q 3) * v 0
      + (q 0 * q 0 - q 1 * q 1 + q 2 * q 2 - q 3 * q 3) * v 1
      + 2 * (q 2 * q 3 - q 0 * q 1) * v 2)
    (2 * (q 1 * q 3 - q 0 * q 2) * v 0 + 2 * (q 2 * q 3 + q 0 * q 1) * v 1
      + (q 0 * q 0 - q 1 * q 1 - q 2 * q 2 + q 3 * q 3) * v 2)
  rotate_by_dq := fun q v a b =>
    let t0 := 2 * (q 0 * v 0 - q 3 * v 1 + q 2 * v 2)
    let t1 := 2 * (q 1 * v 0 + q 2 * v 1 + q 3 * v 2)
    let t2 := 2 * (- (q 2 * v 0) + q 1 * v 1 + q 0 * v 2)
    let t3 := 2 * (- (q 3 * v 0) - q 0 * v 1 + q 1 * v 2)
    if a = 0 then vec3 t0 t1 t2 b + (if b = 3 then t3 else 0)
    else if a = 1 then vec3 (- t3) (- t2) t1 b + (if b = 3 then t0 else 0)
    else if a = 2 then vec3 t2 (- t3) (- t0) b + (if b = 3 then t1 else 0)
    else 0
  qProd := fun p q k =>
    if k = 0 then p 0 * q 0 - p 1 * q 1 - p 2 * q 2 - p 3 * q 3
    else if k = 1 then p 0 * q 1 + p 1 * q 0 + p 2 * q 3 - p 3 * q 2
    else if k = 2 then p 0 * q 2 - p 1 * q 3 + p 2 * q 0 + p 3 * q 1
    else if k = 3 then p 0 * q 3 + p 1 * q 2 - p 2 * q 1 + p 3 * q 0
    else 0
  qProd_by_dq1 := fun q a b =>
    if a = 0 then (if b = 0 then q 0 else if b = 1 then - q 1 else if b = 2 then - q 2
      else if b = 3 then - q 3 else 0)
    else if a = 1 then (if b = 0 then q 1 else if b = 1 then q 0 else if b = 2 then q 3
      else if b = 3 then - q 2 else 0)
    else if a = 2 then (if b = 0 then q 2 else if b = 1 then - q 3 else if b = 2 then q 0
      else if b = 3 then q 1 else 0)
    else if a = 3 then (if b = 0 then q 3 else if b = 1 then q 2 else if b = 2 then - q 1
      else if b = 3 then q 0 else 0)
    else 0
  q2e := fun _ => (fun _ => 0, fun _ _ => 0)
  e2q := fun _ => (qr, fun _ _ => 0)
  q2qc := fun q k => if k = 0 then q 0 else if k < 4 then - q k else 0

/-- The identity quaternion. -/
def qIdentity : RVec := fun k => if k = 0 then 1 else 0

/-- A filter `correct` that leaves the joint state as it is (for the examples). -/
def exampleCorrect : CorrectCall → RVec × RMat → RVec × RMat := fun _ xP => xP

/-- A world whose robot pose is at joint indices `2..8`, with the given
position, orientation quaternion and joint covariance. -/
def exampleWorld (p q : RVec) (P : RMat) : World :=
  { x := fun k => if 2 ≤ k ∧ k < 5 then p (k - 2) else if 5 ≤ k ∧ k < 9 then q (k - 5) else 0
    P := P
    ia_pose := fun k => k + 2
    origin_sensors := fun _ => 0
    ia_used_states := [2, 3, 4, 5, 6, 7, 8]
    corrections := [] }

/-- Raw sample `[t | values | variances]` given as a list. -/
def rawOfList (l : List ℚ) : RVec := fun k => l.getD k 0

/-- Position-only hardware (`dataSize() = 3`, position at index 1): one raw,
with id 0, measuring `(5,0,0)` with reported uncertainty `1/100` on each axis. -/
def hwPos : Hardware :=
  { dataSize := 3, qPos := 1, qOriEuler := 0, available := [0],
    raw := fun _ => rawOfList [0, 5, 0, 0, 1/100, 1/100, 1/100] }

/-- Sensor pose with lever arm `(1,0,0)` and identity orientation offset. -/
def leverPose : RVec := fun k => if k = 0 then 1 else if k = 3 then 1 else 0

/-- A sensor bound to `hw` right after construction, with lever arm `(1,0,0)`. -/
def exampleSensor (hw : Hardware) ( absolute : Bool) : SensorAbsloc :=
  setHardwareSensor hw
    (SensorAbsloc.new [2, 3, 4, 5, 6, 7, 8] absolute false (fun _ => 0) leverPose)

/-- One available raw, id 0: values `(1,2,3)`, reported variance 1500 on each axis. -/
def hwHighVar : Hardware :=
  { dataSize := 3, qPos := 1, qOriEuler := 0, available := [0],
    raw := fun _ => rawOfList [0, 1, 2, 3, 1500, 1500, 1500] }

/-- Two available raws: id 0 with values 10 and variance 1200 on each axis,
id 1 with values 20 and variance 2100 on each axis. -/
def hwTwoHigh : Hardware :=
  { dataSize := 3, qPos := 1, qOriEuler := 0, available := [0, 1],
    raw := fun k => if k = 0 then rawOfList [0, 10, 10, 10, 1200, 1200, 1200]
                    else rawOfList [0, 20, 20, 20, 2100, 2100, 2100] }

/-- The hardware source `hw` with the value reported on axis `i` by the raw of
id `k` replaced by `v`. -/
def replaceValue (hw : Hardware) (k : Nat) (i : Fin 3) (v : ℚ) : Hardware :=
  { hw with raw := Function.update hw.raw k (Function.update (hw.raw k) (i.val + 1) v) }

/-- Three available raws with ids 0, 1, 2: the raws 0 and 2 report the values
`(1,1,1)` and `(3,3,3)` with variance 2 on each axis, the raw 1 reports the
values `(100,100,100)` with variance 6 on each axis. -/
def hwOutlier : Hardware :=
  { dataSize := 3, qPos := 1, qOriEuler := 0, available := [0, 1, 2],
    raw := fun k => if k = 0 then rawOfList [0, 1, 1, 1, 2, 2, 2]
                    else if k = 1 then rawOfList [0, 100, 100, 100, 6, 6, 6]
                    else rawOfList [0, 3, 3, 3, 2, 2, 2] }

/-- The buffer shapes fixed by `setHardwareSensor`: every `Gaussian` has
dimension `inns`, `EXP_rs` is `inns x ia_rs.size()`, `EXP_q` is `3 x 4`; the
index array holds at least the seven robot pose indices. -/
def Shapes (s : SensorAbsloc) (meas expe inn : Gaussian) : Prop :=
  (meas.x.size = s.inns ∧ meas.P.rows = s.inns ∧ meas.P.cols = s.inns) ∧
  (expe.x.size = s.inns ∧ expe.P.rows = s.inns ∧ expe.P.cols = s.inns) ∧
  (inn.x.size = s.inns ∧ inn.P.rows = s.inns ∧ inn.P.cols = s.inns) ∧
  (s.EXP_rs.rows = s.inns ∧ s.EXP_rs.cols = s.ia_rs.length) ∧
  (s.EXP_q.rows = 3 ∧ s.EXP_q.cols = 4) ∧ 7 ≤ s.ia_rs.length

/-- The buffers are large enough for the channels the hardware reports. -/
def Channels (hw : Hardware) (inns : Nat) : Prop :=
  (hw.qPos ≠ 0 → 3 ≤ inns) ∧ (hw.qOriEuler ≠ 0 → 6 ≤ inns)

/-- The `n x n` leading block of `M` is positive semi-definite. -/
def IsPSD (n : Nat) (M : RMat) : Prop :=
  ∀ v : RVec, 0 ≤ Finset.sum (Finset.range n) (fun a =>
    Finset.sum (Finset.range n) (fun b => v a * M a b * v b))

/-- The quaternion of a half turn about the vertical axis. -/
def qHalfTurn : RVec := fun k => if k = 3 then 1 else 0

/-- Hardware with both channels (`dataSize() = 6`, position at index 1, Euler
angles at index 4): one raw, with id 0, measuring the position `(5,0,0)` and
the Euler angles `(0,0,3)`, a yaw of about a half turn. -/
def hwBoth : Hardware :=
  { dataSize := 6, qPos := 1, qOriEuler := 4, available := [0],
    raw := fun _ => rawOfList [0, 5, 0, 0, 0, 0, 3, 1/100, 1/100, 1/100, 1/100, 1/100, 1/100] }

/-- Orientation-only hardware (`dataSize() = 3`, Euler angles at index 1). -/
def hwOri : Hardware :=
  { dataSize := 3, qPos := 0, qOriEuler := 1, available := [0],
    raw := fun _ => rawOfList [0, 1/10, 2/10, 3/10, 1/100, 1/100, 1/100] }

/-- The hardware source `hw` with `l` as its list of available ids. -/
def Hardware.withAvailable (hw : Hardware) (l : List Nat) : Hardware :=
  { hw with available := l }

/-- Hardware with both channels in the other order (`dataSize() = 6`, Euler
angles at index 1, position at index 4) and two available raws: id 0 with
angles `(1/10, 2/10, 3/10)` and position `(10, 20, 30)`, id 1 with angles
`(3/10, 4/10, 5/10)` and position `(30, 40, 50)`; the reported uncertainty is 1
on the angles and 2 on the position. -/
def hwSwapped : Hardware :=
  { dataSize := 6, qPos := 4, qOriEuler := 1, available := [0, 1],
    raw := fun k =>
      if k = 0 then rawOfList [0, 1/10, 2/10, 3/10, 10, 20, 30, 1, 1, 1, 2, 2, 2]
      else rawOfList [0, 3/10, 4/10, 5/10, 30, 40, 50, 1, 1, 1, 2, 2, 2] }

/-! ## `LandmarkEuclideanPoint` -/

/-- Geometry kind of a landmark (`geomType`); `POINT` is the one the source
names. -/
inductive GeomType where
  | POINT
  | otherGeometry
  deriving DecidableEq, Repr

/-- Parametrization kind of a landmark (`type`); `PNT_EUC` is the one the source
names. -/
inductive LandmarkType where
  | PNT_EUC
  | otherType
  deriving DecidableEq, Repr

/-- The members of `LandmarkAbstract` that the constructors of
`LandmarkEuclideanPoint` assign. -/
structure LandmarkAbstract where
  geomType : GeomType
  type : LandmarkType
  converged : Bool

/-- A constructed `LandmarkEuclideanPoint`: the size argument handed to the
`LandmarkAbstract` constructor and the members after the constructor body. -/
structure LandmarkEuclideanPoint where
  baseSize : Nat
  members : LandmarkAbstract

/-- Modelled from the spec: the static `LandmarkEuclideanPoint::size()`, declared
in `rtslam/landmarkEuclideanPoint.hpp`; the specification gives a point landmark
3 degrees of freedom. -/
def LandmarkEuclideanPoint.size : Nat := 3

/-- Constructor from map (lines 16-21); `base n` is what the `LandmarkAbstract`
constructor called with size `n` leaves in the assigned members. -/
def LandmarkEuclideanPoint.fromMap (base : Nat → LandmarkAbstract) : LandmarkEuclideanPoint :=
  { baseSize := 3
    members := { base 3 with geomType := .POINT, type := .PNT_EUC, converged := true } }

/-- Constructor for simulation (lines 23-28). -/
def LandmarkEuclideanPoint.forSimulation (base : Nat → LandmarkAbstract) :
    LandmarkEuclideanPoint :=
  { baseSize := 3
    members := { base 3 with geomType := .POINT, type := .PNT_EUC, converged := true } }

/-- Constructor from a previous landmark (lines 33-38): the size handed to the
base is `size()`. -/
def LandmarkEuclideanPoint.fromPrevious (base : Nat → LandmarkAbstract) :
    LandmarkEuclideanPoint :=
  { baseSize := LandmarkEuclideanPoint.size
    members := { base LandmarkEuclideanPoint.size with
      geomType := .POINT, type := .PNT_EUC, converged := true } }

namespace Fp

/-- The operations of the scalar type standing for `double` that the source
uses: the decimal literals, `+`, `-`, `*`, `/`, unary `-` and `<`. -/
structure Arith (R : Type) where
  zero : R
  one : R
  lit : ℚ → R
  add : R → R → R
  sub : R → R → R
  mul : R → R → R
  div : R → R → R
  neg : R → R
  lt : R → R → Bool

/-- Contents of a vector, by index. -/
abbrev Vec (R : Type) := Nat → R

/-- Contents of a matrix, by row and column. -/
abbrev Mat (R : Type) := Nat → Nat → R

/-- Hardware reading source bound to the sensor: `dataSize()`, `getQuantity(qPos)`,
`getQuantity(qOriEuler)`, the ids listed by `queryAvailableRaws` and the data
delivered by `observeRaw` / `getRaw` for an id. -/
structure Hardware (R : Type) where
  dataSize : Nat
  qPos : Nat
  qOriEuler : Nat
  available : List Nat
  raw : Nat → Vec R

/-- Initial value of `min_var` (line 81). -/
def min_var0 {R : Type} (A : Arith R) : Fin 3 → R := fun _ => A.lit 1000

/-- Loop of lines 82-87: scan the available raws, lowering `min_var` on each
axis, until the raw with the target id has been read. The state is
`(min_var, reading.data)`. -/
def scanMinVar {R : Type} (A : Arith R) (raw : Nat → Vec R) (inns id : Nat) :
    List Nat → (Fin 3 → R) × Vec R → (Fin 3 → R) × Vec R
  | [], st => st
  | it :: rest, st =>
    let reading : Vec R := raw it
    let min_var : Fin 3 → R := fun i =>
      if A.lt (reading (i.val + 1 + inns)) (st.1 i) then reading (i.val + 1 + inns) else st.1 i
    if it = id then (min_var, reading) else scanMinVar A raw inns id rest (min_var, reading)

/-- Loop of lines 92-99: accumulate `value * variance` and `variance` of the
readings whose variance is below `2 * min_var`. The state is
`(average, sum_coeffs, reading.data)`. -/
def accumulate {R : Type} (A : Arith R) (raw : Nat → Vec R) (inns id : Nat)
    (min_var : Fin 3 → R) :
    List Nat → (Fin 3 → R) × (Fin 3 → R) × Vec R → (Fin 3 → R) × (Fin 3 → R) × Vec R
  | [], st => st
  | it :: rest, st =>
    let reading : Vec R := raw it
    let average : Fin 3 → R := fun i =>
      if A.lt (reading (i.val + 1 + inns)) (A.mul (A.lit 2) (min_var i)) then
        A.add (st.1 i) (A.mul (reading (i.val + 1)) (reading (i.val + 1 + inns)))
      else st.1 i
    let sum_coeffs : Fin 3 → R := fun i =>
      if A.lt (reading (i.val + 1 + inns)) (A.mul (A.lit 2) (min_var i)) then
        A.add (st.2.1 i) (reading (i.val + 1 + inns))
      else st.2.1 i
    if it = id then (average, sum_coeffs, reading)
    else accumulate A raw inns id min_var rest (average, sum_coeffs, reading)

/-- Values of the locals of `init` when line 100 is reached. -/
structure InitAcc (R : Type) where
  min_var : Fin 3 → R
  average : Fin 3 → R
  sum_coeffs : Fin 3 → R
  reading : Vec R

/-- Lines 77-99 of `init`. -/
def initAccumulate {R : Type} (A : Arith R) (hw : Hardware R) (inns id : Nat)
    (reading : Vec R) : InitAcc R :=
  let m := scanMinVar A hw.raw inns id hw.available (min_var0 A, reading)
  let a := accumulate A hw.raw inns id m.1 hw.available (fun _ => A.zero, fun _ => A.zero, m.2)
  { min_var := m.1, average := a.1, sum_coeffs := a.2.1, reading := a.2.2 }

/-- Loop of line 103: for `i = 0, 1, 2` in turn, `reading.data(i+1) = average(i)`
and then `reading.data(i+1+inns) = min_var(i)`. -/
def writeBack {R : Type} (inns : Nat) (average min_var : Fin 3 → R) (reading : Vec R) : Vec R :=
  ([0, 1, 2] : List (Fin 3)).foldl
    (fun d i => Function.update (Function.update d (i.val + 1) (average i))
      (i.val + 1 + inns) (min_var i))
    reading

/-- The method `SensorAbsloc::init(id)`: the new contents of `reading.data`. The
three quotients of line 100 are computed whatever the divisors are. -/
def init {R : Type} (A : Arith R) (hw : Hardware R) (inns id : Nat) (reading : Vec R) : Vec R :=
  let acc := initAccumulate A hw inns id reading
  writeBack inns (fun i => A.div (acc.average i) (acc.sum_coeffs i)) acc.min_var acc.reading

/-- Dynamically sized vector (`jblas::vec` held by a `Gaussian`). -/
structure GVec (R : Type) where
  size : Nat
  e : Vec R

/-- Dynamically sized matrix (`jblas::mat`). -/
structure GMat (R : Type) where
  rows : Nat
  cols : Nat
  e : Mat R

/-- Read of `ublas::subrange(v, a, a+n)` for a total vector. -/
def subrange {R : Type} (A : Arith R) (v : Vec R) (a n : Nat) : Vec R :=
  fun k => if k < n then v (a + k) else A.zero

/-- Read of `ublas::subrange(v, a, a+n)`. -/
def GVec.getSub {R : Type} (A : Arith R) (v : GVec R) (a n : Nat) : Except Fault (Vec R) :=
  if a + n ≤ v.size then .ok (subrange A v.e a n) else .error .outOfBounds

/-- Assignment `ublas::subrange(v, a, a+n) = src`. -/
def GVec.setSub {R : Type} (v : GVec R) (a n : Nat) (src : Vec R) : Except Fault (GVec R) :=
  if a + n ≤ v.size then
    .ok { v with e := fun k => if a ≤ k ∧ k < a + n then src (k - a) else v.e k }
  else .error .outOfBounds

/-- Assignment `v = src` of a vector expression of size `n` to a vector that
cannot be resized. -/
def GVec.assign {R : Type} (v : GVec R) (n : Nat) (src : Vec R) : Except Fault (GVec R) :=
  if n = v.size then .ok { v with e := fun k => if k < n then src k else v.e k }
  else .error .outOfBounds

/-- Element assignment `m(i, j) = val`. -/
def GMat.set {R : Type} (m : GMat R) (i j : Nat) (val : R) : Except Fault (GMat R) :=
  if i < m.rows ∧ j < m.cols then
    .ok { m with e := fun a b => if a = i ∧ b = j then val else m.e a b }
  else .error .outOfBounds

/-- Read of `ublas::subrange(m, r, r+nr, c, c+nc)`. -/
def GMat.getSub {R : Type} (A : Arith R) (m : GMat R) (r nr c nc : Nat) :
    Except Fault (Mat R) :=
  if r + nr ≤ m.rows ∧ c + nc ≤ m.cols then
    .ok (fun a b => if a < nr ∧ b < nc then m.e (r + a) (c + b) else A.zero)
  else .error .outOfBounds

/-- Assignment `ublas::subrange(m, r, r+nr, c, c+nc) = src`. -/
def GMat.setSub {R : Type} (m : GMat R) (r nr c nc : Nat) (src : Mat R) :
    Except Fault (GMat R) :=
  if r + nr ≤ m.rows ∧ c + nc ≤ m.cols then
    .ok { m with e := fun a b =>
            if r ≤ a ∧ a < r + nr ∧ c ≤ b ∧ b < c + nc then src (a - r) (b - c) else m.e a b }
  else .error .outOfBounds

/-- Assignment `m = src` of an `nr x nc` matrix expression to a matrix that
cannot be resized. -/
def GMat.assign {R : Type} (m : GMat R) (nr nc : Nat) (src : Mat R) : Except Fault (GMat R) :=
  if nr = m.rows ∧ nc = m.cols then
    .ok { m with e := fun a b => if a < nr ∧ b < nc then src a b else m.e a b }
  else .error .outOfBounds

/-- The call `m.clear()`: every entry becomes zero, the size is kept. -/
def GMat.clear {R : Type} (A : Arith R) (m : GMat R) : GMat R := { m with e := fun _ _ => A.zero }

/-- The call `m.resize(r, c, false)`: new size, contents not preserved (they are left as
they were in the embedding; every reader overwrites them first). -/
def GMat.resize {R : Type} (m : GMat R) (r c : Nat) : GMat R := { m with rows := r, cols := c }

/-- Assignment `ublas::subrange(m, r, r+nr, c, c+nc) = src` from a sized matrix:
the sizes of the two sides have to agree. -/
def GMat.setSubFrom {R : Type} (m : GMat R) (r nr c nc : Nat) (src : GMat R) :
    Except Fault (GMat R) :=
  if src.rows = nr ∧ src.cols = nc then m.setSub r nr c nc src.e else .error .outOfBounds

/-- Read of `ublas::subrange(m, r, r+nr, c, c+nc)` for a total matrix. -/
def subrange2 {R : Type} (A : Arith R) (m : Mat R) (r nr c nc : Nat) : Mat R :=
  fun a b => if a < nr ∧ b < nc then m (r + a) (c + b) else A.zero

/-- A mean vector with its covariance (`Measurement`, `Expectation`, `Innovation`). -/
structure Gaussian (R : Type) where
  x : GVec R
  P : GMat R

/-- Modelled from the spec: the constructor `Gaussian(size)` of
`rtslam/gaussian.hpp` behind `new Measurement(inns)`, `new Expectation(inns)` and
`new Innovation(inns)`: a (mean vector, covariance matrix) pair of dimension
`inns` whose contents start at zero. -/
def Gaussian.ofSize {R : Type} (A : Arith R) (n : Nat) : Gaussian R :=
  { x := { size := n, e := fun _ => A.zero },
    P := { rows := n, cols := n, e := fun _ _ => A.zero } }

/-- Sum of `f 0`, ..., `f (n-1)`, accumulated from zero in index order. -/
def sumTo {R : Type} (A : Arith R) (n : Nat) (f : Nat → R) : R :=
  (List.range n).foldl (fun acc k => A.add acc (f k)) A.zero

/-- The identity matrix, `jblas::identity_mat`. -/
def identity_mat {R : Type} (A : Arith R) : Mat R := fun a b => if a = b then A.one else A.zero

/-- The product `ublas::prod(M, N)` where `M` has `n` columns. -/
def prod {R : Type} (A : Arith R) (n : Nat) (M N : Mat R) : Mat R :=
  fun i j => sumTo A n (fun k => A.mul (M i k) (N k j))

/-- The function `ublasExtra::prod_JPJt(P, J)`, the matrix `J * P * J^T`, where `J` has `n`
columns and `P` is `n x n`. -/
def prod_JPJt {R : Type} (A : Arith R) (n : Nat) (P J : Mat R) : Mat R :=
  fun i j => sumTo A n (fun a => sumTo A n (fun b => A.mul (A.mul (J i a) (P a b)) (J j b)))

/-- The projection `ublas::project(P, ia, ia)`. -/
def project {R : Type} (P : Mat R) (ia : List Nat) : Mat R :=
  fun a b => P (ia.getD a 0) (ia.getD b 0)

/-- The quaternion helpers of `rtslam/quatTools.hpp` used by `process`; the
matrices are the Jacobians the helpers write into their last argument. -/
structure QuatKernel (R : Type) where
  rotate : Vec R → Vec R → Vec R
  rotate_by_dq : Vec R → Vec R → Mat R
  qProd : Vec R → Vec R → Vec R
  qProd_by_dq1 : Vec R → Mat R
  q2e : Vec R → Vec R × Mat R
  e2q : Vec R → Vec R × Mat R
  q2qc : Vec R → Vec R

/-- Arguments of one call `filterPtr->correct(ia_x, *innovation, INN_rs, ia_rs)`. -/
structure CorrectCall (R : Type) where
  ia_x : List Nat
  innovation : Gaussian R
  INN_rs : GMat R
  ia_rs : List Nat

/-- The robot and the map filter reached through `robotPtr()`: the joint state
mean `x` and covariance `P`, the indices `ia_pose` of the seven robot pose
components in the joint state, the origin offset, the indices of the used
states, and the record of the calls made to the filter's `correct`. -/
structure World (R : Type) where
  x : Vec R
  P : Mat R
  ia_pose : Nat → Nat
  origin_sensors : Vec R
  ia_used_states : List Nat
  corrections : List (CorrectCall R)

/-- The robot pose mean `robotPtr()->pose.x()`. -/
def World.pose_x {R : Type} (w : World R) : Vec R := fun k => w.x (w.ia_pose k)

/-- The robot pose covariance `robotPtr()->pose.P()`. -/
def World.pose_P {R : Type} (w : World R) : Mat R :=
  fun a b => w.P (w.ia_pose a) (w.ia_pose b)

/-- Assignment `ublas::subrange(robotPtr()->pose.x(), off, off+n) = src`, element
by element through the pose indices. -/
def World.setPoseX {R : Type} (w : World R) (off n : Nat) (src : Vec R) : World R :=
  { w with
    x := List.foldl (fun acc k => Function.update acc (w.ia_pose (off + k)) (src k)) w.x
      (List.range n) }

/-- One element assignment of a matrix held as a function. -/
def update2 {R : Type} (P : Mat R) (i j : Nat) (val : R) : Mat R :=
  fun a b => if a = i ∧ b = j then val else P a b

/-- Assignment `ublas::subrange(robotPtr()->pose.P(), off,off+n, off,off+n) = src`,
element by element (row major) through the pose indices. -/
def World.setPoseP {R : Type} (w : World R) (off n : Nat) (src : Mat R) : World R :=
  { w with
    P := List.foldl
      (fun acc a => List.foldl
        (fun acc2 b => update2 acc2 (w.ia_pose (off + a)) (w.ia_pose (off + b)) (src a b))
        acc (List.range n))
      w.P (List.range n) }

/-- The members of `SensorAbsloc` together with those it inherits and uses:
`use_for_init`, `reading.data`, the sensor's own pose `pose.x()` and the bound
hardware. A null pointer is `none`. -/
structure SensorAbsloc (R : Type) where
  ia_rs : List Nat
  innovation : Option (Gaussian R)
  measurement : Option (Gaussian R)
  expectation : Option (Gaussian R)
  EXP_rs : GMat R
  INN_rs : GMat R
  EXP_q : GMat R
  inns : Nat
  absolute : Bool
  first : Bool
  use_for_init : Bool
  reading : Vec R
  pose : Vec R
  hardware : Option (Hardware R)

/-- The constructor (lines 55-59). The inherited members are arguments; the
three matrices are empty. -/
def SensorAbsloc.new {R : Type} (A : Arith R) (ia_globalPose : List Nat) ( absolute : Bool)
    (use_for_init : Bool) (reading pose : Vec R) : SensorAbsloc R :=
  { ia_rs := ia_globalPose, innovation := none, measurement := none, expectation := none,
    EXP_rs := { rows := 0, cols := 0, e := fun _ _ => A.zero },
    INN_rs := { rows := 0, cols := 0, e := fun _ _ => A.zero },
    EXP_q := { rows := 0, cols := 0, e := fun _ _ => A.zero },
    inns := 0, absolute := absolute, first := true, use_for_init := use_for_init,
    reading := reading, pose := pose, hardware := none }

/-- The method `setHardwareSensor` (lines 61-72). -/
def setHardwareSensor {R : Type} (A : Arith R) (hw : Hardware R) (s : SensorAbsloc R) :
    SensorAbsloc R :=
  { s with
    hardware := some hw
    inns := hw.dataSize
    innovation := some (Gaussian.ofSize A hw.dataSize)
    measurement := some (Gaussian.ofSize A hw.dataSize)
    expectation := some (Gaussian.ofSize A hw.dataSize)
    EXP_rs := s.EXP_rs.resize hw.dataSize s.ia_rs.length
    INN_rs := s.INN_rs.resize hw.dataSize s.ia_rs.length
    EXP_q := s.EXP_q.resize 3 4 }

/-- The buffers written and the index locals of `process` during lines 114-167. -/
structure Cycle (R : Type) where
  EXP_rs : GMat R
  EXP_q : GMat R
  measurement : Gaussian R
  expectation : Gaussian R
  indexE : Nat
  indexE_Pos : Nat
  indexE_OriEuler : Nat

/-- Position channel, lines 130-136: the Jacobian rows, the expected position
and the measured position. -/
def positionMean {R : Type} (A : Arith R) (K : QuatKernel R) (indexD_Pos : Nat)
    (reading origin p q T Tr : Vec R) (c : Cycle R) : Except Fault (Cycle R) := do
  let EXP_q ← c.EXP_q.setSub 0 3 0 4 (K.rotate_by_dq q T)
  let EXP_rs1 ← c.EXP_rs.setSub c.indexE 3 0 3 (identity_mat A)
  let EXP_rs2 ← EXP_rs1.setSubFrom c.indexE 3 3 4 EXP_q
  let ex ← c.expectation.x.setSub c.indexE 3 (fun k => A.add (p k) (Tr k))
  let mx ← c.measurement.x.setSub c.indexE 3
    (fun k => A.sub (subrange A reading indexD_Pos 3 k) (origin k))
  pure { c with
    EXP_q := EXP_q
    EXP_rs := EXP_rs2
    expectation := { c.expectation with x := ex }
    measurement := { c.measurement with x := mx } }

/-- Position channel, lines 137-144: the measurement covariance and the index
bookkeeping. -/
def positionCov {R : Type} (A : Arith R) (inns indexD_Pos : Nat) (reading : Vec R)
    (c : Cycle R) : Except Fault (Cycle R) := do
  let P0 ← c.measurement.P.set 0 0
    (A.mul (reading (indexD_Pos + 0 + inns)) (reading (indexD_Pos + 0 + inns)))
  let P1 ← P0.set 1 1
    (A.mul (reading (indexD_Pos + 1 + inns)) (reading (indexD_Pos + 1 + inns)))
  let P2 ← P1.set 2 2
    (A.mul (reading (indexD_Pos + 2 + inns)) (reading (indexD_Pos + 2 + inns)))
  pure { c with
    measurement := { c.measurement with P := P2 }
    indexE_Pos := c.indexE
    indexE := c.indexE + 3 }

/-- Orientation channel, lines 151-160: the expected Euler angles, the Jacobian
rows and the measured Euler angles. -/
def orientationMean {R : Type} (A : Arith R) (K : QuatKernel R) (indexD_OriEuler : Nat)
    (reading q r : Vec R) (c : Cycle R) : Except Fault (Cycle R) := do
  let qr := K.qProd q r
  let QR_q := K.qProd_by_dq1 r
  let eE := K.q2e qr
  let ex ← c.expectation.x.setSub c.indexE 3 eE.1
  let EXP_rs ← c.EXP_rs.setSub c.indexE 3 3 4 (prod A 4 eE.2 QR_q)
  let mx ← c.measurement.x.setSub c.indexE 3 (subrange A reading indexD_OriEuler 3)
  pure { c with
    EXP_rs := EXP_rs
    expectation := { c.expectation with x := ex }
    measurement := { c.measurement with x := mx } }

/-- Orientation channel, lines 161-166: the measurement covariance and the index
bookkeeping. -/
def orientationCov {R : Type} (A : Arith R) (inns indexD_OriEuler : Nat) (reading : Vec R)
    (c : Cycle R) : Except Fault (Cycle R) := do
  let P3 ← c.measurement.P.set 3 3
    (A.mul (reading (indexD_OriEuler + 0 + inns)) (reading (indexD_OriEuler + 0 + inns)))
  let P4 ← P3.set 4 4
    (A.mul (reading (indexD_OriEuler + 1 + inns)) (reading (indexD_OriEuler + 1 + inns)))
  let P5 ← P4.set 5 5
    (A.mul (reading (indexD_OriEuler + 2 + inns)) (reading (indexD_OriEuler + 2 + inns)))
  pure { c with
    measurement := { c.measurement with P := P5 }
    indexE_OriEuler := c.indexE
    indexE := c.indexE + 3 }

/-- Line 115: the sensor position in the robot frame (the lever arm). -/
def SensorAbsloc.T {R : Type} (A : Arith R) (s : SensorAbsloc R) : Vec R := subrange A s.pose 0 3

/-- Line 116: the sensor orientation in the robot frame. -/
def SensorAbsloc.r {R : Type} (A : Arith R) (s : SensorAbsloc R) : Vec R := subrange A s.pose 3 4

/-- Line 117: the robot position at the entry of `process`. -/
def World.p {R : Type} (A : Arith R) (w : World R) : Vec R := subrange A w.pose_x 0 3

/-- Line 118: the robot orientation at the entry of `process`. -/
def World.q {R : Type} (A : Arith R) (w : World R) : Vec R := subrange A w.pose_x 3 4

/-- Line 119: the lever arm rotated by the robot orientation at the entry of
`process`. -/
def leverTr {R : Type} (A : Arith R) (K : QuatKernel R) (s : SensorAbsloc R) (w : World R) :
    Vec R :=
  K.rotate (w.q A) (s.T A)

/-- Lines 109-112: the reading processed in this cycle. `init` returns whatever
its quotients are, and `process` goes on with it. -/
def fetchReading {R : Type} (A : Arith R) (hw : Hardware R) (s : SensorAbsloc R) (id : Nat) :
    Vec R :=
  if s.use_for_init then init A hw s.inns id s.reading else hw.raw id

/-- Lines 114 and 121-122: the buffers and index locals before the channels
are composed. -/
def cycleStart {R : Type} (A : Arith R) (s : SensorAbsloc R) (meas expe : Gaussian R) :
    Cycle R :=
  { EXP_rs := s.EXP_rs.clear A, EXP_q := s.EXP_q, measurement := meas, expectation := expe,
    indexE := 0, indexE_Pos := 0, indexE_OriEuler := 0 }

/-- Lines 127-145: the position channel, when present. -/
def positionBlock {R : Type} (A : Arith R) (K : QuatKernel R) (hw : Hardware R)
    (s : SensorAbsloc R) (reading : Vec R) (w : World R) (c : Cycle R) :
    Except Fault (Cycle R) :=
  if hw.qPos ≠ 0 then
    (positionMean A K hw.qPos reading w.origin_sensors (w.p A) (w.q A) (s.T A)
        (leverTr A K s w) c) >>=
      positionCov A s.inns hw.qPos reading
  else pure c

/-- Lines 148-167: the orientation channel, when present. -/
def orientationBlock {R : Type} (A : Arith R) (K : QuatKernel R) (hw : Hardware R)
    (s : SensorAbsloc R) (reading : Vec R) (w : World R) (c : Cycle R) :
    Except Fault (Cycle R) :=
  if hw.qOriEuler ≠ 0 then
    (orientationMean A K hw.qOriEuler reading (w.q A) (s.r A) c) >>=
      orientationCov A s.inns hw.qOriEuler reading
  else pure c

/-- Lines 114-167: the measurement composer. -/
def compose {R : Type} (A : Arith R) (K : QuatKernel R) (hw : Hardware R) (s : SensorAbsloc R)
    (meas expe : Gaussian R) (reading : Vec R) (w : World R) : Except Fault (Cycle R) :=
  (positionBlock A K hw s reading w (cycleStart A s meas expe)) >>=
    orientationBlock A K hw s reading w

/-- First fix, lines 175-191: the robot orientation and its covariance. -/
def firstOrientation {R : Type} (A : Arith R) (K : QuatKernel R) (r : Vec R) (c : Cycle R)
    (w : World R) : Except Fault (World R) := do
  let ri := K.q2qc r
  let em ← c.measurement.x.getSub A c.indexE_OriEuler 3
  let qQ := K.e2q em
  let q := K.qProd qQ.1 ri
  let Q_qr := K.qProd_by_dq1 ri
  let Q_exp := prod A 4 Q_qr qQ.2
  let w1 := w.setPoseX 3 4 q
  let Pm ← c.measurement.P.getSub A c.indexE_OriEuler 3 c.indexE_OriEuler 3
  pure (w1.setPoseP 3 4 (prod_JPJt A 3 Pm Q_exp))

/-- First fix, lines 193-212: the robot position, its covariance and the origin
offset. `Tr` is the local computed at line 119. -/
def firstPosition {R : Type} (A : Arith R) ( absolute : Bool) (Tr : Vec R) (c : Cycle R)
    (w : World R) : Except Fault (World R) := do
  let mx ← c.measurement.x.getSub A c.indexE_Pos 3
  let mP ← c.measurement.P.getSub A c.indexE_Pos 3 c.indexE_Pos 3
  if absolute then
    let w1 : World R := { w with origin_sensors := fun _ => A.zero }
    let w2 := w1.setPoseX 0 3 (subrange A (fun k => A.sub (mx k) (Tr k)) 0 3)
    pure (w2.setPoseP 0 3 (fun a b =>
      A.add (mP a b)
        (prod_JPJt A c.EXP_q.cols (subrange2 A w2.pose_P 3 4 3 4) c.EXP_q.e a b)))
  else
    let w1 : World R :=
      { w with origin_sensors := subrange A (fun k => A.sub (mx k) (Tr k)) 0 3 }
    let w2 := w1.setPoseX 0 3 (fun _ => A.zero)
    pure (w2.setPoseP 0 3 (fun a b =>
      A.add (mP a b)
        (prod_JPJt A c.EXP_q.cols (subrange2 A w2.pose_P 3 4 3 4) c.EXP_q.e a b)))

/-- First fix, lines 172-212. -/
def firstFix {R : Type} (A : Arith R) (K : QuatKernel R) (hw : Hardware R) ( absolute : Bool)
    (r Tr : Vec R) (c : Cycle R) (w : World R) : Except Fault (World R) := do
  let w1 ← if hw.qOriEuler ≠ 0 then firstOrientation A K r c w else pure w
  if hw.qPos ≠ 0 then firstPosition A absolute Tr c w1 else pure w1

/-- What the steady-state path leaves behind. -/
structure Steady (R : Type) where
  expectation : Gaussian R
  innovation : Gaussian R
  INN_rs : GMat R
  world : World R

/-- Steady state, lines 215-223. `F` is the effect of the filter's `correct`
on the joint mean and covariance. -/
def steadyState {R : Type} (A : Arith R) (F : CorrectCall R → Vec R × Mat R → Vec R × Mat R)
    (ia_rs : List Nat) (inns : Nat) (inn : Gaussian R) (c : Cycle R) (w : World R) :
    Except Fault (Steady R) := do
  let J ← if c.EXP_rs.cols = ia_rs.length ∧ c.EXP_rs.rows = inns then pure c.EXP_rs
    else .error .outOfBounds
  let eP ← c.expectation.P.setSub 0 inns 0 inns
    (prod_JPJt A J.cols (project w.P ia_rs) J.e)
  let expe : Gaussian R := { c.expectation with P := eP }
  let ix ← if c.measurement.x.size = expe.x.size then
      inn.x.assign expe.x.size (fun k => A.sub (c.measurement.x.e k) (expe.x.e k))
    else .error .outOfBounds
  let iP ← if c.measurement.P.rows = expe.P.rows ∧ c.measurement.P.cols = expe.P.cols then
      inn.P.assign expe.P.rows expe.P.cols
        (fun a b => A.add (c.measurement.P.e a b) (expe.P.e a b))
    else .error .outOfBounds
  let innovation : Gaussian R := { x := ix, P := iP }
  let INN_rs : GMat R := { rows := J.rows, cols := J.cols, e := fun a b => A.neg (J.e a b) }
  let call : CorrectCall R :=
    { ia_x := w.ia_used_states, innovation := innovation, INN_rs := INN_rs, ia_rs := ia_rs }
  let xP := F call (w.x, w.P)
  pure { expectation := expe, innovation := innovation, INN_rs := INN_rs,
         world := { w with x := xP.1, P := xP.2, corrections := w.corrections ++ [call] } }

/-- Lines 170-224: the first fix or the steady-state correction. -/
def cycleBranch {R : Type} (A : Arith R) (K : QuatKernel R)
    (F : CorrectCall R → Vec R × Mat R → Vec R × Mat R) (hw : Hardware R) (s : SensorAbsloc R)
    (inn : Gaussian R) (reading : Vec R) (c : Cycle R) (w : World R) :
    Except Fault (SensorAbsloc R × World R) :=
  let s1 : SensorAbsloc R :=
    { s with reading := reading, EXP_rs := c.EXP_rs, EXP_q := c.EXP_q,
             measurement := some c.measurement, expectation := some c.expectation }
  if s.first then
    (firstFix A K hw s.absolute (s.r A) (leverTr A K s w) c w) >>= fun w1 =>
      pure ({ s1 with first := false }, w1)
  else
    (steadyState A F s.ia_rs s.inns inn c w) >>= fun st =>
      pure ({ s1 with expectation := some st.expectation,
                      innovation := some st.innovation, INN_rs := st.INN_rs }, st.world)

/-- Lines 226-230: a pending initialisation request is cleared and the raw is
fetched once more. -/
def finish {R : Type} (hw : Hardware R) (id : Nat) ( use_for_init : Bool)
    (sw : SensorAbsloc R × World R) : SensorAbsloc R × World R :=
  if use_for_init then ({ sw.1 with use_for_init := false, reading := hw.raw id }, sw.2)
  else sw

/-- The method `SensorAbsloc::process(id)` (lines 107-233): the sensor and the world after
the call. -/
def process {R : Type} (A : Arith R) (K : QuatKernel R)
    (F : CorrectCall R → Vec R × Mat R → Vec R × Mat R) (id : Nat)
    (s : SensorAbsloc R) (w : World R) : Except Fault (SensorAbsloc R × World R) :=
  match s.hardware, s.measurement, s.expectation, s.innovation with
  | some hw, some meas, some expe, some inn =>
    (compose A K hw s meas expe (fetchReading A hw s id) w) >>= fun c =>
    (cycleBranch A K F hw s inn (fetchReading A hw s id) c w) >>= fun sw =>
    pure (finish hw id s.use_for_init sw)
  | _, _, _, _ => .error .nullPointer

/-- The buffer shapes fixed by `setHardwareSensor`: every `Gaussian` has
dimension `inns`, `EXP_rs` is `inns x ia_rs.size()`, `EXP_q` is `3 x 4`; the
index array holds at least the seven robot pose indices. -/
def Shapes {R : Type} (s : SensorAbsloc R) (meas expe inn : Gaussian R) : Prop :=
  (meas.x.size = s.inns ∧ meas.P.rows = s.inns ∧ meas.P.cols = s.inns) ∧
  (expe.x.size = s.inns ∧ expe.P.rows = s.inns ∧ expe.P.cols = s.inns) ∧
  (inn.x.size = s.inns ∧ inn.P.rows = s.inns ∧ inn.P.cols = s.inns) ∧
  (s.EXP_rs.rows = s.inns ∧ s.EXP_rs.cols = s.ia_rs.length) ∧
  (s.EXP_q.rows = 3 ∧ s.EXP_q.cols = 4) ∧ 7 ≤ s.ia_rs.length

/-- The buffers are large enough for the channels the hardware reports. -/
def Channels {R : Type} (hw : Hardware R) (inns : Nat) : Prop :=
  (hw.qPos ≠ 0 → 3 ≤ inns) ∧ (hw.qOriEuler ≠ 0 → 6 ≤ inns)

end Fp

namespace Fp

/-- A `double`: a finite value (an exact rational), an infinity, or a NaN.
The sign of a zero is not kept. -/
inductive Dbl where
  | fin (q : ℚ)
  | pinf
  | ninf
  | nan
  deriving DecidableEq

/-- Unary minus. -/
def Dbl.neg : Dbl → Dbl
  | .fin q => .fin (-q)
  | .pinf => .ninf
  | .ninf => .pinf
  | .nan => .nan

/-- Sum of two doubles; `rnd` gives the double returned for an exact finite
result. -/
def Dbl.add (rnd : ℚ → Dbl) : Dbl → Dbl → Dbl
  | .fin a, .fin b => rnd (a + b)
  | .nan, _ => .nan
  | _, .nan => .nan
  | .pinf, .ninf => .nan
  | .ninf, .pinf => .nan
  | .pinf, _ => .pinf
  | _, .pinf => .pinf
  | .ninf, _ => .ninf
  | _, .ninf => .ninf

/-- Product of two doubles. -/
def Dbl.mul (rnd : ℚ → Dbl) : Dbl → Dbl → Dbl
  | .fin a, .fin b => rnd (a * b)
  | .nan, _ => .nan
  | _, .nan => .nan
  | .pinf, .fin b => if b = 0 then .nan else if 0 < b then .pinf else .ninf
  | .ninf, .fin b => if b = 0 then .nan else if 0 < b then .ninf else .pinf
  | .fin a, .pinf => if a = 0 then .nan else if 0 < a then .pinf else .ninf
  | .fin a, .ninf => if a = 0 then .nan else if 0 < a then .ninf else .pinf
  | .pinf, .pinf => .pinf
  | .ninf, .ninf => .pinf
  | .pinf, .ninf => .ninf
  | .ninf, .pinf => .ninf

/-- Quotient of two doubles: a finite value over zero is a NaN when it is zero
and an infinity otherwise. -/
def Dbl.div (rnd : ℚ → Dbl) : Dbl → Dbl → Dbl
  | .fin a, .fin b =>
    if b = 0 then (if a = 0 then .nan else if 0 < a then .pinf else .ninf) else rnd (a / b)
  | .nan, _ => .nan
  | _, .nan => .nan
  | .fin _, .pinf => .fin 0
  | .fin _, .ninf => .fin 0
  | .pinf, .fin b => if 0 ≤ b then .pinf else .ninf
  | .ninf, .fin b => if 0 ≤ b then .ninf else .pinf
  | .pinf, .pinf => .nan
  | .pinf, .ninf => .nan
  | .ninf, .pinf => .nan
  | .ninf, .ninf => .nan

/-- The comparison `<`: false as soon as an operand is a NaN. -/
def Dbl.lt : Dbl → Dbl → Bool
  | .fin a, .fin b => decide (a < b)
  | .nan, _ => false
  | _, .nan => false
  | .ninf, .ninf => false
  | .ninf, _ => true
  | _, .ninf => false
  | .pinf, _ => false
  | _, .pinf => true

/-- Arithmetic of doubles for the rounding `rnd`. -/
def Dbl.arith (rnd : ℚ → Dbl) : Arith Dbl :=
  { zero := .fin 0, one := .fin 1, lit := rnd,
    add := Dbl.add rnd, sub := fun a b => Dbl.add rnd a (Dbl.neg b),
    mul := Dbl.mul rnd, div := Dbl.div rnd, neg := Dbl.neg, lt := Dbl.lt }

/-- Arithmetic of doubles without rounding: finite results are exact. -/
def Dbl.exact : Arith Dbl := Dbl.arith Dbl.fin

/-- Nearest integer to `n / d`, ties to the even one. -/
def roundEven (n d : Nat) : Nat :=
  if 2 * (n % d) < d then n / d
  else if d < 2 * (n % d) then n / d + 1
  else if (n / d) % 2 = 0 then n / d else n / d + 1

/-- Position of the leading bit of `n` (zero for `n < 2`), found in at most
`fuel` halvings. -/
def leadingBit : Nat → Nat → Nat
  | 0, _ => 0
  | fuel + 1, n => if n < 2 then 0 else leadingBit fuel (n / 2) + 1

/-- The exponent `e` with `2^e ≤ n / d < 2^(e+1)`, for positive `n` and `d`. -/
def leadingExponent (n d : Nat) : Int :=
  if d * 2 ^ ((leadingBit n n : Int) - (leadingBit d d : Int)).toNat
      ≤ n * 2 ^ ((leadingBit d d : Int) - (leadingBit n n : Int)).toNat
  then (leadingBit n n : Int) - (leadingBit d d : Int)
  else (leadingBit n n : Int) - (leadingBit d d : Int) - 1

/-- Rounding of the positive rational `n / d` to binary64 (53 significant bits,
exponents from -1022 to 1023, subnormals), to nearest, ties to even; a result
of `2^1024` or more is an overflow. -/
def roundPos (n d : Nat) : Dbl :=
  if 2 ^ 1024 ≤ roundEven (n * 2 ^ (52 - max (leadingExponent n d) (-1022)).toNat)
        (d * 2 ^ (max (leadingExponent n d) (-1022) - 52).toNat)
      * 2 ^ (max (leadingExponent n d) (-1022) - 52).toNat
  then .pinf
  else .fin
    ((roundEven (n * 2 ^ (52 - max (leadingExponent n d) (-1022)).toNat)
        (d * 2 ^ (max (leadingExponent n d) (-1022) - 52).toNat)
      * 2 ^ (max (leadingExponent n d) (-1022) - 52).toNat : Nat)
      / (2 ^ (52 - max (leadingExponent n d) (-1022)).toNat : Nat))

/-- Rounding of a rational to binary64, round to nearest, ties to even. -/
def round64 (q : ℚ) : Dbl :=
  if q = 0 then .fin 0
  else if 0 < q then roundPos q.num.toNat q.den
  else Dbl.neg (roundPos (-q.num).toNat q.den)

/-- Arithmetic of binary64 doubles: every finite result is rounded to nearest. -/
def Dbl.binary64 : Arith Dbl := Dbl.arith round64

end Fp

namespace Fp

/-- The sensor has been bound by `setHardwareSensor`: the hardware and the three
buffers are set, the buffers have the shapes fixed there and are large enough
for the channels of the hardware. -/
def Ready {R : Type} (s : SensorAbsloc R) : Prop :=
  ∃ hw meas expe inn, s.hardware = some hw ∧ s.measurement = some meas ∧
    s.expectation = some expe ∧ s.innovation = some inn ∧
    Shapes s meas expe inn ∧ Channels hw s.inns

/-- One call of `process` in the life of a sensor: the id passed, whether
`use_for_init` was set from outside since the previous call, and what the rest
of the system did to the robot and the map in between. -/
structure Call (R : Type) where
  id : Nat
  request : Bool
  others : World R → World R

/-- The value of `first` at the entry of each call of a sequence of calls of
`process` on one sensor. The sequence stops at a call that dereferences a null
pointer or writes outside a buffer. -/
def firstAtEntry {R : Type} (A : Arith R) (K : QuatKernel R)
    (F : CorrectCall R → Vec R × Mat R → Vec R × Mat R) :
    List (Call R) → SensorAbsloc R → World R → List Bool
  | [], _, _ => []
  | c :: cs, s, w =>
    s.first :: (match process A K F c.id { s with use_for_init := s.use_for_init || c.request }
        (c.others w) with
      | .ok sw => firstAtEntry A K F cs sw.1 sw.2
      | .error _ => [])

/-- A vector of finite doubles. -/
def finVec (v : RVec) : Vec Dbl := fun k => Dbl.fin (v k)

/-- The hardware source `hw` seen as a source of doubles: every datum is
finite. -/
def ofExact (hw : Rtslam.Hardware) : Hardware Dbl :=
  { dataSize := hw.dataSize, qPos := hw.qPos, qOriEuler := hw.qOriEuler,
    available := hw.available, raw := fun k => finVec (hw.raw k) }

/-- A kernel for the examples: the helpers hand back their first argument, with
zero Jacobians. -/
def idleKernel {R : Type} (A : Arith R) : QuatKernel R :=
  { rotate := fun _ v => v, rotate_by_dq := fun _ _ _ _ => A.zero,
    qProd := fun q _ => q, qProd_by_dq1 := fun _ _ _ => A.zero,
    q2e := fun q => (q, fun _ _ => A.zero), e2q := fun e => (e, fun _ _ => A.zero),
    q2qc := fun q => q }

/-- A filter for the examples: `correct` hands back the joint state it is given. -/
def idleCorrect {R : Type} : CorrectCall R → Vec R × Mat R → Vec R × Mat R := fun _ xP => xP

/-- A world for the examples: the robot pose at the joint indices 2..8, all
entries zero, no call of `correct` recorded. -/
def zeroWorld {R : Type} (A : Arith R) : World R :=
  { x := fun _ => A.zero, P := fun _ _ => A.zero, ia_pose := fun k => k + 2,
    origin_sensors := fun _ => A.zero, ia_used_states := [2, 3, 4, 5, 6, 7, 8],
    corrections := [] }

/-- A sensor bound to `hw` right after construction. -/
def freshSensor {R : Type} (A : Arith R) (hw : Hardware R) ( absolute : Bool) :
    SensorAbsloc R :=
  setHardwareSensor A hw
    (SensorAbsloc.new A [2, 3, 4, 5, 6, 7, 8] absolute false (fun _ => A.zero) (fun _ => A.zero))

/-- Position-only hardware (`dataSize() = 3`, position at index 1) that lists no
available raw. -/
def hwNone : Hardware Dbl :=
  { dataSize := 3, qPos := 1, qOriEuler := 0, available := [],
    raw := fun _ _ => Dbl.fin 0 }

end Fp


/-! ## Lemmas and theorems -/

theorem window_cons (id it : Nat) (rest : List Nat) :
    window id (it :: rest) = if it = id then [it] else it :: window id rest := rfl

theorem code_min_eq (x m : ℚ) : (if x < m then x else m) = min m x := by
  rcases lt_or_le x m with h | h
  · rw [if_pos h, min_eq_right h.le]
  · rw [if_neg (not_lt.mpr h), min_eq_left h]

/-- The first loop computes, on each axis, the running minimum of the window's
variances, started at the initial value of `min_var`. -/
theorem scanMinVar_fst (raw : Nat → RVec) (inns id : Nat) (i : Fin 3) (l : List Nat)
    (st : Vec3 × RVec) :
    (scanMinVar raw inns id l st).1 i
      = ((window id l).map (varOf raw inns i)).foldl min (st.1 i) := by
  induction l generalizing st with
  | nil => rfl
  | cons it rest ih =>
    rw [window_cons]
    by_cases h : it = id
    · simp only [scanMinVar, if_pos h, List.map_cons, List.map_nil, List.foldl_cons,
        List.foldl_nil, code_min_eq, varOf]
    · simp only [scanMinVar, if_neg h, List.map_cons, List.foldl_cons, ih, code_min_eq, varOf]

theorem foldl_min_le_init (l : List ℚ) (a : ℚ) : l.foldl min a ≤ a := by
  induction l generalizing a with
  | nil => exact le_refl a
  | cons x xs ih => exact le_trans (ih (min a x)) (min_le_left a x)

theorem foldl_min_le_of_mem (l : List ℚ) (a x : ℚ) (hx : x ∈ l) : l.foldl min a ≤ x := by
  induction l generalizing a with
  | nil => cases hx
  | cons y ys ih =>
    rcases List.mem_cons.mp hx with h | h
    · subst h
      exact le_trans (foldl_min_le_init ys (min a x)) (min_le_right a x)
    · exact ih (min a y) h

theorem foldl_min_assoc (l : List ℚ) (a b : ℚ) : l.foldl min (min a b) = min a (l.foldl min b) := by
  induction l generalizing b with
  | nil => rfl
  | cons x xs ih => simp only [List.foldl_cons, min_assoc, ih]

/-- On a non-empty window `min_var` is the smaller of 1000 and the true minimum. -/
theorem min_var_eq (hw : Hardware) (inns id : Nat) (reading : RVec) (i : Fin 3) (m : ℚ)
    (hm : trueMin ((window id hw.available).map (varOf hw.raw inns i)) = some m) :
    (initAccumulate hw inns id reading).min_var i = min 1000 m := by
  simp only [initAccumulate, scanMinVar_fst, min_var0]
  cases hl : (window id hw.available).map (varOf hw.raw inns i) with
  | nil => rw [hl] at hm; cases hm
  | cons x xs =>
    rw [hl] at hm
    simp only [trueMin, Option.some.injEq] at hm
    rw [List.foldl_cons, foldl_min_assoc, hm]

/-- Samples of the window that qualify on axis `i` for the threshold `2 * mv`. -/
theorem accumulate_average (raw : Nat → RVec) (inns id : Nat) (mv : Vec3) (i : Fin 3)
    (l : List Nat) (st : Vec3 × Vec3 × RVec) :
    (accumulate raw inns id mv l st).1 i
      = st.1 i + (((window id l).filter (fun k => decide (varOf raw inns i k < 2 * mv i))).map
          (fun k => valOf raw i k * varOf raw inns i k)).sum := by
  induction l generalizing st with
  | nil => simp [accumulate, window]
  | cons it rest ih =>
    rw [window_cons]
    by_cases h : it = id
    · subst h
      by_cases hq : raw it (i.val + 1 + inns) < 2 * mv i
      · simp [accumulate, List.filter_cons, varOf, valOf, hq]
      · simp [accumulate, List.filter_cons, varOf, valOf, hq]
    · by_cases hq : raw it (i.val + 1 + inns) < 2 * mv i
      · simp only [accumulate, if_neg h, ih, List.filter_cons, varOf, valOf, hq, decide_True,
          if_true, List.map_cons, List.sum_cons]
        ring
      · simp only [accumulate, if_neg h, ih, List.filter_cons, varOf, valOf, hq, decide_False,
          if_false, Bool.false_eq_true]

theorem accumulate_sum_coeffs (raw : Nat → RVec) (inns id : Nat) (mv : Vec3) (i : Fin 3)
    (l : List Nat) (st : Vec3 × Vec3 × RVec) :
    (accumulate raw inns id mv l st).2.1 i
      = st.2.1 i + (((window id l).filter (fun k => decide (varOf raw inns i k < 2 * mv i))).map
          (varOf raw inns i)).sum := by
  induction l generalizing st with
  | nil => simp [accumulate, window]
  | cons it rest ih =>
    rw [window_cons]
    by_cases h : it = id
    · subst h
      by_cases hq : raw it (i.val + 1 + inns) < 2 * mv i
      · simp [accumulate, List.filter_cons, varOf, hq]
      · simp [accumulate, List.filter_cons, varOf, hq]
    · by_cases hq : raw it (i.val + 1 + inns) < 2 * mv i
      · simp only [accumulate, if_neg h, ih, List.filter_cons, varOf, hq, decide_True,
          if_true, List.map_cons, List.sum_cons]
        ring
      · simp only [accumulate, if_neg h, ih, List.filter_cons, varOf, hq, decide_False,
          if_false, Bool.false_eq_true]

/-- The reading left by a loop over the window is the last raw observed. -/
theorem accumulate_reading (raw : Nat → RVec) (inns id : Nat) (mv : Vec3)
    (l : List Nat) (st : Vec3 × Vec3 × RVec) :
    (accumulate raw inns id mv l st).2.2
      = ((window id l).getLast?.map raw).getD st.2.2 := by
  induction l generalizing st with
  | nil => simp [accumulate, window]
  | cons it rest ih =>
    rw [window_cons]
    by_cases h : it = id
    · simp [accumulate, h]
    · simp only [accumulate, if_neg h, ih]
      cases hw : window id rest with
      | nil => simp
      | cons y ys =>
        rw [List.getLast?_cons_cons]
        cases hl : (y :: ys).getLast? with
        | none => simp at hl
        | some z => simp

theorem scanMinVar_reading (raw : Nat → RVec) (inns id : Nat) (l : List Nat) (st : Vec3 × RVec) :
    (scanMinVar raw inns id l st).2 = ((window id l).getLast?.map raw).getD st.2 := by
  induction l generalizing st with
  | nil => simp [scanMinVar, window]
  | cons it rest ih =>
    rw [window_cons]
    by_cases h : it = id
    · simp [scanMinVar, h]
    · simp only [scanMinVar, if_neg h, ih]
      cases hw : window id rest with
      | nil => simp
      | cons y ys =>
        rw [List.getLast?_cons_cons]
        cases hl : (y :: ys).getLast? with
        | none => simp at hl
        | some z => simp

theorem writeBack_apply (inns : Nat) (a m : Vec3) (r : RVec) (x : Nat) :
    writeBack inns a m r x =
      if x = 3 + inns then m 2 else if x = 3 then a 2
      else if x = 2 + inns then m 1 else if x = 2 then a 1
      else if x = 1 + inns then m 0 else if x = 1 then a 0 else r x := by
  simp only [writeBack, List.foldl, Function.update_apply]
  simp [Nat.add_comm]

/-- The reading passed to the write-back only matters away from the three
position indices. -/
theorem writeBack_congr (inns : Nat) (a m : Vec3) (r r2 : RVec)
    (h : ∀ x, x ≠ 1 → x ≠ 2 → x ≠ 3 → r x = r2 x) :
    writeBack inns a m r = writeBack inns a m r2 := by
  funext x
  rw [writeBack_apply, writeBack_apply]
  by_cases h1 : x = 1
  · simp [h1]
  · by_cases h2 : x = 2
    · simp [h2]
    · by_cases h3 : x = 3
      · simp [h3]
      · rw [h x h1 h2 h3]

/-- C1. Failing input: one available raw whose reported variance is 1500 on
every axis. `init` completes and writes 1000, the initial value of `min_var`,
as variance on each axis, while the minimum variance of the window is 1500. -/
theorem C1_returned_variance_capped :
    (init hwHighVar 3 0 (fun _ => 0)).toOption.map (fun d => (d 4, d 5, d 6))
        = some (1000, 1000, 1000) ∧
      ∀ i : Fin 3,
        trueMin ((window 0 hwHighVar.available).map (varOf hwHighVar.raw 3 i)) = some 1500 := by
  constructor
  · norm_num [init, initAccumulate, scanMinVar, accumulate, hwHighVar, rawOfList, min_var0,
      writeBack, Function.update_apply, Except.toOption]
  · intro i
    fin_cases i <;> simp [hwHighVar, rawOfList, window, trueMin, varOf]

/-- A sample at or above twice the window's minimum variance does not pass the
threshold test of the second loop. -/
theorem not_qualifies_of_twice_min (hw : Hardware) (inns id : Nat) (reading : RVec) (i : Fin 3)
    (k : Nat) (m : ℚ)
    (hm : trueMin ((window id hw.available).map (varOf hw.raw inns i)) = some m)
    (hvar : 2 * m ≤ varOf hw.raw inns i k) :
    ¬ varOf hw.raw inns i k < 2 * (initAccumulate hw inns id reading).min_var i := by
  rw [min_var_eq hw inns id reading i m hm]
  have h1 : min 1000 m ≤ m := min_le_right _ _
  intro h
  linarith

theorem varOf_update (raw : Nat → RVec) (inns : Nat) (hinns : 3 ≤ inns) (i j : Fin 3) (k : Nat)
    (v : ℚ) :
    varOf (Function.update raw k (Function.update (raw k) (i.val + 1) v)) inns j
      = varOf raw inns j := by
  funext k2
  have hne : j.val + 1 + inns ≠ i.val + 1 := by
    have := i.isLt
    omega
  unfold varOf
  by_cases hk : k2 = k
  · subst hk
    rw [Function.update_same, Function.update_noteq hne]
  · rw [Function.update_noteq hk]

theorem valOf_update_of_ne (raw : Nat → RVec) (i j : Fin 3) (k k2 : Nat) (v : ℚ)
    (h : j ≠ i ∨ k2 ≠ k) :
    valOf (Function.update raw k (Function.update (raw k) (i.val + 1) v)) j k2
      = valOf raw j k2 := by
  unfold valOf
  by_cases hk : k2 = k
  · subst hk
    rcases h with h | h
    · have hne : j.val + 1 ≠ i.val + 1 := fun e => h (Fin.ext (by omega))
      rw [Function.update_same, Function.update_noteq hne]
    · exact absurd rfl h
  · rw [Function.update_noteq hk]

/-- C2. A sample of the window whose variance on axis `i` is at least twice the
minimum variance of the window on that axis adds nothing to the two sums
accumulated for axis `i` (they are the sums over the other samples), and
replacing its value on axis `i` by any other value leaves the result of `init`
unchanged. -/
theorem C2_outlier_excluded (hw : Hardware) (inns id : Nat) (reading : RVec)
    (i : Fin 3) (k : Nat) (m : ℚ) (hinns : 3 ≤ inns)
    (hk : k ∈ window id hw.available)
    (hm : trueMin ((window id hw.available).map (varOf hw.raw inns i)) = some m)
    (hvar : 2 * m ≤ varOf hw.raw inns i k) :
    (initAccumulate hw inns id reading).average i
        = (((window id hw.available).filter (fun j => decide (j ≠ k ∧
              varOf hw.raw inns i j < 2 * (initAccumulate hw inns id reading).min_var i))).map
            (fun j => valOf hw.raw i j * varOf hw.raw inns i j)).sum
      ∧ (initAccumulate hw inns id reading).sum_coeffs i
        = (((window id hw.available).filter (fun j => decide (j ≠ k ∧
              varOf hw.raw inns i j < 2 * (initAccumulate hw inns id reading).min_var i))).map
            (varOf hw.raw inns i)).sum
      ∧ ∀ v : ℚ,
          init (replaceValue hw k i v) inns id reading
            = init hw inns id reading := by
  have hq := not_qualifies_of_twice_min hw inns id reading i k m hm hvar
  have hfilter : (window id hw.available).filter (fun j => decide (j ≠ k ∧
        varOf hw.raw inns i j < 2 * (initAccumulate hw inns id reading).min_var i))
      = (window id hw.available).filter (fun j => decide
        (varOf hw.raw inns i j < 2 * (initAccumulate hw inns id reading).min_var i)) := by
    apply List.filter_congr
    intro j _
    by_cases hj : j = k
    · subst hj; simp [hq]
    · simp [hj]
  refine ⟨?_, ?_, ?_⟩
  · rw [hfilter]
    simp only [initAccumulate, accumulate_average, zero_add]
  · rw [hfilter]
    simp only [initAccumulate, accumulate_sum_coeffs, zero_add]
  · intro v
    have hv : ∀ j : Fin 3,
        varOf (Function.update hw.raw k (Function.update (hw.raw k) (i.val + 1) v)) inns j
          = varOf hw.raw inns j := fun j => varOf_update hw.raw inns hinns i j k v
    have hmv : (initAccumulate (replaceValue hw k i v) inns id reading).min_var
        = (initAccumulate hw inns id reading).min_var := by
      funext j
      simp only [initAccumulate, replaceValue, scanMinVar_fst, hv]
    have hsum : (initAccumulate (replaceValue hw k i v) inns id reading).sum_coeffs
        = (initAccumulate hw inns id reading).sum_coeffs := by
      funext j
      have hmj := congrFun hmv j
      simp only [initAccumulate, replaceValue] at hmj
      simp only [initAccumulate, replaceValue, accumulate_sum_coeffs, hv, hmj]
    have havg : (initAccumulate (replaceValue hw k i v) inns id reading).average
        = (initAccumulate hw inns id reading).average := by
      funext j
      have hmj := congrFun hmv j
      simp only [initAccumulate, replaceValue] at hmj
      simp only [initAccumulate, replaceValue, accumulate_average, hv, hmj]
      congr 2
      apply List.map_congr_left
      intro k2 hk2
      rw [valOf_update_of_ne]
      by_cases hji : j = i
      · right
        subst hji
        intro hkk
        subst hkk
        have := (List.mem_filter.mp hk2).2
        simp only [decide_eq_true_eq] at this
        exact hq (by simpa only [initAccumulate] using this)
      · exact Or.inl hji
    have hread : ∀ x, x ≠ 1 → x ≠ 2 → x ≠ 3 →
        (initAccumulate (replaceValue hw k i v) inns id reading).reading x
        = (initAccumulate hw inns id reading).reading x := by
      intro x h1 h2 h3
      have hx : x ≠ i.val + 1 := by
        have := i.isLt
        omega
      simp only [initAccumulate, replaceValue, accumulate_reading, scanMinVar_reading]
      cases (window id hw.available).getLast? with
      | none => rfl
      | some z =>
        simp only [Option.map_some', Option.getD_some]
        by_cases hz : z = k
        · subst hz
          rw [Function.update_same, Function.update_noteq hx]
        · rw [Function.update_noteq hz]
    unfold init
    simp only [replaceValue] at hsum havg hmv hread ⊢
    simp only [hsum, havg, hmv]
    split
    · rfl
    · exact congrArg Except.ok (writeBack_congr _ _ _ _ _ hread)

theorem C2_outlier_excluded_witness :
    (3 ≤ 3 ∧ 1 ∈ window 2 hwOutlier.available ∧
      trueMin ((window 2 hwOutlier.available).map (varOf hwOutlier.raw 3 0)) = some 2 ∧
      2 * 2 ≤ varOf hwOutlier.raw 3 0 1) ∧
    init (replaceValue hwOutlier 1 0 7) 3 2 (fun _ => 0) = init hwOutlier 3 2 (fun _ => 0) :=
  ⟨⟨by norm_num, by simp [window, hwOutlier],
      by norm_num [window, hwOutlier, trueMin, varOf, rawOfList],
      by norm_num [hwOutlier, varOf, rawOfList]⟩,
    (C2_outlier_excluded hwOutlier 3 2 (fun _ => 0) 0 1 2 (by norm_num)
      (by simp [window, hwOutlier])
      (by norm_num [window, hwOutlier, trueMin, varOf, rawOfList])
      (by norm_num [hwOutlier, varOf, rawOfList])).2.2 7⟩

/-- C3. Failing input: two available raws with variances 1200 and 2100 on
every axis and values 10 and 20. Both variances are below twice the minimum
variance of the window (2400), so the average worded by the specification is
`(10 * 1200 + 20 * 2100) / 3300 = 180 / 11`; `init` compares with twice the
capped `min_var` (2000), keeps the first raw only and writes 10. -/
theorem C3_average_threshold_capped :
    (init hwTwoHigh 3 1 (fun _ => 0)).toOption.map (fun d => (d 1, d 2, d 3))
        = some (10, 10, 10) ∧
      ∀ i : Fin 3,
        specAverage hwTwoHigh.raw 3 i (window 1 hwTwoHigh.available) = some (180 / 11) := by
  constructor
  · norm_num [init, initAccumulate, scanMinVar, accumulate, hwTwoHigh, rawOfList, min_var0,
      writeBack, Function.update_apply, Except.toOption]
  · intro i
    fin_cases i <;>
      norm_num [hwTwoHigh, rawOfList, window, trueMin, varOf, valOf, specAverage,
        List.filter_cons]

/-! ### The failure-propagating bind -/

theorem bind_ok_eq {α β : Type} (a : α) (f : α → Except Fault β) :
    ((Except.ok a : Except Fault α) >>= f) = f a := rfl

theorem bind_error_eq {α β : Type} (e : Fault) (f : α → Except Fault β) :
    ((Except.error e : Except Fault α) >>= f) = Except.error e := rfl

theorem pure_eq_ok {α : Type} (a : α) : (pure a : Except Fault α) = Except.ok a := rfl

theorem bind_eq_ok_iff {α β : Type} (x : Except Fault α) (f : α → Except Fault β) (b : β) :
    (x >>= f) = Except.ok b ↔ ∃ a, x = Except.ok a ∧ f a = Except.ok b := by
  cases x with
  | error e => simp [bind_error_eq]
  | ok a => simp [bind_ok_eq]

/-! ### Writes through the pose indices -/

theorem foldl_update_hit (ia : Nat → Nat) (hinj : Function.Injective ia) (off : Nat) (src x : RVec)
    (n k : Nat) (hk : k < n) :
    (List.foldl (fun acc j => Function.update acc (ia (off + j)) (src j)) x (List.range n))
      (ia (off + k)) = src k := by
  induction n with
  | zero => omega
  | succ n ih =>
    rw [List.range_succ, List.foldl_append, List.foldl_cons, List.foldl_nil]
    by_cases hkn : k = n
    · subst hkn
      rw [Function.update_same]
    · have hne : ia (off + k) ≠ ia (off + n) := fun e => hkn (by have := hinj e; omega)
      rw [Function.update_noteq hne]
      exact ih (by omega)

theorem foldl_update_miss (ia : Nat → Nat) (off : Nat) (src x : RVec) (n y : Nat)
    (hy : ∀ k, k < n → y ≠ ia (off + k)) :
    (List.foldl (fun acc j => Function.update acc (ia (off + j)) (src j)) x (List.range n)) y
      = x y := by
  induction n with
  | zero => rfl
  | succ n ih =>
    rw [List.range_succ, List.foldl_append, List.foldl_cons, List.foldl_nil,
      Function.update_noteq (hy n (by omega))]
    exact ih (fun k hk => hy k (by omega))

/-- Reading the pose mean after `subrange(pose.x(), off, off+n) = src`. -/
theorem setPoseX_pose_x (w : World) (hinj : Function.Injective w.ia_pose) (off n : Nat)
    (src : RVec) (j : Nat) :
    (w.setPoseX off n src).pose_x j
      = if off ≤ j ∧ j < off + n then src (j - off) else w.pose_x j := by
  unfold World.setPoseX World.pose_x
  simp only
  split
  · next h =>
    have hj : j = off + (j - off) := by omega
    conv_lhs => rw [hj]
    exact foldl_update_hit w.ia_pose hinj off src w.x n (j - off) (by omega)
  · next h =>
    apply foldl_update_miss
    intro k hk e
    have := hinj e
    omega

theorem update2_apply (P : RMat) (i j : Nat) (val : ℚ) (a b : Nat) :
    update2 P i j val a b = if a = i ∧ b = j then val else P a b := rfl

theorem foldl_update2_row_hit (ia : Nat → Nat) (hinj : Function.Injective ia) (off i : Nat)
    (src : RVec) (P : RMat) (n k : Nat) (hk : k < n) :
    (List.foldl (fun acc j => update2 acc i (ia (off + j)) (src j)) P (List.range n))
      i (ia (off + k)) = src k := by
  induction n with
  | zero => omega
  | succ n ih =>
    rw [List.range_succ, List.foldl_append, List.foldl_cons, List.foldl_nil, update2_apply]
    by_cases hkn : k = n
    · subst hkn
      rw [if_pos ⟨rfl, rfl⟩]
    · have hne : ia (off + k) ≠ ia (off + n) := fun e => hkn (by have := hinj e; omega)
      rw [if_neg (fun h => hne h.2)]
      exact ih (by omega)

theorem foldl_update2_row_miss (ia : Nat → Nat) (off i : Nat) (src : RVec) (P : RMat)
    (n a b : Nat) (h : a ≠ i ∨ ∀ k, k < n → b ≠ ia (off + k)) :
    (List.foldl (fun acc j => update2 acc i (ia (off + j)) (src j)) P (List.range n)) a b
      = P a b := by
  induction n with
  | zero => rfl
  | succ n ih =>
    rw [List.range_succ, List.foldl_append, List.foldl_cons, List.foldl_nil, update2_apply]
    have hne : ¬ (a = i ∧ b = ia (off + n)) := by
      rintro ⟨h1, h2⟩
      rcases h with h | h
      · exact h h1
      · exact h n (by omega) h2
    rw [if_neg hne]
    exact ih (h.imp id (fun h k hk => h k (by omega)))

theorem foldl_update2_hit (ia : Nat → Nat) (hinj : Function.Injective ia) (off : Nat)
    (src : RMat) (P : RMat) (n m a b : Nat) (ha : a < m) (hb : b < n) :
    (List.foldl (fun acc i => List.foldl
        (fun acc2 j => update2 acc2 (ia (off + i)) (ia (off + j)) (src i j)) acc (List.range n))
      P (List.range m)) (ia (off + a)) (ia (off + b)) = src a b := by
  induction m with
  | zero => omega
  | succ m ih =>
    rw [List.range_succ, List.foldl_append, List.foldl_cons, List.foldl_nil]
    by_cases ham : a = m
    · subst ham
      exact foldl_update2_row_hit ia hinj off (ia (off + a)) (src a) _ n b hb
    · have hne : ia (off + a) ≠ ia (off + m) := fun e => ham (by have := hinj e; omega)
      rw [foldl_update2_row_miss ia off (ia (off + m)) (src m) _ n _ _ (Or.inl hne)]
      exact ih (by omega)

theorem foldl_update2_miss (ia : Nat → Nat) (off : Nat) (src : RMat) (P : RMat)
    (n m a b : Nat)
    (h : (∀ k, k < m → a ≠ ia (off + k)) ∨ (∀ k, k < n → b ≠ ia (off + k))) :
    (List.foldl (fun acc i => List.foldl
        (fun acc2 j => update2 acc2 (ia (off + i)) (ia (off + j)) (src i j)) acc (List.range n))
      P (List.range m)) a b = P a b := by
  induction m with
  | zero => rfl
  | succ m ih =>
    rw [List.range_succ, List.foldl_append, List.foldl_cons, List.foldl_nil]
    rw [foldl_update2_row_miss ia off (ia (off + m)) (src m) _ n a b
      (h.imp (fun h => h m (by omega)) id)]
    exact ih (h.imp (fun h k hk => h k (by omega)) id)

/-- Reading the pose covariance after
`subrange(pose.P(), off,off+n, off,off+n) = src`. -/
theorem setPoseP_pose_P (w : World) (hinj : Function.Injective w.ia_pose) (off n : Nat)
    (src : RMat) (a b : Nat) :
    (w.setPoseP off n src).pose_P a b
      = if (off ≤ a ∧ a < off + n) ∧ (off ≤ b ∧ b < off + n) then src (a - off) (b - off)
        else w.pose_P a b := by
  unfold World.setPoseP World.pose_P
  simp only
  split
  · next h =>
    have ha : a = off + (a - off) := by omega
    have hb : b = off + (b - off) := by omega
    conv_lhs => rw [ha, hb]
    exact foldl_update2_hit w.ia_pose hinj off src w.P n n (a - off) (b - off)
      (by omega) (by omega)
  · next h =>
    apply foldl_update2_miss
    by_cases ha : off ≤ a ∧ a < off + n
    · right
      intro k hk e
      have := hinj e
      omega
    · left
      intro k hk e
      have := hinj e
      omega

@[simp] theorem setPoseX_ia_pose (w : World) (off n : Nat) (src : RVec) :
    (w.setPoseX off n src).ia_pose = w.ia_pose := rfl

@[simp] theorem setPoseP_ia_pose (w : World) (off n : Nat) (src : RMat) :
    (w.setPoseP off n src).ia_pose = w.ia_pose := rfl

@[simp] theorem setPoseX_P (w : World) (off n : Nat) (src : RVec) :
    (w.setPoseX off n src).P = w.P := rfl

@[simp] theorem setPoseP_x (w : World) (off n : Nat) (src : RMat) :
    (w.setPoseP off n src).x = w.x := rfl

@[simp] theorem setPoseX_origin (w : World) (off n : Nat) (src : RVec) :
    (w.setPoseX off n src).origin_sensors = w.origin_sensors := rfl

@[simp] theorem setPoseP_origin (w : World) (off n : Nat) (src : RMat) :
    (w.setPoseP off n src).origin_sensors = w.origin_sensors := rfl

theorem setPoseX_pose_P (w : World) (off n : Nat) (src : RVec) :
    (w.setPoseX off n src).pose_P = w.pose_P := rfl

theorem setPoseP_pose_x (w : World) (off n : Nat) (src : RMat) :
    (w.setPoseP off n src).pose_x = w.pose_x := rfl

theorem exists_and_of {α : Type} {A B : α → Prop} (h1 : ∃ x, A x) (h2 : ∀ x, A x → B x) :
    ∃ x, A x ∧ B x := by
  obtain ⟨x, hx⟩ := h1
  exact ⟨x, hx, h2 x hx⟩


theorem compose_ok (K : QuatKernel) (hw : Hardware) (s : SensorAbsloc) (meas expe inn : Gaussian)
    (reading : RVec) (w : World) (hs : Shapes s meas expe inn) (hc : Channels hw s.inns) :
    ∃ c, compose K hw s meas expe reading w = .ok c ∧
      (c.EXP_rs.rows = s.inns ∧ c.EXP_rs.cols = s.ia_rs.length) ∧
      (c.EXP_q.rows = 3 ∧ c.EXP_q.cols = 4) ∧
      (c.measurement.x.size = s.inns ∧ c.measurement.P.rows = s.inns ∧
        c.measurement.P.cols = s.inns) ∧
      (c.expectation.x.size = s.inns ∧ c.expectation.P = expe.P) ∧
      (hw.qPos ≠ 0 → c.indexE_Pos = 0 ∧
        (∀ k, k < 3 → c.measurement.x.e k = reading (hw.qPos + k) - w.origin_sensors k) ∧
        (∀ a b, a < 3 → b < 3 → c.measurement.P.e a b =
          if a = b then sqr (reading (hw.qPos + a + s.inns)) else meas.P.e a b) ∧
        (∀ a b, a < 3 → b < 4 → c.EXP_q.e a b = K.rotate_by_dq w.q s.T a b)) ∧
      (hw.qOriEuler ≠ 0 → c.indexE_OriEuler = (if hw.qPos ≠ 0 then 3 else 0) ∧
        (∀ k, k < 3 → c.measurement.x.e (c.indexE_OriEuler + k) = reading (hw.qOriEuler + k)) ∧
        (∀ a b, a < 3 → b < 3 → c.measurement.P.e (3 + a) (3 + b) =
          if a = b then sqr (reading (hw.qOriEuler + a + s.inns))
          else meas.P.e (3 + a) (3 + b))) := by
  obtain ⟨⟨hm1, hm2, hm3⟩, ⟨he1, he2, he3⟩, -, ⟨hr1, hr2⟩, ⟨hq1, hq2⟩, h7⟩ := hs
  obtain ⟨hcp, hco⟩ := hc
  by_cases hp : hw.qPos = 0
  · by_cases ho : hw.qOriEuler = 0
    · refine ⟨cycleStart s meas expe, ?_, ?_⟩
      · simp [compose, positionBlock, orientationBlock, hp, ho, bind_ok_eq, pure_eq_ok]
      · simp [cycleStart, GMat.clear, hp, ho, hm1, hm2, hm3, he1, hr1, hr2, hq1, hq2]
    · have h6 := hco ho
      have h3 : 3 ≤ s.inns := by omega
      have h3' : 3 < s.inns := by omega
      have h4' : 4 < s.inns := by omega
      have h5' : 5 < s.inns := by omega
      have hex : ∃ c, compose K hw s meas expe reading w = .ok c := by
        simp [compose, positionBlock, orientationBlock, orientationMean, orientationCov,
          cycleStart, GMat.clear, GMat.setSub, GVec.setSub, GMat.set, hp, ho, bind_ok_eq,
          pure_eq_ok, hm1, hm2, hm3, he1, hr1, hr2, h3, h3', h4', h5', h7]
      obtain ⟨c, hcmp⟩ := hex
      refine ⟨c, hcmp, ?_⟩
      simp [compose, positionBlock, orientationBlock, orientationMean, orientationCov,
          cycleStart, GMat.clear, GMat.setSub, GVec.setSub, GMat.set, hp, ho, bind_ok_eq,
          pure_eq_ok, hm1, hm2, hm3, he1, hr1, hr2, h3, h3', h4', h5', h7] at hcmp
      subst hcmp
      simp [hp, ho, hq1, hq2, subrange]
      refine ⟨fun k hk => by simp [hk], fun a b ha hb => ?_⟩
      interval_cases a <;> interval_cases b <;> simp
  · have h3 := hcp hp
    have h0' : 0 < s.inns := by omega
    have h1' : 1 < s.inns := by omega
    have h2' : 2 < s.inns := by omega
    have h37 : 3 ≤ s.ia_rs.length := by omega
    by_cases ho : hw.qOriEuler = 0
    · have hex : ∃ c, compose K hw s meas expe reading w = .ok c := by
        simp [compose, positionBlock, orientationBlock, positionMean, positionCov,
          cycleStart, GMat.clear, GMat.setSub, GMat.setSubFrom, GVec.setSub, GMat.set, hp, ho,
          bind_ok_eq, pure_eq_ok, hm1, hm2, hm3, he1, hr1, hr2, h3, h0', h1', h2', h7, h37,
          hq1, hq2]
      obtain ⟨c, hcmp⟩ := hex
      refine ⟨c, hcmp, ?_⟩
      simp [compose, positionBlock, orientationBlock, positionMean, positionCov,
          cycleStart, GMat.clear, GMat.setSub, GMat.setSubFrom, GVec.setSub, GMat.set, hp, ho,
          bind_ok_eq, pure_eq_ok, hm1, hm2, hm3, he1, hr1, hr2, h3, h0', h1', h2', h7, h37,
          hq1, hq2] at hcmp
      subst hcmp
      simp [hp, ho, hq1, hq2, subrange]
      refine ⟨fun k hk => by simp [hk], fun a b ha hb => ?_, fun a b ha hb hab => ?_⟩
      · interval_cases a <;> interval_cases b <;> simp
      · have := hab ha
        omega
    · have h6 := hco ho
      have h3' : 3 < s.inns := by omega
      have h4' : 4 < s.inns := by omega
      have h5' : 5 < s.inns := by omega
      have hex : ∃ c, compose K hw s meas expe reading w = .ok c := by
        simp [compose, positionBlock, orientationBlock, positionMean, positionCov,
          orientationMean, orientationCov,
          cycleStart, GMat.clear, GMat.setSub, GMat.setSubFrom, GVec.setSub, GMat.set, hp, ho,
          bind_ok_eq, pure_eq_ok, hm1, hm2, hm3, he1, hr1, hr2, h3, h0', h1', h2', h7, h37,
          hq1, hq2, h6, h3', h4', h5']
      obtain ⟨c, hcmp⟩ := hex
      refine ⟨c, hcmp, ?_⟩
      simp [compose, positionBlock, orientationBlock, positionMean, positionCov,
          orientationMean, orientationCov,
          cycleStart, GMat.clear, GMat.setSub, GMat.setSubFrom, GVec.setSub, GMat.set, hp, ho,
          bind_ok_eq, pure_eq_ok, hm1, hm2, hm3, he1, hr1, hr2, h3, h0', h1', h2', h7, h37,
          hq1, hq2, h6, h3', h4', h5'] at hcmp
      subst hcmp
      simp [hp, ho, hq1, hq2, subrange]
      refine ⟨⟨fun k hk => ?_, fun a b ha hb => ?_, fun a b ha hb hab => ?_⟩,
        fun k hk => ?_, fun a b ha hb => ?_⟩
      · interval_cases k <;> simp
      · interval_cases a <;> interval_cases b <;> simp
      · have := hab ha
        omega
      · interval_cases k <;> simp
      · interval_cases a <;> interval_cases b <;> simp

/-- The position injection of the first fix, for buffers holding the position
channel at index 0. -/
theorem firstPosition_ok ( absolute : Bool) (Tr : RVec) (c : Cycle) (w : World)
    (hinj : Function.Injective w.ia_pose) (hi : c.indexE_Pos = 0)
    (hx : 3 ≤ c.measurement.x.size) (hr : 3 ≤ c.measurement.P.rows)
    (hc : 3 ≤ c.measurement.P.cols) :
    ∃ w2, firstPosition absolute Tr c w = .ok w2 ∧
      w2.ia_pose = w.ia_pose ∧ w2.corrections = w.corrections ∧
      (∀ k, k < 3 → w2.pose_x k = if absolute then c.measurement.x.e k - Tr k else 0) ∧
      (∀ k, 3 ≤ k → w2.pose_x k = w.pose_x k) ∧
      (∀ k, k < 3 → w2.origin_sensors k
        = if absolute then 0 else c.measurement.x.e k - Tr k) ∧
      (∀ a b, a < 3 → b < 3 → w2.pose_P a b = c.measurement.P.e a b
        + prod_JPJt c.EXP_q.cols (subrange2 w.pose_P 3 4 3 4) c.EXP_q.e a b) ∧
      (∀ a b, 3 ≤ a ∨ 3 ≤ b → w2.pose_P a b = w.pose_P a b) := by
  have hex : ∃ w2, firstPosition absolute Tr c w = .ok w2 := by
    cases absolute <;>
      simp [firstPosition, GVec.getSub, GMat.getSub, hi, hx, hr, hc, bind_ok_eq, pure_eq_ok]
  obtain ⟨w2, hw2⟩ := hex
  refine ⟨w2, hw2, ?_⟩
  cases absolute
  · simp [firstPosition, GVec.getSub, GMat.getSub, hi, hx, hr, hc, bind_ok_eq, pure_eq_ok] at hw2
    subst hw2
    refine ⟨rfl, rfl, ?_, ?_, ?_, ?_, ?_⟩
    · intro k hk
      rw [setPoseP_pose_x, setPoseX_pose_x _ (by exact hinj)]
      simp [hk]
    · intro k hk
      rw [setPoseP_pose_x, setPoseX_pose_x _ (by exact hinj)]
      have : ¬ k < 3 := by omega
      simp [this]
      rfl
    · intro k hk
      simp [subrange, hk]
    · intro a b ha hb
      rw [setPoseP_pose_P _ (by exact hinj)]
      simp [ha, hb, setPoseX_pose_P]
      rfl
    · intro a b hab
      rw [setPoseP_pose_P _ (by exact hinj)]
      have : ¬ (a < 3 ∧ b < 3) := by omega
      simp [this]
      rfl
  · simp [firstPosition, GVec.getSub, GMat.getSub, hi, hx, hr, hc, bind_ok_eq, pure_eq_ok] at hw2
    subst hw2
    refine ⟨rfl, rfl, ?_, ?_, ?_, ?_, ?_⟩
    · intro k hk
      rw [setPoseP_pose_x, setPoseX_pose_x _ (by exact hinj)]
      simp [hk, subrange]
    · intro k hk
      rw [setPoseP_pose_x, setPoseX_pose_x _ (by exact hinj)]
      have : ¬ k < 3 := by omega
      simp [this]
      rfl
    · intro k hk
      simp
    · intro a b ha hb
      rw [setPoseP_pose_P _ (by exact hinj)]
      simp [ha, hb, setPoseX_pose_P]
      rfl
    · intro a b hab
      rw [setPoseP_pose_P _ (by exact hinj)]
      have : ¬ (a < 3 ∧ b < 3) := by omega
      simp [this]
      rfl

/-- The orientation injection of the first fix. -/
theorem firstOrientation_ok (K : QuatKernel) (r : RVec) (c : Cycle) (w : World)
    (hinj : Function.Injective w.ia_pose)
    (hx : c.indexE_OriEuler + 3 ≤ c.measurement.x.size)
    (hr : c.indexE_OriEuler + 3 ≤ c.measurement.P.rows)
    (hc : c.indexE_OriEuler + 3 ≤ c.measurement.P.cols) :
    ∃ w1, firstOrientation K r c w = .ok w1 ∧
      w1.ia_pose = w.ia_pose ∧ w1.corrections = w.corrections ∧
      w1.origin_sensors = w.origin_sensors ∧
      (∀ k, k < 3 → w1.pose_x k = w.pose_x k) ∧
      (∀ k, k < 4 → w1.pose_x (3 + k)
        = K.qProd (K.e2q (subrange c.measurement.x.e c.indexE_OriEuler 3)).1 (K.q2qc r) k) ∧
      (∀ a b, a < 3 ∨ b < 3 → w1.pose_P a b = w.pose_P a b) := by
  have hex : ∃ w1, firstOrientation K r c w = .ok w1 := by
    simp [firstOrientation, GVec.getSub, GMat.getSub, hx, hr, hc, bind_ok_eq, pure_eq_ok]
  obtain ⟨w1, hw1⟩ := hex
  refine ⟨w1, hw1, ?_⟩
  simp [firstOrientation, GVec.getSub, GMat.getSub, hx, hr, hc, bind_ok_eq, pure_eq_ok] at hw1
  subst hw1
  refine ⟨rfl, rfl, rfl, ?_, ?_, ?_⟩
  · intro k hk
    rw [setPoseP_pose_x, setPoseX_pose_x _ hinj]
    have : ¬ (3 ≤ k ∧ k < 3 + 4) := by omega
    simp [this]
  · intro k hk
    rw [setPoseP_pose_x, setPoseX_pose_x _ hinj]
    have : 3 + k < 3 + 4 := by omega
    simp [this]
  · intro a b hab
    rw [setPoseP_pose_P _ (by exact hinj)]
    have : ¬ ((3 ≤ a ∧ a < 3 + 4) ∧ (3 ≤ b ∧ b < 3 + 4)) := by omega
    simp [this]
    rfl

theorem finish_snd (hw : Hardware) (id : Nat) (u : Bool) (sw : SensorAbsloc × World) :
    (finish hw id u sw).2 = sw.2 := by
  unfold finish
  split <;> rfl

theorem finish_first (hw : Hardware) (id : Nat) (u : Bool) (sw : SensorAbsloc × World) :
    (finish hw id u sw).1.first = sw.1.first := by
  unfold finish
  split <;> rfl

theorem finish_use_for_init (hw : Hardware) (id : Nat) (sw : SensorAbsloc × World) :
    (finish hw id sw.1.use_for_init sw).1.use_for_init = false := by
  unfold finish
  split
  · rfl
  · next h => simpa using h

theorem finish_eq (hw : Hardware) (id : Nat) (u : Bool) (sw : SensorAbsloc × World) :
    finish hw id u sw = ((finish hw id u sw).1, sw.2) := by
  rw [← finish_snd hw id u sw]

/-- The result of `process` on a first cycle, once its stages are known to succeed. -/
theorem process_first_eq (K : QuatKernel) (F : CorrectCall → RVec × RMat → RVec × RMat)
    (id : Nat) (s : SensorAbsloc) (w : World) (hw : Hardware) (meas expe inn : Gaussian)
    (reading : RVec) (c : Cycle) (w1 : World)
    (hhw : s.hardware = some hw) (hm : s.measurement = some meas)
    (he : s.expectation = some expe) (hi : s.innovation = some inn)
    (hfirst : s.first = true)
    (hfetch : fetchReading hw s id = .ok reading)
    (hcomp : compose K hw s meas expe reading w = .ok c)
    (hfix : firstFix K hw s.absolute s.r (leverTr K s w) c w = .ok w1) :
    process K F id s w = .ok ((finish hw id s.use_for_init
      ({ s with reading := reading, EXP_rs := c.EXP_rs, EXP_q := c.EXP_q,
                measurement := some c.measurement, expectation := some c.expectation,
                first := false }, w1)).1, w1) := by
  simp only [process, hhw, hm, he, hi, hfetch, hcomp, bind_ok_eq, cycleBranch, hfirst, if_true,
    hfix, pure_eq_ok]
  rw [finish_eq]

theorem prod_JPJt_congr (n : Nat) (P J J2 : RMat) (i j : Nat)
    (hi : ∀ a, a < n → J i a = J2 i a) (hj : ∀ b, b < n → J j b = J2 j b) :
    prod_JPJt n P J i j = prod_JPJt n P J2 i j := by
  unfold prod_JPJt
  apply Finset.sum_congr rfl
  intro a ha
  apply Finset.sum_congr rfl
  intro b hb
  rw [hi a (Finset.mem_range.mp ha), hj b (Finset.mem_range.mp hb)]

/-- The first cycle of a sensor that reports a position: the call succeeds, and
the robot position, the origin offset and the position covariance block are the
ones of lines 193-207, computed with the lever arm rotated at line 119. The
world `w1` is the one left by the orientation injection (the entry world when
there is no orientation channel). -/
theorem first_fix_position (K : QuatKernel) (F : CorrectCall → RVec × RMat → RVec × RMat)
    (id : Nat) (s : SensorAbsloc) (w : World) (hw : Hardware) (meas expe inn : Gaussian)
    (reading : RVec)
    (hhw : s.hardware = some hw) (hm : s.measurement = some meas)
    (he : s.expectation = some expe) (hi : s.innovation = some inn)
    (hs : Shapes s meas expe inn) (hc : Channels hw s.inns)
    (hfirst : s.first = true) (hfetch : fetchReading hw s id = .ok reading)
    (hinj : Function.Injective w.ia_pose) (hp : hw.qPos ≠ 0) :
    ∃ s2 w2 w1, process K F id s w = .ok (s2, w2) ∧
      s2.first = false ∧ s2.use_for_init = false ∧
      w2.ia_pose = w.ia_pose ∧ w2.corrections = w.corrections ∧
      (hw.qOriEuler = 0 → w1 = w) ∧
      (hw.qOriEuler ≠ 0 → ∀ k, k < 4 → w1.pose_x (3 + k)
        = K.qProd (K.e2q (subrange reading hw.qOriEuler 3)).1 (K.q2qc s.r) k) ∧
      (∀ k, k < 3 → w2.pose_x k
        = if s.absolute then reading (hw.qPos + k) - w.origin_sensors k - leverTr K s w k
          else 0) ∧
      (∀ k, 3 ≤ k → w2.pose_x k = w1.pose_x k) ∧
      (∀ k, k < 3 → w2.origin_sensors k
        = if s.absolute then 0
          else reading (hw.qPos + k) - w.origin_sensors k - leverTr K s w k) ∧
      (∀ a b, a < 3 → b < 3 → w2.pose_P a b
        = (if a = b then sqr (reading (hw.qPos + a + s.inns)) else meas.P.e a b)
          + prod_JPJt 4 (subrange2 w1.pose_P 3 4 3 4) (K.rotate_by_dq w.q s.T) a b) ∧
      (∀ a b, 3 ≤ a ∨ 3 ≤ b → w2.pose_P a b = w1.pose_P a b) := by
  obtain ⟨c, hcomp, -, ⟨hq1, hq2⟩, ⟨hx, hr, hcc⟩, -, hpos, hori⟩ :=
    compose_ok K hw s meas expe inn reading w hs hc
  obtain ⟨hiP, hmx, hmP, hEq⟩ := hpos hp
  have h3 : 3 ≤ s.inns := hc.1 hp
  -- the orientation injection
  have hw1 : ∃ w1, (if hw.qOriEuler ≠ 0 then firstOrientation K s.r c w else pure w) = .ok w1 ∧
      w1.ia_pose = w.ia_pose ∧ w1.corrections = w.corrections ∧
      w1.origin_sensors = w.origin_sensors ∧
      (hw.qOriEuler = 0 → w1 = w) ∧
      (hw.qOriEuler ≠ 0 → ∀ k, k < 4 → w1.pose_x (3 + k)
        = K.qProd (K.e2q (subrange reading hw.qOriEuler 3)).1 (K.q2qc s.r) k) := by
    by_cases ho : hw.qOriEuler = 0
    · exact ⟨w, by simp [ho, pure_eq_ok], rfl, rfl, rfl, fun _ => rfl, fun h => absurd ho h⟩
    · obtain ⟨hiO, hox, -⟩ := hori ho
      have h6 : 6 ≤ s.inns := hc.2 ho
      have hle : c.indexE_OriEuler + 3 ≤ s.inns := by
        rw [hiO]; split <;> omega
      obtain ⟨w1, h1, h2, h3, h4, -, h6, -⟩ := firstOrientation_ok K s.r c w hinj
        (by rw [hx]; exact hle) (by rw [hr]; exact hle) (by rw [hcc]; exact hle)
      have hsub : subrange c.measurement.x.e c.indexE_OriEuler 3
          = subrange reading hw.qOriEuler 3 := by
        funext k
        unfold subrange
        split
        · next hk => exact hox k hk
        · rfl
      refine ⟨w1, by simp [ho, h1], h2, h3, h4, fun h => absurd h ho, fun _ k hk => ?_⟩
      rw [h6 k hk, hsub]
  obtain ⟨w1, hfo, hia1, hcor1, horg1, hwo0, hwo1⟩ := hw1
  obtain ⟨w2, hfp, hia2, hcor2, hpx, hpx3, horg, hP, hP3⟩ :=
    firstPosition_ok s.absolute (leverTr K s w) c w1 (by rw [hia1]; exact hinj) hiP
      (by omega) (by omega) (by omega)
  have hfix : firstFix K hw s.absolute s.r (leverTr K s w) c w = .ok w2 := by
    unfold firstFix
    by_cases ho : hw.qOriEuler = 0
    · simp only [ho, ne_eq, not_true_eq_false, if_false, pure_eq_ok, Except.ok.injEq] at hfo
      subst hfo
      simp only [ho, ne_eq, not_true_eq_false, if_false, pure_eq_ok, bind_ok_eq, hp,
        not_false_eq_true, if_true, hfp]
    · simp only [ho, ne_eq, not_false_eq_true, if_true] at hfo
      simp only [ho, ne_eq, not_false_eq_true, if_true, hfo, bind_ok_eq, hp, hfp]
  refine ⟨_, _, w1, process_first_eq K F id s w hw meas expe inn reading c w2 hhw hm he hi
    hfirst hfetch hcomp hfix, ?_, ?_, ?_, ?_, hwo0, hwo1, ?_, ?_, ?_, ?_, ?_⟩
  · rw [finish_first]
  · exact finish_use_for_init hw id
      ({ s with reading := reading, EXP_rs := c.EXP_rs, EXP_q := c.EXP_q,
                measurement := some c.measurement, expectation := some c.expectation,
                first := false }, w2)
  · exact hia2.trans hia1
  · exact hcor2.trans hcor1
  · intro k hk
    rw [hpx k hk, hmx k hk]
  · intro k hk
    exact hpx3 k hk
  · intro k hk
    rw [horg k hk, hmx k hk]
  · intro a b ha hb
    rw [hP a b ha hb, hmP a b ha hb, hq2]
    congr 1
    exact prod_JPJt_congr 4 _ _ _ a b (fun x hx => hEq a x ha hx) (fun x hx => hEq b x hb hx)
  · intro a b hab
    exact hP3 a b hab

/-- The buffer shapes are fixed by `setHardwareSensor`. -/
theorem setHardwareSensor_shapes (hw : Hardware) (s0 : SensorAbsloc) (h7 : 7 ≤ s0.ia_rs.length) :
    Shapes (setHardwareSensor hw s0) (Gaussian.ofSize hw.dataSize) (Gaussian.ofSize hw.dataSize)
      (Gaussian.ofSize hw.dataSize) :=
  ⟨⟨rfl, rfl, rfl⟩, ⟨rfl, rfl, rfl⟩, ⟨rfl, rfl, rfl⟩, ⟨rfl, rfl⟩, ⟨rfl, rfl⟩, h7⟩

theorem exampleWorld_injective (p q : RVec) (P : RMat) :
    Function.Injective (exampleWorld p q P).ia_pose := by
  intro a b h
  simpa [exampleWorld] using h

/-- A diagonal entry of `J * P * J^T` is non-negative when `P` is positive
semi-definite. -/
theorem prod_JPJt_diag_nonneg (n : Nat) (P J : RMat) (hP : IsPSD n P) (i : Nat) :
    0 ≤ prod_JPJt n P J i i :=
  hP (fun a => J i a)

theorem leverTr_example ( absolute : Bool) (hw : Hardware) (P : RMat) (k : Nat) :
    leverTr (exampleKernel qIdentity) (exampleSensor hw absolute)
      (exampleWorld (fun _ => 0) qIdentity P) k = vec3 1 0 0 k := by
  simp [leverTr, exampleKernel, exampleSensor, setHardwareSensor, SensorAbsloc.new,
    SensorAbsloc.T, World.q, World.pose_x, exampleWorld, subrange, leverPose, qIdentity, vec3]

theorem hwPos_position (id k : Nat) (hk : k < 3) : hwPos.raw id (hwPos.qPos + k) = vec3 5 0 0 k := by
  interval_cases k <;> simp [hwPos, rawOfList, vec3]


/-- C4. First fix with both channels, lever arm `(1,0,0)`, robot orientation
the identity at entry, measured position `(5,0,0)` and measured Euler angles
converted to the half-turn quaternion: the call injects the half turn as robot
orientation and `(4,0,0)` as robot position, that is the measured position
minus the lever arm rotated by the orientation at entry; the lever arm rotated
by the injected orientation is `(-1,0,0)`, which would give `(6,0,0)`. -/
theorem C4_position_uses_entry_orientation :
    ∃ s2 w2, process (exampleKernel qHalfTurn) exampleCorrect 0 (exampleSensor hwBoth true)
        (exampleWorld (fun _ => 0) qIdentity (fun _ _ => 0)) = .ok (s2, w2) ∧
      (∀ k, k < 4 → w2.q k = qHalfTurn k) ∧
      (w2.pose_x 0 = 4 ∧ w2.pose_x 1 = 0 ∧ w2.pose_x 2 = 0) ∧
      ((exampleKernel qHalfTurn).rotate w2.q (exampleSensor hwBoth true).T 0 = -1 ∧
        (exampleKernel qHalfTurn).rotate w2.q (exampleSensor hwBoth true).T 1 = 0 ∧
        (exampleKernel qHalfTurn).rotate w2.q (exampleSensor hwBoth true).T 2 = 0) := by
  obtain ⟨s2, w2, w1, hproc, -, -, -, -, -, hw1, hpx, hpx3, -, -, -⟩ :=
    first_fix_position (exampleKernel qHalfTurn) exampleCorrect 0 (exampleSensor hwBoth true)
      (exampleWorld (fun _ => 0) qIdentity (fun _ _ => 0)) hwBoth (Gaussian.ofSize 6)
      (Gaussian.ofSize 6) (Gaussian.ofSize 6) (hwBoth.raw 0) rfl rfl rfl rfl
      (setHardwareSensor_shapes hwBoth _ (by decide)) ⟨fun _ => by decide, fun _ => by decide⟩
      rfl rfl (exampleWorld_injective _ _ _) (by decide)
  have hq : ∀ k, k < 4 → w2.q k = qHalfTurn k := by
    intro k hk
    have h1 := hw1 (by decide) k hk
    have h2 := hpx3 (3 + k) (by omega)
    simp only [World.q, subrange, hk, if_true]
    rw [h2, h1]
    interval_cases k <;>
      simp [exampleKernel, qHalfTurn, exampleSensor, setHardwareSensor, SensorAbsloc.new,
        SensorAbsloc.r, subrange, leverPose]
  refine ⟨s2, w2, hproc, hq, ?_, ?_⟩
  · have hs : (exampleSensor hwBoth true).absolute = true := rfl
    simp only [hpx, hs, Nat.lt_succ_self, Nat.zero_lt_succ, Nat.one_lt_succ_succ, if_true]
    simp [leverTr, exampleKernel, exampleSensor, setHardwareSensor, SensorAbsloc.new,
      SensorAbsloc.T, World.q, World.pose_x, exampleWorld, subrange, leverPose, qIdentity, vec3,
      hwBoth, rawOfList]
    norm_num
  · simp [exampleKernel, hq, exampleSensor, setHardwareSensor, SensorAbsloc.new,
      SensorAbsloc.T, subrange, leverPose, vec3, qHalfTurn]

theorem subrange2_block_psd (M : RMat) (h : IsPSD 4 (fun a b => M (3 + a) (3 + b))) :
    IsPSD 4 (subrange2 M 3 4 3 4) := by
  intro v
  have := h v
  refine le_of_le_of_eq this ?_
  apply Finset.sum_congr rfl
  intro a ha
  apply Finset.sum_congr rfl
  intro b hb
  have ha' := Finset.mem_range.mp ha
  have hb' := Finset.mem_range.mp hb
  simp [subrange2, ha', hb']

/-- C5 (amended). Absolute mode, first cycle of a position-only sensor with the
lever arm rotated to `(1,0,0)`, reading `(5,0,0)`, reported uncertainty `1/100`
on each axis, origin offset zero at entry and a positive semi-definite prior
orientation covariance: the call succeeds, the robot position becomes `(4,0,0)`,
the origin offset is zero and every diagonal entry of the position covariance
block is at least `1/10000`, the square of the reported uncertainty. -/
theorem C5_absolute_first_fix (K : QuatKernel) (F : CorrectCall → RVec × RMat → RVec × RMat)
    (id : Nat) (s : SensorAbsloc) (w : World) (hw : Hardware) (meas expe inn : Gaussian)
    (reading : RVec)
    (hhw : s.hardware = some hw) (hm : s.measurement = some meas)
    (he : s.expectation = some expe) (hi : s.innovation = some inn)
    (hs : Shapes s meas expe inn) (hinns : s.inns = 3)
    (hp : hw.qPos ≠ 0) (ho : hw.qOriEuler = 0)
    (habs : s.absolute = true) (hfirst : s.first = true)
    (hfetch : fetchReading hw s id = .ok reading)
    (hinj : Function.Injective w.ia_pose)
    (horigin : ∀ k, k < 3 → w.origin_sensors k = 0)
    (hlever : ∀ k, k < 3 → leverTr K s w k = vec3 1 0 0 k)
    (hpos : ∀ k, k < 3 → reading (hw.qPos + k) = vec3 5 0 0 k)
    (hvar : ∀ k, k < 3 → reading (hw.qPos + k + 3) = 1 / 100)
    (hpsd : IsPSD 4 (fun a b => w.pose_P (3 + a) (3 + b))) :
    ∃ s2 w2, process K F id s w = .ok (s2, w2) ∧
      (w2.pose_x 0 = 4 ∧ w2.pose_x 1 = 0 ∧ w2.pose_x 2 = 0) ∧
      (∀ k, k < 3 → w2.origin_sensors k = 0) ∧
      (∀ k, k < 3 → (1 : ℚ) / 10000 ≤ w2.pose_P k k) := by
  obtain ⟨s2, w2, w1, hproc, -, -, -, -, hw1, -, hpx, -, horg, hP, -⟩ :=
    first_fix_position K F id s w hw meas expe inn reading hhw hm he hi hs
      ⟨fun _ => by omega, fun h => absurd ho h⟩ hfirst hfetch hinj hp
  have := hw1 ho
  subst this
  refine ⟨s2, w2, hproc, ?_, ?_, ?_⟩
  · simp only [hpx, habs, horigin, hlever, hpos, vec3, Nat.lt_succ_self, Nat.zero_lt_succ,
      Nat.one_lt_succ_succ, if_true]
    norm_num
  · intro k hk
    rw [horg k hk, habs]
    rfl
  · intro k hk
    rw [hP k k hk hk, if_pos rfl, hinns, hvar k hk]
    have h1 := prod_JPJt_diag_nonneg 4 _ (K.rotate_by_dq w1.q s.T) (subrange2_block_psd _ hpsd) k
    have h2 : sqr ((1 : ℚ) / 100) = 1 / 10000 := by norm_num [sqr]
    rw [h2]
    linarith

theorem C5_absolute_first_fix_witness :
    ∃ s2 w2, process (exampleKernel qIdentity) exampleCorrect 0 (exampleSensor hwPos true)
        (exampleWorld (fun _ => 0) qIdentity (fun _ _ => 0)) = .ok (s2, w2) ∧
      (w2.pose_x 0 = 4 ∧ w2.pose_x 1 = 0 ∧ w2.pose_x 2 = 0) ∧
      (∀ k, k < 3 → w2.origin_sensors k = 0) ∧
      (∀ k, k < 3 → (1 : ℚ) / 10000 ≤ w2.pose_P k k) :=
  C5_absolute_first_fix (exampleKernel qIdentity) exampleCorrect 0 (exampleSensor hwPos true)
    (exampleWorld (fun _ => 0) qIdentity (fun _ _ => 0)) hwPos (Gaussian.ofSize 3)
    (Gaussian.ofSize 3) (Gaussian.ofSize 3) (hwPos.raw 0) rfl rfl rfl rfl
    (setHardwareSensor_shapes hwPos _ (by decide)) rfl (by decide) rfl rfl rfl rfl
    (exampleWorld_injective _ _ _) (fun _ _ => rfl)
    (fun k _ => leverTr_example true hwPos _ k) (fun k hk => hwPos_position 0 k hk)
    (fun k hk => by interval_cases k <;> simp [hwPos, rawOfList])
    (fun v => by simp [World.pose_P, exampleWorld])

/-- C5 (as stated) fails: with a zero prior orientation covariance the first
diagonal entry of the position covariance block is `1/10000`, below `1/100`. -/
theorem C5_covariance_counterexample :
    ∃ s2 w2, process (exampleKernel qIdentity) exampleCorrect 0 (exampleSensor hwPos true)
        (exampleWorld (fun _ => 0) qIdentity (fun _ _ => 0)) = .ok (s2, w2) ∧
      w2.pose_P 0 0 = 1 / 10000 ∧ ¬ ((1 : ℚ) / 100 ≤ w2.pose_P 0 0) := by
  obtain ⟨s2, w2, w1, hproc, -, -, -, -, hw1, -, -, -, -, hP, -⟩ :=
    first_fix_position (exampleKernel qIdentity) exampleCorrect 0 (exampleSensor hwPos true)
      (exampleWorld (fun _ => 0) qIdentity (fun _ _ => 0)) hwPos (Gaussian.ofSize 3)
      (Gaussian.ofSize 3) (Gaussian.ofSize 3) (hwPos.raw 0) rfl rfl rfl rfl
      (setHardwareSensor_shapes hwPos _ (by decide)) ⟨fun _ => by decide, fun h => absurd rfl h⟩
      rfl rfl (exampleWorld_injective _ _ _) (by decide)
  have := hw1 rfl
  subst this
  have h0 : w2.pose_P 0 0 = 1 / 10000 := by
    rw [hP 0 0 (by norm_num) (by norm_num)]
    simp [prod_JPJt, subrange2, World.pose_P, exampleWorld, sqr, hwPos, rawOfList,
      exampleSensor, setHardwareSensor]
    norm_num
  refine ⟨s2, w2, hproc, h0, ?_⟩
  rw [h0]
  norm_num

/-- C6. Relative mode, first cycle of a position-only sensor: the call
succeeds, the robot position is pinned to zero and the origin offset becomes the
measured position (reading minus the previous origin offset) minus the rotated
lever arm; with lever arm rotated to `(1,0,0)`, reading `(5,0,0)` and origin
offset zero at entry, the origin offset becomes `(4,0,0)`. -/
theorem C6_relative_first_fix (K : QuatKernel) (F : CorrectCall → RVec × RMat → RVec × RMat)
    (id : Nat) (s : SensorAbsloc) (w : World) (hw : Hardware) (meas expe inn : Gaussian)
    (reading : RVec)
    (hhw : s.hardware = some hw) (hm : s.measurement = some meas)
    (he : s.expectation = some expe) (hi : s.innovation = some inn)
    (hs : Shapes s meas expe inn) (hinns : 3 ≤ s.inns)
    (hp : hw.qPos ≠ 0) (ho : hw.qOriEuler = 0)
    (hrel : s.absolute = false) (hfirst : s.first = true)
    (hfetch : fetchReading hw s id = .ok reading)
    (hinj : Function.Injective w.ia_pose) :
    ∃ s2 w2, process K F id s w = .ok (s2, w2) ∧
      (∀ k, k < 3 → w2.pose_x k = 0) ∧
      (∀ k, k < 3 → w2.origin_sensors k
        = (reading (hw.qPos + k) - w.origin_sensors k) - leverTr K s w k) ∧
      ((∀ k, k < 3 → w.origin_sensors k = 0) →
        (∀ k, k < 3 → leverTr K s w k = vec3 1 0 0 k) →
        (∀ k, k < 3 → reading (hw.qPos + k) = vec3 5 0 0 k) →
        w2.origin_sensors 0 = 4 ∧ w2.origin_sensors 1 = 0 ∧ w2.origin_sensors 2 = 0) := by
  obtain ⟨s2, w2, w1, hproc, -, -, -, -, -, -, hpx, -, horg, -, -⟩ :=
    first_fix_position K F id s w hw meas expe inn reading hhw hm he hi hs
      ⟨fun _ => hinns, fun h => absurd ho h⟩ hfirst hfetch hinj hp
  refine ⟨s2, w2, hproc, ?_, ?_, ?_⟩
  · intro k hk
    rw [hpx k hk, hrel]
    rfl
  · intro k hk
    rw [horg k hk, hrel]
    rfl
  · intro h0 hT hr
    simp only [horg, hrel, h0, hT, hr, vec3, Nat.lt_succ_self, Nat.zero_lt_succ,
      Nat.one_lt_succ_succ, Bool.false_eq_true, if_false, if_true]
    norm_num

theorem C6_relative_first_fix_witness :
    ∃ s2 w2, process (exampleKernel qIdentity) exampleCorrect 0 (exampleSensor hwPos false)
        (exampleWorld (fun _ => 0) qIdentity (fun _ _ => 0)) = .ok (s2, w2) ∧
      (∀ k, k < 3 → w2.pose_x k = 0) ∧
      (w2.origin_sensors 0 = 4 ∧ w2.origin_sensors 1 = 0 ∧ w2.origin_sensors 2 = 0) := by
  obtain ⟨s2, w2, h, hx, -, hsc⟩ :=
    C6_relative_first_fix (exampleKernel qIdentity) exampleCorrect 0 (exampleSensor hwPos false)
      (exampleWorld (fun _ => 0) qIdentity (fun _ _ => 0)) hwPos (Gaussian.ofSize 3)
      (Gaussian.ofSize 3) (Gaussian.ofSize 3) (hwPos.raw 0) rfl rfl rfl rfl
      (setHardwareSensor_shapes hwPos _ (by decide)) (by decide) (by decide) rfl rfl rfl rfl
      (exampleWorld_injective _ _ _)
  exact ⟨s2, w2, h, hx, hsc (fun _ _ => rfl) (fun k _ => leverTr_example false hwPos _ k)
    (fun k hk => hwPos_position 0 k hk)⟩

/-- C7. Orientation-only sensor (`inns = 3`): the measured Euler angles are
written to the entries 0..2 of `Measurement.x`, but their uncertainties are
written to the diagonal entries 3..5 of `Measurement.P`, outside the `3 x 3`
matrix, so `process` does not complete. -/
theorem C7_orientation_only_out_of_bounds :
    ((orientationMean (exampleKernel qIdentity) hwOri.qOriEuler (hwOri.raw 0)
        (exampleWorld (fun _ => 0) qIdentity (fun _ _ => 0)).q (exampleSensor hwOri false).r
        (cycleStart (exampleSensor hwOri false) (Gaussian.ofSize 3) (Gaussian.ofSize 3))).toOption.map
      (fun c => (c.indexE, c.measurement.x.e 0, c.measurement.x.e 1, c.measurement.x.e 2,
        c.measurement.P.rows, c.measurement.P.cols))
      = some (0, 1 / 10, 2 / 10, 3 / 10, 3, 3)) ∧
    process (exampleKernel qIdentity) exampleCorrect 0 (exampleSensor hwOri false)
        (exampleWorld (fun _ => 0) qIdentity (fun _ _ => 0)) = .error .outOfBounds := by
  constructor
  · simp [orientationMean, cycleStart, exampleSensor, setHardwareSensor, SensorAbsloc.new,
      Gaussian.ofSize, GMat.resize, GMat.clear, GVec.setSub, GMat.setSub, bind_ok_eq, pure_eq_ok,
      Except.toOption, hwOri, rawOfList, subrange]
  · simp [process, fetchReading, compose, positionBlock, orientationBlock, orientationMean,
      orientationCov, cycleStart, exampleSensor, setHardwareSensor, SensorAbsloc.new,
      Gaussian.ofSize, GMat.resize, GMat.clear, GVec.setSub, GMat.setSub, GMat.set, bind_ok_eq,
      bind_error_eq, pure_eq_ok, hwOri]

theorem trueMin_le (l : List ℚ) (m : ℚ) (h : trueMin l = some m) : ∀ x ∈ l, m ≤ x := by
  cases l with
  | nil => cases h
  | cons x0 xs =>
    simp only [trueMin, Option.some.injEq] at h
    intro x hx
    rw [← h]
    rcases List.mem_cons.mp hx with e | e
    · rw [e]; exact foldl_min_le_init xs x0
    · exact foldl_min_le_of_mem xs x0 x e

theorem foldl_min_mem (l : List ℚ) (a : ℚ) : l.foldl min a = a ∨ l.foldl min a ∈ l := by
  induction l generalizing a with
  | nil => exact Or.inl rfl
  | cons x xs ih =>
    rw [List.foldl_cons]
    rcases ih (min a x) with h | h
    · rcases min_choice a x with e | e
      · left; rw [h, e]
      · right; rw [h, e]; exact List.mem_cons_self _ _
    · right; exact List.mem_cons_of_mem _ h

theorem trueMin_mem (l : List ℚ) (m : ℚ) (h : trueMin l = some m) : m ∈ l := by
  cases l with
  | nil => cases h
  | cons x0 xs =>
    simp only [trueMin, Option.some.injEq] at h
    rw [← h]
    rcases foldl_min_mem xs x0 with e | e
    · rw [e]; exact List.mem_cons_self _ _
    · exact List.mem_cons_of_mem _ e

theorem min_var_le_sentinel (hw : Hardware) (inns id : Nat) (reading : RVec) (i : Fin 3) :
    (initAccumulate hw inns id reading).min_var i ≤ 1000 := by
  simp only [initAccumulate, scanMinVar_fst, min_var0]
  exact foldl_min_le_init _ _

/-- When no sample of the window passes the threshold test on an axis, both
sums of that axis stay at zero and `init` divides by zero. -/
theorem init_none_qualifies (hw : Hardware) (inns id : Nat) (reading : RVec) (i : Fin 3)
    (h : ∀ k ∈ window id hw.available,
      ¬ varOf hw.raw inns i k < 2 * (initAccumulate hw inns id reading).min_var i) :
    (initAccumulate hw inns id reading).sum_coeffs i = 0 ∧
      (initAccumulate hw inns id reading).average i = 0 ∧
      init hw inns id reading = .error .notFinite := by
  have hf : (window id hw.available).filter (fun k => decide
      (varOf hw.raw inns i k < 2 * (initAccumulate hw inns id reading).min_var i)) = [] := by
    rw [List.filter_eq_nil_iff]
    intro k hk
    simpa using h k hk
  have hs : (initAccumulate hw inns id reading).sum_coeffs i = 0 := by
    have := accumulate_sum_coeffs hw.raw inns id (initAccumulate hw inns id reading).min_var i
      hw.available (fun _ => 0, fun _ => 0,
        (scanMinVar hw.raw inns id hw.available (min_var0, reading)).2)
    rw [hf] at this
    simpa [initAccumulate] using this
  have ha : (initAccumulate hw inns id reading).average i = 0 := by
    have := accumulate_average hw.raw inns id (initAccumulate hw inns id reading).min_var i
      hw.available (fun _ => 0, fun _ => 0,
        (scanMinVar hw.raw inns id hw.available (min_var0, reading)).2)
    rw [hf] at this
    simpa [initAccumulate] using this
  refine ⟨hs, ha, ?_⟩
  unfold init
  simp only
  rw [if_pos]
  fin_cases i
  · exact Or.inl hs
  · exact Or.inr (Or.inl hs)
  · exact Or.inr (Or.inr hs)

theorem window_append_target (id : Nat) (pre post : List Nat) (h : id ∉ pre) :
    window id (pre ++ id :: post) = pre ++ [id] := by
  induction pre with
  | nil => simp [window]
  | cons x xs ih =>
    have hx : x ≠ id := fun e => h (e ▸ List.mem_cons_self _ _)
    have hxs : id ∉ xs := fun e => h (List.mem_cons_of_mem _ e)
    simp [window, hx, ih hxs]

theorem window_of_not_mem (id : Nat) (l : List Nat) (h : id ∉ l) : window id l = l := by
  induction l with
  | nil => rfl
  | cons x xs ih =>
    have hx : x ≠ id := fun e => h (e ▸ List.mem_cons_self _ _)
    have hxs : id ∉ xs := fun e => h (List.mem_cons_of_mem _ e)
    simp [window, hx, ih hxs]

/-- The locals of `init` at line 100 depend on the list of available ids through
the scanned window only. -/
theorem initAccumulate_window (hw : Hardware) (inns id : Nat) (reading : RVec)
    (l1 l2 : List Nat) (h : window id l1 = window id l2) :
    initAccumulate (hw.withAvailable l1) inns id reading
      = initAccumulate (hw.withAvailable l2) inns id reading := by
  have hmv : (initAccumulate (hw.withAvailable l1) inns id reading).min_var
      = (initAccumulate (hw.withAvailable l2) inns id reading).min_var := by
    funext i
    simp only [initAccumulate, Hardware.withAvailable, scanMinVar_fst, h]
  have hmv2 := hmv
  simp only [initAccumulate, Hardware.withAvailable] at hmv2
  have havg : (initAccumulate (hw.withAvailable l1) inns id reading).average
      = (initAccumulate (hw.withAvailable l2) inns id reading).average := by
    funext i
    simp only [initAccumulate, Hardware.withAvailable, accumulate_average, h, hmv2]
  have hsum : (initAccumulate (hw.withAvailable l1) inns id reading).sum_coeffs
      = (initAccumulate (hw.withAvailable l2) inns id reading).sum_coeffs := by
    funext i
    simp only [initAccumulate, Hardware.withAvailable, accumulate_sum_coeffs, h, hmv2]
  have hrd : (initAccumulate (hw.withAvailable l1) inns id reading).reading
      = (initAccumulate (hw.withAvailable l2) inns id reading).reading := by
    simp only [initAccumulate, Hardware.withAvailable, accumulate_reading, scanMinVar_reading, h]
  cases h1 : initAccumulate (hw.withAvailable l1) inns id reading with
  | mk a1 b1 c1 d1 =>
    cases h2 : initAccumulate (hw.withAvailable l2) inns id reading with
    | mk a2 b2 c2 d2 =>
      rw [h1, h2] at hmv havg hsum hrd
      simp only at hmv havg hsum hrd
      rw [hmv, havg, hsum, hrd]

/-- C15. The scanned window is the prefix of the available list up to and
including the first id equal to the target (the whole list when no id is); the
minimum-variance pass and the averaging pass both run over exactly this window;
hence two available lists with the same window give the same result of `init`,
averaged position and returned variance included, whatever follows the target. -/
theorem C15_window_extent (hw : Hardware) (inns id : Nat) (reading : RVec) :
    (∀ pre post, id ∉ pre → window id (pre ++ id :: post) = pre ++ [id]) ∧
    (∀ l, id ∉ l → window id l = l) ∧
    (∀ i, (initAccumulate hw inns id reading).min_var i
        = ((window id hw.available).map (varOf hw.raw inns i)).foldl min 1000 ∧
      (initAccumulate hw inns id reading).average i
        = (((window id hw.available).filter (fun k => decide
              (varOf hw.raw inns i k < 2 * (initAccumulate hw inns id reading).min_var i))).map
            (fun k => valOf hw.raw i k * varOf hw.raw inns i k)).sum ∧
      (initAccumulate hw inns id reading).sum_coeffs i
        = (((window id hw.available).filter (fun k => decide
              (varOf hw.raw inns i k < 2 * (initAccumulate hw inns id reading).min_var i))).map
            (varOf hw.raw inns i)).sum) ∧
    (∀ l1 l2, window id l1 = window id l2 →
      init (hw.withAvailable l1) inns id reading = init (hw.withAvailable l2) inns id reading) := by
  refine ⟨fun pre post h => window_append_target id pre post h,
    fun l h => window_of_not_mem id l h, fun i => ⟨?_, ?_, ?_⟩, fun l1 l2 h => ?_⟩
  · simp only [initAccumulate, scanMinVar_fst, min_var0]
  · simp only [initAccumulate, accumulate_average, zero_add]
  · simp only [initAccumulate, accumulate_sum_coeffs, zero_add]
  · unfold init
    rw [initAccumulate_window hw inns id reading l1 l2 h]

theorem C15_window_extent_witness :
    window 1 [0, 1, 2] = window 1 [0, 1, 7, 9] ∧
      init (hwOutlier.withAvailable [0, 1, 2]) 3 1 (fun _ => 0)
        = init (hwOutlier.withAvailable [0, 1, 7, 9]) 3 1 (fun _ => 0) :=
  ⟨by decide, (C15_window_extent hwOutlier 3 1 (fun _ => 0)).2.2.2 [0, 1, 2] [0, 1, 7, 9]
    (by decide)⟩

/-- C16. Each of the three constructors of `LandmarkEuclideanPoint` hands size 3
to the `LandmarkAbstract` constructor and leaves `geomType = POINT`,
`type = PNT_EUC` and `converged = true`, whatever the base constructor left in
these members. -/
theorem C16_landmark_construction (base1 base2 base3 : Nat → LandmarkAbstract) :
    ((LandmarkEuclideanPoint.fromMap base1).baseSize = 3 ∧
      (LandmarkEuclideanPoint.fromMap base1).members.geomType = GeomType.POINT ∧
      (LandmarkEuclideanPoint.fromMap base1).members.type = LandmarkType.PNT_EUC ∧
      (LandmarkEuclideanPoint.fromMap base1).members.converged = true) ∧
    ((LandmarkEuclideanPoint.forSimulation base2).baseSize = 3 ∧
      (LandmarkEuclideanPoint.forSimulation base2).members.geomType = GeomType.POINT ∧
      (LandmarkEuclideanPoint.forSimulation base2).members.type = LandmarkType.PNT_EUC ∧
      (LandmarkEuclideanPoint.forSimulation base2).members.converged = true) ∧
    ((LandmarkEuclideanPoint.fromPrevious base3).baseSize = 3 ∧
      (LandmarkEuclideanPoint.fromPrevious base3).members.geomType = GeomType.POINT ∧
      (LandmarkEuclideanPoint.fromPrevious base3).members.type = LandmarkType.PNT_EUC ∧
      (LandmarkEuclideanPoint.fromPrevious base3).members.converged = true) :=
  ⟨⟨rfl, rfl, rfl, rfl⟩, ⟨rfl, rfl, rfl, rfl⟩, ⟨rfl, rfl, rfl, rfl⟩⟩

/-- C17. Failing input: a layout with the Euler angles at index 1 and the
position at index 4 (`inns = 6`), two available raws. `init` scans, averages and
overwrites the entries 1..3 with the uncertainties 7..9, that is the Euler
angles (averaged to `(1/5, 3/10, 2/5)`), and leaves the position entries 4..6 as
observed in the last raw, `(30, 40, 50)`; `process` reads the position at
`getQuantity(qPos) + k = 4 + k`. -/
theorem C17_init_addresses_index_one :
    (init hwSwapped 6 1 (fun _ => 0)).toOption.map
        (fun d => ((d 1, d 2, d 3), (d 4, d 5, d 6)))
      = some ((1 / 5, 3 / 10, 2 / 5), (30, 40, 50)) ∧
    (hwSwapped.qPos = 4 ∧
      (hwSwapped.raw 1 (hwSwapped.qPos + 0), hwSwapped.raw 1 (hwSwapped.qPos + 1),
        hwSwapped.raw 1 (hwSwapped.qPos + 2)) = (30, 40, 50) ∧
      (hwSwapped.raw 0 (hwSwapped.qPos + 0), hwSwapped.raw 0 (hwSwapped.qPos + 1),
        hwSwapped.raw 0 (hwSwapped.qPos + 2)) = (10, 20, 30)) := by
  constructor
  · norm_num [init, initAccumulate, scanMinVar, accumulate, hwSwapped, rawOfList, min_var0,
      writeBack, Function.update_apply, Except.toOption]
  · simp [hwSwapped, rawOfList]

theorem list_sum_pos (l : List ℚ) (hne : l ≠ []) (h : ∀ x ∈ l, 0 < x) : 0 < l.sum := by
  induction l with
  | nil => exact absurd rfl hne
  | cons x xs ih =>
    rw [List.sum_cons]
    have hx : 0 < x := h x (List.mem_cons_self _ _)
    by_cases hxs : xs = []
    · rw [hxs]; simpa using hx
    · have := ih hxs (fun y hy => h y (List.mem_cons_of_mem _ hy))
      linarith

/-- In a non-empty window whose variances on axis `i` are positive and not all
at or above 1000, a sample attaining the minimum variance passes the threshold
test, `min_var` is the minimum variance, and the variance sum is positive. -/
theorem sum_coeffs_pos (hw : Hardware) (inns id : Nat) (reading : RVec) (i : Fin 3)
    (hpos : ∀ k ∈ window id hw.available, 0 < varOf hw.raw inns i k)
    (hlt : ∃ k ∈ window id hw.available, varOf hw.raw inns i k < 1000) :
    (∃ k ∈ window id hw.available,
      trueMin ((window id hw.available).map (varOf hw.raw inns i))
        = some (varOf hw.raw inns i k) ∧
      (initAccumulate hw inns id reading).min_var i = varOf hw.raw inns i k ∧
      varOf hw.raw inns i k < 2 * (initAccumulate hw inns id reading).min_var i) ∧
    0 < (initAccumulate hw inns id reading).sum_coeffs i := by
  obtain ⟨k1, hk1, hk1lt⟩ := hlt
  cases hm : trueMin ((window id hw.available).map (varOf hw.raw inns i)) with
  | none =>
    cases hl : (window id hw.available).map (varOf hw.raw inns i) with
    | nil =>
      have := List.mem_map_of_mem (varOf hw.raw inns i) hk1
      rw [hl] at this
      cases this
    | cons x xs => rw [hl] at hm; simp [trueMin] at hm
  | some m =>
    obtain ⟨k0, hk0, hk0m⟩ := List.mem_map.mp (trueMin_mem _ m hm)
    have hmle : m ≤ varOf hw.raw inns i k1 := trueMin_le _ m hm _ (List.mem_map_of_mem _ hk1)
    have hmv : (initAccumulate hw inns id reading).min_var i = m := by
      rw [min_var_eq hw inns id reading i m hm]
      exact min_eq_right (by linarith)
    have hmpos : 0 < m := hk0m ▸ hpos k0 hk0
    have hq : varOf hw.raw inns i k0 < 2 * (initAccumulate hw inns id reading).min_var i := by
      rw [hmv, hk0m]; linarith
    refine ⟨⟨k0, hk0, by rw [hk0m], by rw [hmv, hk0m], hq⟩, ?_⟩
    have hs : (initAccumulate hw inns id reading).sum_coeffs i
        = (((window id hw.available).filter (fun k => decide
              (varOf hw.raw inns i k < 2 * (initAccumulate hw inns id reading).min_var i))).map
            (varOf hw.raw inns i)).sum := by
      simp only [initAccumulate, accumulate_sum_coeffs, zero_add]
    rw [hs]
    apply list_sum_pos
    · intro hnil
      have hmem : k0 ∈ (window id hw.available).filter (fun k => decide
          (varOf hw.raw inns i k < 2 * (initAccumulate hw inns id reading).min_var i)) :=
        List.mem_filter.mpr ⟨hk0, by simpa using hq⟩
      have := List.mem_map_of_mem (varOf hw.raw inns i) hmem
      rw [hnil] at this
      cases this
    · intro x hx
      obtain ⟨k, hk, rfl⟩ := List.mem_map.mp hx
      exact hpos k (List.mem_filter.mp hk).1

/-- C18. In a scanned window whose reported variances are all strictly positive
and where each axis has a variance below 1000 (the window is then non-empty), on
every axis a sample attaining the minimum variance qualifies, the accumulated
variance sum is strictly positive, and `init` completes (no division by zero). -/
theorem C18_divisor_positive (hw : Hardware) (inns id : Nat) (reading : RVec)
    (hpos : ∀ i, ∀ k ∈ window id hw.available, 0 < varOf hw.raw inns i k)
    (hlt : ∀ i, ∃ k ∈ window id hw.available, varOf hw.raw inns i k < 1000) :
    (∀ i, ∃ k ∈ window id hw.available,
      trueMin ((window id hw.available).map (varOf hw.raw inns i))
        = some (varOf hw.raw inns i k) ∧
      varOf hw.raw inns i k < 2 * (initAccumulate hw inns id reading).min_var i) ∧
    (∀ i, 0 < (initAccumulate hw inns id reading).sum_coeffs i) ∧
    ∃ d, init hw inns id reading = .ok d := by
  have hs : ∀ i, 0 < (initAccumulate hw inns id reading).sum_coeffs i :=
    fun i => (sum_coeffs_pos hw inns id reading i (hpos i) (hlt i)).2
  refine ⟨fun i => ?_, hs, ?_⟩
  · obtain ⟨k, hk, h1, -, h3⟩ := (sum_coeffs_pos hw inns id reading i (hpos i) (hlt i)).1
    exact ⟨k, hk, h1, h3⟩
  · unfold init
    simp only
    rw [if_neg]
    · exact ⟨_, rfl⟩
    · rintro (h | h | h)
      · exact absurd h (ne_of_gt (hs 0))
      · exact absurd h (ne_of_gt (hs 1))
      · exact absurd h (ne_of_gt (hs 2))

theorem hwOutlier_var (i : Fin 3) (k : Nat) :
    varOf hwOutlier.raw 3 i k = if k = 1 then 6 else 2 := by
  fin_cases i <;> by_cases h0 : k = 0 <;> by_cases h1 : k = 1 <;>
    simp [varOf, hwOutlier, rawOfList, h0, h1]

theorem C18_divisor_positive_witness :
    window 2 hwOutlier.available ≠ [] ∧
      ∃ d, init hwOutlier 3 2 (fun _ => 0) = .ok d :=
  ⟨by decide, (C18_divisor_positive hwOutlier 3 2 (fun _ => 0)
    (fun i k _ => by rw [hwOutlier_var]; split <;> norm_num)
    (fun i => ⟨0, by decide, by rw [hwOutlier_var]; norm_num⟩)).2.2⟩

theorem setPoseX_x_miss (w : World) (off n : Nat) (src : RVec) (i : Nat)
    (h : ∀ k, k < n → i ≠ w.ia_pose (off + k)) :
    (w.setPoseX off n src).x i = w.x i :=
  foldl_update_miss w.ia_pose off src w.x n i h

/-- The two modes of the position injection, run on the same world, leave the
same joint covariance, the same record of `correct` calls and the same index
arrays, and the same joint mean outside the three robot position indices. -/
theorem firstPosition_modes (Tr : RVec) (c : Cycle) (w wa wr : World)
    (ha : firstPosition true Tr c w = .ok wa) (hr : firstPosition false Tr c w = .ok wr) :
    wa.P = wr.P ∧ wa.corrections = wr.corrections ∧ wa.ia_pose = wr.ia_pose ∧
    wa.ia_used_states = wr.ia_used_states ∧
    (∀ i, (∀ k, k < 3 → i ≠ w.ia_pose k) → wa.x i = wr.x i) := by
  unfold firstPosition at ha hr
  obtain ⟨mx, hmx, ha⟩ := (bind_eq_ok_iff _ _ _).mp ha
  obtain ⟨mP, hmP, ha⟩ := (bind_eq_ok_iff _ _ _).mp ha
  obtain ⟨mx2, hmx2, hr⟩ := (bind_eq_ok_iff _ _ _).mp hr
  obtain ⟨mP2, hmP2, hr⟩ := (bind_eq_ok_iff _ _ _).mp hr
  rw [hmx] at hmx2
  rw [hmP] at hmP2
  cases hmx2
  cases hmP2
  simp only [if_true, pure_eq_ok, Except.ok.injEq] at ha
  simp only [Bool.false_eq_true, if_false, pure_eq_ok, Except.ok.injEq] at hr
  subst ha
  subst hr
  refine ⟨rfl, rfl, rfl, rfl, fun i hi => ?_⟩
  have e1 := setPoseX_x_miss ({ w with origin_sensors := fun _ => 0 } : World) 0 3
    (subrange (fun k => mx k - Tr k) 0 3) i (fun k hk => by simpa using hi k hk)
  have e2 := setPoseX_x_miss
    ({ w with origin_sensors := subrange (fun k => mx k - Tr k) 0 3 } : World) 0 3
    (fun _ => 0) i (fun k hk => by simpa using hi k hk)
  exact e1.trans e2.symm

/-- The first fix, once its two steps are known to succeed. -/
theorem firstFix_of_steps (K : QuatKernel) (hw : Hardware) (b : Bool) (r Tr : RVec) (c : Cycle)
    (w w1 w2 : World) (hp : hw.qPos ≠ 0)
    (hfo : (if hw.qOriEuler ≠ 0 then firstOrientation K r c w else pure w) = .ok w1)
    (hfp : firstPosition b Tr c w1 = .ok w2) :
    firstFix K hw b r Tr c w = .ok w2 := by
  unfold firstFix
  by_cases ho : hw.qOriEuler = 0
  · simp only [ho, ne_eq, not_true_eq_false, if_false, pure_eq_ok, Except.ok.injEq] at hfo
    subst hfo
    simp only [ho, ne_eq, not_true_eq_false, if_false, pure_eq_ok, bind_ok_eq, hp,
      not_false_eq_true, if_true, hfp]
  · simp only [ho, ne_eq, not_false_eq_true, if_true] at hfo
    simp only [ho, ne_eq, not_false_eq_true, if_true, hfo, bind_ok_eq, hp, hfp]

/-- The orientation step of the first fix succeeds on the composed buffers and
leaves the pose indices and the origin offset alone. -/
theorem orientation_step_ok (K : QuatKernel) (hw : Hardware) (s : SensorAbsloc)
    (meas expe inn : Gaussian) (reading : RVec) (w : World) (c : Cycle)
    (hs : Shapes s meas expe inn) (hc : Channels hw s.inns)
    (hinj : Function.Injective w.ia_pose)
    (hcomp : compose K hw s meas expe reading w = .ok c) :
    ∃ w1, (if hw.qOriEuler ≠ 0 then firstOrientation K s.r c w else pure w) = .ok w1 ∧
      w1.ia_pose = w.ia_pose ∧ w1.origin_sensors = w.origin_sensors := by
  obtain ⟨c2, hcomp2, -, -, ⟨hx, hr, hcc⟩, -, -, hori⟩ :=
    compose_ok K hw s meas expe inn reading w hs hc
  rw [hcomp] at hcomp2
  cases hcomp2
  by_cases ho : hw.qOriEuler = 0
  · exact ⟨w, by simp [ho, pure_eq_ok], rfl, rfl⟩
  · obtain ⟨hiO, -, -⟩ := hori ho
    have h6 : 6 ≤ s.inns := hc.2 ho
    have hle : c.indexE_OriEuler + 3 ≤ s.inns := by
      rw [hiO]; split <;> omega
    obtain ⟨w1, h1, h2, -, h4, -⟩ := firstOrientation_ok K s.r c w hinj
      (by rw [hx]; exact hle) (by rw [hr]; exact hle) (by rw [hcc]; exact hle)
    exact ⟨w1, by simp [ho, h1], h2, h4⟩

/-- C20. The first cycle of a sensor that reports a position, run in absolute
mode and in relative mode on the same reading and the same prior world: both
calls succeed; on each axis the sum of the robot position and of the origin
offset is the same, namely the position measurement minus the entry origin
offset minus the lever arm rotated at line 119 (the position measurement minus
the rotated lever arm when the entry origin offset is zero); absolute mode puts
the sum in the robot position and relative mode puts it in the origin offset;
the joint covariance (hence the position and orientation covariance blocks of
the robot), the robot orientation, the joint mean outside the three position
indices, the record of `correct` calls and the index arrays are the same, and
the two sensors differ in the mode flag only. -/
theorem C20_mode_agreement (K : QuatKernel) (F : CorrectCall → RVec × RMat → RVec × RMat)
    (id : Nat) (s : SensorAbsloc) (w : World) (hw : Hardware) (meas expe inn : Gaussian)
    (reading : RVec)
    (hhw : s.hardware = some hw) (hm : s.measurement = some meas)
    (he : s.expectation = some expe) (hi : s.innovation = some inn)
    (hs : Shapes s meas expe inn) (hc : Channels hw s.inns)
    (hfirst : s.first = true) (hfetch : fetchReading hw s id = .ok reading)
    (hinj : Function.Injective w.ia_pose) (hp : hw.qPos ≠ 0) :
    ∃ sa wa sr wr,
      process K F id { s with absolute := true } w = .ok (sa, wa) ∧
      process K F id { s with absolute := false } w = .ok (sr, wr) ∧
      (∀ k, k < 3 →
        wa.pose_x k + wa.origin_sensors k
          = reading (hw.qPos + k) - w.origin_sensors k - leverTr K s w k ∧
        wr.pose_x k + wr.origin_sensors k
          = reading (hw.qPos + k) - w.origin_sensors k - leverTr K s w k) ∧
      ((∀ k, k < 3 → w.origin_sensors k = 0) → ∀ k, k < 3 →
        wa.pose_x k + wa.origin_sensors k = reading (hw.qPos + k) - leverTr K s w k ∧
        wr.pose_x k + wr.origin_sensors k = reading (hw.qPos + k) - leverTr K s w k) ∧
      (∀ k, k < 3 → wa.origin_sensors k = 0 ∧ wr.pose_x k = 0) ∧
      wa.P = wr.P ∧
      (∀ a b, wa.pose_P a b = wr.pose_P a b) ∧
      (∀ k, 3 ≤ k → wa.pose_x k = wr.pose_x k) ∧
      (∀ i, (∀ k, k < 3 → i ≠ w.ia_pose k) → wa.x i = wr.x i) ∧
      wa.corrections = wr.corrections ∧ wa.ia_pose = wr.ia_pose ∧
      wa.ia_used_states = wr.ia_used_states ∧
      sr = { sa with absolute := false } := by
  obtain ⟨c, hcomp, -, -, ⟨hx, hr, hcc⟩, -, hpos, -⟩ :=
    compose_ok K hw s meas expe inn reading w hs hc
  obtain ⟨hiP, hmx, -, -⟩ := hpos hp
  have h3 : 3 ≤ s.inns := hc.1 hp
  obtain ⟨w1, hfo, hia1, horg1⟩ :=
    orientation_step_ok K hw s meas expe inn reading w c hs hc hinj hcomp
  obtain ⟨wa, hfa, hiaa, -, hpxa, hpx3a, horga, -, -⟩ :=
    firstPosition_ok true (leverTr K s w) c w1 (by rw [hia1]; exact hinj) hiP
      (by omega) (by omega) (by omega)
  obtain ⟨wr, hfr, hiar, -, hpxr, hpx3r, horgr, -, -⟩ :=
    firstPosition_ok false (leverTr K s w) c w1 (by rw [hia1]; exact hinj) hiP
      (by omega) (by omega) (by omega)
  obtain ⟨mP, mc, mi, mu, mx⟩ := firstPosition_modes (leverTr K s w) c w1 wa wr hfa hfr
  have hprocA := process_first_eq K F id { s with absolute := true } w hw meas expe inn reading
    c wa hhw hm he hi hfirst hfetch hcomp
    (firstFix_of_steps K hw true s.r (leverTr K s w) c w w1 wa hp hfo hfa)
  have hprocR := process_first_eq K F id { s with absolute := false } w hw meas expe inn reading
    c wr hhw hm he hi hfirst hfetch hcomp
    (firstFix_of_steps K hw false s.r (leverTr K s w) c w w1 wr hp hfo hfr)
  have hsum : ∀ k, k < 3 →
      wa.pose_x k + wa.origin_sensors k
        = reading (hw.qPos + k) - w.origin_sensors k - leverTr K s w k ∧
      wr.pose_x k + wr.origin_sensors k
        = reading (hw.qPos + k) - w.origin_sensors k - leverTr K s w k := by
    intro k hk
    rw [hpxa k hk, horga k hk, hpxr k hk, horgr k hk, hmx k hk]
    simp
  refine ⟨_, wa, _, wr, hprocA, hprocR, hsum, ?_, ?_, mP, ?_, ?_, ?_, mc, mi, mu, ?_⟩
  · intro h0 k hk
    have := hsum k hk
    rw [h0 k hk, sub_zero] at this
    exact this
  · intro k hk
    refine ⟨?_, ?_⟩
    · rw [horga k hk]; simp
    · rw [hpxr k hk]; simp
  · intro a b
    unfold World.pose_P
    rw [mP, mi]
  · intro k hk
    rw [hpx3a k hk, hpx3r k hk]
  · intro i hi
    exact mx i (by rw [hia1]; exact hi)
  · unfold finish
    cases s.use_for_init <;> rfl

theorem C20_mode_agreement_witness :
    ∃ sa wa sr wr,
      process (exampleKernel qHalfTurn) exampleCorrect 0
        { exampleSensor hwBoth true with absolute := true }
        (exampleWorld (fun _ => 0) qIdentity (fun _ _ => 0)) = .ok (sa, wa) ∧
      process (exampleKernel qHalfTurn) exampleCorrect 0
        { exampleSensor hwBoth true with absolute := false }
        (exampleWorld (fun _ => 0) qIdentity (fun _ _ => 0)) = .ok (sr, wr) ∧
      wa.pose_x 0 + wa.origin_sensors 0 = 4 ∧ wr.pose_x 0 + wr.origin_sensors 0 = 4 ∧
      wa.origin_sensors 0 = 0 ∧ wr.pose_x 0 = 0 ∧
      wa.P = wr.P ∧ (∀ k, 3 ≤ k → wa.pose_x k = wr.pose_x k) := by
  obtain ⟨sa, wa, sr, wr, h1, h2, -, h4, h5, h6, -, h8, -⟩ :=
    C20_mode_agreement (exampleKernel qHalfTurn) exampleCorrect 0 (exampleSensor hwBoth true)
      (exampleWorld (fun _ => 0) qIdentity (fun _ _ => 0)) hwBoth (Gaussian.ofSize 6)
      (Gaussian.ofSize 6) (Gaussian.ofSize 6) (hwBoth.raw 0) rfl rfl rfl rfl
      (setHardwareSensor_shapes hwBoth _ (by decide)) ⟨fun _ => by decide, fun _ => by decide⟩
      rfl rfl (exampleWorld_injective _ _ _) (by decide)
  have hv : hwBoth.raw 0 (hwBoth.qPos + 0) - leverTr (exampleKernel qHalfTurn)
      (exampleSensor hwBoth true) (exampleWorld (fun _ => 0) qIdentity (fun _ _ => 0)) 0
      = 4 := by
    simp [leverTr, exampleKernel, exampleSensor, setHardwareSensor, SensorAbsloc.new,
      SensorAbsloc.T, World.q, World.pose_x, exampleWorld, subrange, leverPose, qIdentity, vec3,
      hwBoth, rawOfList]
    norm_num
  have hs := h4 (fun _ _ => rfl) 0 (by norm_num)
  rw [hv] at hs
  exact ⟨sa, wa, sr, wr, h1, h2, hs.1, hs.2, (h5 0 (by norm_num)).1, (h5 0 (by norm_num)).2,
    h6, h8⟩


namespace Fp

/-! ### The measurement composer -/

/-- The measurement composer on buffers shaped by `setHardwareSensor` and large
enough for the channels: it completes; the sizes are kept; `indexE` counts three
entries per channel; the position segment is at 0..2, the orientation segment
right after it; entries from `indexE` on are not written; the rows of `EXP_rs`
are the ones of lines 131-132 and 157 (the position columns of the orientation
rows keep the zero of `EXP_rs.clear()`). -/
theorem fp_compose_spec {R : Type} (A : Arith R) (K : QuatKernel R) (hw : Hardware R)
    (s : SensorAbsloc R) (meas expe inn : Gaussian R) (reading : Vec R) (w : World R)
    (hs : Shapes s meas expe inn) (hc : Channels hw s.inns) :
    ∃ c, compose A K hw s meas expe reading w = .ok c ∧
      (c.EXP_rs.rows = s.inns ∧ c.EXP_rs.cols = s.ia_rs.length) ∧
      (c.EXP_q.rows = 3 ∧ c.EXP_q.cols = 4) ∧
      (c.measurement.x.size = s.inns ∧ c.measurement.P.rows = s.inns ∧
        c.measurement.P.cols = s.inns) ∧
      (c.expectation.x.size = s.inns ∧ c.expectation.P = expe.P) ∧
      (c.indexE = (if hw.qPos = 0 then 0 else 3) + (if hw.qOriEuler = 0 then 0 else 3) ∧
        c.indexE_Pos = 0 ∧
        c.indexE_OriEuler = (if hw.qOriEuler = 0 then 0 else if hw.qPos = 0 then 0 else 3)) ∧
      (∀ k, c.indexE ≤ k →
        c.measurement.x.e k = meas.x.e k ∧ c.expectation.x.e k = expe.x.e k) ∧
      (hw.qPos ≠ 0 →
        (∀ k, k < 3 →
          c.measurement.x.e k = A.sub (reading (hw.qPos + k)) (w.origin_sensors k) ∧
          c.expectation.x.e k = A.add (w.p A k) (leverTr A K s w k)) ∧
        (∀ a, a < 3 →
          (∀ b, b < 3 → c.EXP_rs.e a b = if a = b then A.one else A.zero) ∧
          (∀ b, b < 4 → c.EXP_rs.e a (3 + b) = K.rotate_by_dq (w.q A) (s.T A) a b)) ∧
        (∀ a b, a < 3 → b < 4 → c.EXP_q.e a b = K.rotate_by_dq (w.q A) (s.T A) a b)) ∧
      (hw.qOriEuler ≠ 0 →
        (∀ k, k < 3 →
          c.measurement.x.e (c.indexE_OriEuler + k) = reading (hw.qOriEuler + k) ∧
          c.expectation.x.e (c.indexE_OriEuler + k)
            = (K.q2e (K.qProd (w.q A) (s.r A))).1 k) ∧
        (∀ a, a < 3 →
          (∀ b, b < 3 → c.EXP_rs.e (c.indexE_OriEuler + a) b = A.zero) ∧
          (∀ b, b < 4 → c.EXP_rs.e (c.indexE_OriEuler + a) (3 + b)
            = prod A 4 (K.q2e (K.qProd (w.q A) (s.r A))).2 (K.qProd_by_dq1 (s.r A)) a b))) := by
  obtain ⟨⟨hm1, hm2, hm3⟩, ⟨he1, he2, he3⟩, -, ⟨hr1, hr2⟩, ⟨hq1, hq2⟩, h7⟩ := hs
  obtain ⟨hcp, hco⟩ := hc
  have h37 : 3 ≤ s.ia_rs.length := by omega
  by_cases hp : hw.qPos = 0
  · by_cases ho : hw.qOriEuler = 0
    · refine ⟨cycleStart A s meas expe, ?_, ?_⟩
      · simp [compose, positionBlock, orientationBlock, hp, ho, bind_ok_eq, pure_eq_ok]
      · simp [cycleStart, GMat.clear, hp, ho, hm1, hm2, hm3, he1, hr1, hr2, hq1, hq2]
    · have h6 := hco ho
      have h3 : 3 ≤ s.inns := by omega
      have h3' : 3 < s.inns := by omega
      have h4' : 4 < s.inns := by omega
      have h5' : 5 < s.inns := by omega
      apply exists_and_of
      · simp [compose, positionBlock, orientationBlock, orientationMean, orientationCov,
          cycleStart, GMat.clear, GMat.setSub, GVec.setSub, GMat.set, hp, ho, bind_ok_eq,
          pure_eq_ok, hm1, hm2, hm3, he1, hr1, hr2, h3, h3', h4', h5', h7]
      · intro c hcmp
        simp [compose, positionBlock, orientationBlock, orientationMean, orientationCov,
          cycleStart, GMat.clear, GMat.setSub, GVec.setSub, GMat.set, hp, ho, bind_ok_eq,
          pure_eq_ok, hm1, hm2, hm3, he1, hr1, hr2, h3, h3', h4', h5', h7] at hcmp
        subst hcmp
        simp [hp, ho, hq1, hq2, subrange]
        refine ⟨fun k hk => ⟨fun h => by omega, fun h => by omega⟩,
          fun k hk => by simp [hk], fun a ha => ⟨fun b hb => ?_, fun b hb => ?_⟩⟩
        · intro h1 h2
          omega
        · simp [ha, hb]
          intro h
          omega
  · have h3 := hcp hp
    have h0' : 0 < s.inns := by omega
    have h1' : 1 < s.inns := by omega
    have h2' : 2 < s.inns := by omega
    by_cases ho : hw.qOriEuler = 0
    · apply exists_and_of
      · simp [compose, positionBlock, orientationBlock, positionMean, positionCov,
          cycleStart, GMat.clear, GMat.setSub, GMat.setSubFrom, GVec.setSub, GMat.set, hp, ho,
          bind_ok_eq, pure_eq_ok, hm1, hm2, hm3, he1, hr1, hr2, h3, h0', h1', h2', h7, h37,
          hq1, hq2]
      · intro c hcmp
        simp [compose, positionBlock, orientationBlock, positionMean, positionCov,
          cycleStart, GMat.clear, GMat.setSub, GMat.setSubFrom, GVec.setSub, GMat.set, hp, ho,
          bind_ok_eq, pure_eq_ok, hm1, hm2, hm3, he1, hr1, hr2, h3, h0', h1', h2', h7, h37,
          hq1, hq2] at hcmp
        subst hcmp
        simp [hp, ho, hq1, hq2, subrange, identity_mat]
        refine ⟨fun k hk => ⟨fun h => by omega, fun h => by omega⟩,
          fun k hk => by simp [hk], fun a ha => ⟨fun b hb => ?_, fun b hb => ?_⟩,
          fun a b ha hb => ?_⟩
        · simp [ha, hb]
        · simp [ha, hb]
          intro h
          omega
        · simp [ha, hb]
    · have h6 := hco ho
      have h3' : 3 < s.inns := by omega
      have h4' : 4 < s.inns := by omega
      have h5' : 5 < s.inns := by omega
      apply exists_and_of
      · simp [compose, positionBlock, orientationBlock, positionMean, positionCov,
          orientationMean, orientationCov,
          cycleStart, GMat.clear, GMat.setSub, GMat.setSubFrom, GVec.setSub, GMat.set, hp, ho,
          bind_ok_eq, pure_eq_ok, hm1, hm2, hm3, he1, hr1, hr2, h3, h0', h1', h2', h7, h37,
          hq1, hq2, h6, h3', h4', h5']
      · intro c hcmp
        simp [compose, positionBlock, orientationBlock, positionMean, positionCov,
          orientationMean, orientationCov,
          cycleStart, GMat.clear, GMat.setSub, GMat.setSubFrom, GVec.setSub, GMat.set, hp, ho,
          bind_ok_eq, pure_eq_ok, hm1, hm2, hm3, he1, hr1, hr2, h3, h0', h1', h2', h7, h37,
          hq1, hq2, h6, h3', h4', h5'] at hcmp
        subst hcmp
        simp [hp, ho, hq1, hq2, subrange, identity_mat]
        refine ⟨fun k hk => ⟨?_, ?_⟩,
          ⟨fun k hk => ⟨?_, ?_⟩, fun a ha => ⟨fun b hb => ?_, fun b hb => ?_⟩,
            fun a b ha hb hab => ?_⟩,
          fun k hk => ⟨?_, fun h => ?_⟩,
          fun a ha => ⟨fun b hb h1 h2 h3 => ?_, fun b hb h => ?_⟩⟩
        all_goals first
          | omega
          | (exfalso; omega)
          | (split_ifs <;> first | rfl | omega)


/-! ### Writes through the pose indices -/

/-- The first fix completes when the measured segments lie inside the
measurement buffers. -/
theorem fp_firstFix_ok {R : Type} (A : Arith R) (K : QuatKernel R) (hw : Hardware R)
    ( absolute : Bool) (r Tr : Vec R) (c : Cycle R) (w : World R)
    (hp : hw.qPos ≠ 0 → c.indexE_Pos + 3 ≤ c.measurement.x.size ∧
      c.indexE_Pos + 3 ≤ c.measurement.P.rows ∧ c.indexE_Pos + 3 ≤ c.measurement.P.cols)
    (ho : hw.qOriEuler ≠ 0 → c.indexE_OriEuler + 3 ≤ c.measurement.x.size ∧
      c.indexE_OriEuler + 3 ≤ c.measurement.P.rows ∧
      c.indexE_OriEuler + 3 ≤ c.measurement.P.cols) :
    ∃ w2, firstFix A K hw absolute r Tr c w = .ok w2 := by
  have hO : ∃ w1, (if hw.qOriEuler ≠ 0 then firstOrientation A K r c w else pure w)
      = .ok w1 := by
    by_cases h : hw.qOriEuler = 0
    · exact ⟨w, by simp [h, pure_eq_ok]⟩
    · obtain ⟨h1, h2, h3⟩ := ho h
      simp [h, firstOrientation, GVec.getSub, GMat.getSub, h1, h2, h3, bind_ok_eq, pure_eq_ok]
  obtain ⟨w1, hw1⟩ := hO
  have hP : ∃ w2, (if hw.qPos ≠ 0 then firstPosition A absolute Tr c w1 else pure w1)
      = .ok w2 := by
    by_cases h : hw.qPos = 0
    · exact ⟨w1, by simp [h, pure_eq_ok]⟩
    · obtain ⟨h1, h2, h3⟩ := hp h
      cases absolute <;>
        simp [h, firstPosition, GVec.getSub, GMat.getSub, h1, h2, h3, bind_ok_eq, pure_eq_ok]
  obtain ⟨w2, hw2⟩ := hP
  refine ⟨w2, ?_⟩
  unfold firstFix
  by_cases h : hw.qOriEuler = 0
  · simp only [h, ne_eq, not_true_eq_false, if_false, pure_eq_ok, Except.ok.injEq] at hw1
    subst hw1
    simpa [h, bind_ok_eq, pure_eq_ok] using hw2
  · simp only [h, ne_eq, not_false_eq_true, if_true] at hw1
    simp only [h, ne_eq, not_false_eq_true, if_true, hw1, bind_ok_eq]
    exact hw2

/-! ### The steady-state path -/

/-- The steady-state path on buffers of matching sizes: it completes, and what
it leaves is what lines 216-223 compute. -/
theorem fp_steadyState_ok {R : Type} (A : Arith R)
    (F : CorrectCall R → Vec R × Mat R → Vec R × Mat R) (ia_rs : List Nat)
    (inns : Nat) (inn : Gaussian R) (c : Cycle R) (w : World R)
    (hJ : c.EXP_rs.cols = ia_rs.length ∧ c.EXP_rs.rows = inns)
    (heP : inns ≤ c.expectation.P.rows ∧ inns ≤ c.expectation.P.cols)
    (hx : c.measurement.x.size = c.expectation.x.size)
    (hix : c.expectation.x.size = inn.x.size)
    (hP : c.measurement.P.rows = c.expectation.P.rows ∧
      c.measurement.P.cols = c.expectation.P.cols)
    (hiP : c.expectation.P.rows = inn.P.rows ∧ c.expectation.P.cols = inn.P.cols) :
    ∃ st, steadyState A F ia_rs inns inn c w = .ok st ∧
      st.expectation.x = c.expectation.x ∧
      (st.expectation.P.rows = c.expectation.P.rows ∧
        st.expectation.P.cols = c.expectation.P.cols) ∧
      (∀ a b, a < inns → b < inns → st.expectation.P.e a b
        = prod_JPJt A ia_rs.length (project w.P ia_rs) c.EXP_rs.e a b) ∧
      (st.innovation.x.size = c.measurement.x.size ∧
        ∀ k, k < c.measurement.x.size →
          st.innovation.x.e k = A.sub (c.measurement.x.e k) (st.expectation.x.e k)) ∧
      (st.innovation.P.rows = c.measurement.P.rows ∧
        st.innovation.P.cols = c.measurement.P.cols ∧
        ∀ a b, a < c.measurement.P.rows → b < c.measurement.P.cols →
          st.innovation.P.e a b = A.add (c.measurement.P.e a b) (st.expectation.P.e a b)) ∧
      (st.INN_rs.rows = c.EXP_rs.rows ∧ st.INN_rs.cols = c.EXP_rs.cols ∧
        ∀ a b, st.INN_rs.e a b = A.neg (c.EXP_rs.e a b)) ∧
      st.world.corrections = w.corrections ++
        [{ ia_x := w.ia_used_states, innovation := st.innovation, INN_rs := st.INN_rs,
           ia_rs := ia_rs }] ∧
      (st.world.x, st.world.P)
        = F { ia_x := w.ia_used_states, innovation := st.innovation, INN_rs := st.INN_rs,
              ia_rs := ia_rs } (w.x, w.P) ∧
      st.world.ia_pose = w.ia_pose ∧ st.world.origin_sensors = w.origin_sensors ∧
      st.world.ia_used_states = w.ia_used_states := by
  obtain ⟨hJ1, hJ2⟩ := hJ
  obtain ⟨heP1, heP2⟩ := heP
  obtain ⟨hP1, hP2⟩ := hP
  obtain ⟨hiP1, hiP2⟩ := hiP
  have heP1' : inns ≤ inn.P.rows := hiP1 ▸ heP1
  have heP2' : inns ≤ inn.P.cols := hiP2 ▸ heP2
  apply exists_and_of
  · simp [steadyState, GMat.setSub, GVec.assign, GMat.assign, bind_ok_eq, pure_eq_ok, hJ1, hJ2,
      heP1', heP2', hx, hix, hP1, hP2, hiP1, hiP2]
  · intro st hst
    simp [steadyState, GMat.setSub, GVec.assign, GMat.assign, bind_ok_eq, pure_eq_ok, hJ1, hJ2,
      heP1', heP2', hx, hix, hP1, hP2, hiP1, hiP2] at hst
    subst hst
    simp [hx, hix, hP1, hP2, hiP1, hiP2, hJ1, hJ2]
    refine ⟨fun a b ha hb h => ?_, fun k hk h => ?_, fun a b ha hb h => ?_⟩
    · have := h ha
      omega
    · omega
    · have := h ha
      omega

/-- What a steady-state path that completes has computed. -/
theorem fp_steadyState_inv {R : Type} (A : Arith R)
    (F : CorrectCall R → Vec R × Mat R → Vec R × Mat R) (ia_rs : List Nat)
    (inns : Nat) (inn : Gaussian R) (c : Cycle R) (w : World R) (st : Steady R)
    (h : steadyState A F ia_rs inns inn c w = .ok st) :
    st.expectation.x = c.expectation.x ∧
      (st.expectation.P.rows = c.expectation.P.rows ∧
        st.expectation.P.cols = c.expectation.P.cols) ∧
      (∀ a b, a < inns → b < inns → st.expectation.P.e a b
        = prod_JPJt A ia_rs.length (project w.P ia_rs) c.EXP_rs.e a b) ∧
      (st.innovation.x.size = c.measurement.x.size ∧
        ∀ k, k < c.measurement.x.size →
          st.innovation.x.e k = A.sub (c.measurement.x.e k) (st.expectation.x.e k)) ∧
      (st.innovation.P.rows = c.measurement.P.rows ∧
        st.innovation.P.cols = c.measurement.P.cols ∧
        ∀ a b, a < c.measurement.P.rows → b < c.measurement.P.cols →
          st.innovation.P.e a b = A.add (c.measurement.P.e a b) (st.expectation.P.e a b)) ∧
      (st.INN_rs.rows = c.EXP_rs.rows ∧ st.INN_rs.cols = c.EXP_rs.cols ∧
        ∀ a b, st.INN_rs.e a b = A.neg (c.EXP_rs.e a b)) ∧
      st.world.corrections = w.corrections ++
        [{ ia_x := w.ia_used_states, innovation := st.innovation, INN_rs := st.INN_rs,
           ia_rs := ia_rs }] ∧
      (st.world.x, st.world.P)
        = F { ia_x := w.ia_used_states, innovation := st.innovation, INN_rs := st.INN_rs,
              ia_rs := ia_rs } (w.x, w.P) ∧
      st.world.ia_pose = w.ia_pose ∧ st.world.origin_sensors = w.origin_sensors ∧
      st.world.ia_used_states = w.ia_used_states := by
  by_cases hJ : c.EXP_rs.cols = ia_rs.length ∧ c.EXP_rs.rows = inns
  swap
  · simp [steadyState, hJ, bind_error_eq] at h
  by_cases heP : inns ≤ c.expectation.P.rows ∧ inns ≤ c.expectation.P.cols
  swap
  · simp [steadyState, hJ, heP, GMat.setSub, bind_ok_eq, bind_error_eq, pure_eq_ok] at h
  by_cases hx : c.measurement.x.size = c.expectation.x.size
  swap
  · simp [steadyState, hJ, heP, hx, GMat.setSub, bind_ok_eq, bind_error_eq, pure_eq_ok] at h
  by_cases hix : c.expectation.x.size = inn.x.size
  swap
  · simp [steadyState, hJ, heP, hx, hix, GMat.setSub, GVec.assign, bind_ok_eq, bind_error_eq,
      pure_eq_ok] at h
  by_cases hP : c.measurement.P.rows = c.expectation.P.rows ∧
      c.measurement.P.cols = c.expectation.P.cols
  swap
  · simp [steadyState, hJ, heP, hx, hix, hP, GMat.setSub, GVec.assign, bind_ok_eq,
      bind_error_eq, pure_eq_ok] at h
  by_cases hiP : c.expectation.P.rows = inn.P.rows ∧ c.expectation.P.cols = inn.P.cols
  swap
  · simp [steadyState, hJ, heP, hx, hix, hP, hiP, GMat.setSub, GVec.assign, GMat.assign,
      bind_ok_eq, bind_error_eq, pure_eq_ok] at h
  obtain ⟨st2, hst2, hfacts⟩ :=
    fp_steadyState_ok A F ia_rs inns inn c w hJ heP hx hix hP hiP
  rw [h] at hst2
  cases hst2
  exact hfacts


/-! ### The whole call -/

/-- Lines 226-230 touch `use_for_init` and `reading` only. -/
theorem fp_finish_fields {R : Type} (hw : Hardware R) (id : Nat) (u : Bool)
    (sw : SensorAbsloc R × World R) :
    (finish hw id u sw).2 = sw.2 ∧
    (finish hw id u sw).1.first = sw.1.first ∧
    (finish hw id u sw).1.use_for_init = (if u then false else sw.1.use_for_init) ∧
    (finish hw id u sw).1.measurement = sw.1.measurement ∧
    (finish hw id u sw).1.expectation = sw.1.expectation ∧
    (finish hw id u sw).1.innovation = sw.1.innovation ∧
    (finish hw id u sw).1.EXP_rs = sw.1.EXP_rs ∧
    (finish hw id u sw).1.INN_rs = sw.1.INN_rs ∧
    (finish hw id u sw).1.EXP_q = sw.1.EXP_q ∧
    (finish hw id u sw).1.hardware = sw.1.hardware ∧
    (finish hw id u sw).1.inns = sw.1.inns ∧
    (finish hw id u sw).1.ia_rs = sw.1.ia_rs ∧
    (finish hw id u sw).1.absolute = sw.1.absolute ∧
    (finish hw id u sw).1.pose = sw.1.pose := by
  unfold finish
  cases u <;> simp

/-- A call of `process` that completes, taken apart: the pointers were set,
the composer completed, and either the sensor was on its first cycle and the
first fix completed, or it was not and the steady-state path completed. The
flags `first` and `use_for_init` are false afterwards. -/
theorem fp_process_inv {R : Type} (A : Arith R) (K : QuatKernel R)
    (F : CorrectCall R → Vec R × Mat R → Vec R × Mat R) (id : Nat)
    (s : SensorAbsloc R) (w : World R) (s2 : SensorAbsloc R) (w2 : World R)
    (h : process A K F id s w = .ok (s2, w2)) :
    ∃ hw meas expe inn c, s.hardware = some hw ∧ s.measurement = some meas ∧
      s.expectation = some expe ∧ s.innovation = some inn ∧
      compose A K hw s meas expe (fetchReading A hw s id) w = .ok c ∧
      s2.first = false ∧ s2.use_for_init = false ∧
      s2.measurement = some c.measurement ∧ s2.EXP_rs = c.EXP_rs ∧ s2.EXP_q = c.EXP_q ∧
      s2.hardware = s.hardware ∧ s2.inns = s.inns ∧ s2.ia_rs = s.ia_rs ∧
      s2.absolute = s.absolute ∧ s2.pose = s.pose ∧
      ((s.first = true ∧
          firstFix A K hw s.absolute (s.r A) (leverTr A K s w) c w = .ok w2 ∧
          s2.expectation = some c.expectation ∧ s2.innovation = some inn ∧
          s2.INN_rs = s.INN_rs) ∨
        (s.first = false ∧ ∃ st, steadyState A F s.ia_rs s.inns inn c w = .ok st ∧
          w2 = st.world ∧ s2.expectation = some st.expectation ∧
          s2.innovation = some st.innovation ∧ s2.INN_rs = st.INN_rs)) := by
  unfold process at h
  split at h
  · next hw meas expe inn e1 e2 e3 e4 =>
    obtain ⟨c, hc, h⟩ := (bind_eq_ok_iff _ _ _).mp h
    obtain ⟨sw1, hb, h⟩ := (bind_eq_ok_iff _ _ _).mp h
    have hsw : (s2, w2) = finish hw id s.use_for_init sw1 := by
      simpa [pure_eq_ok] using h.symm
    obtain ⟨f0, f1, f2, f3, f4, f5, f6, f7, f8, f9, f10, f11, f12, f13⟩ :=
      fp_finish_fields hw id s.use_for_init sw1
    have es : s2 = (finish hw id s.use_for_init sw1).1 := congrArg Prod.fst hsw
    have ew : w2 = sw1.2 := by
      rw [← f0]; exact congrArg Prod.snd hsw
    refine ⟨hw, meas, expe, inn, c, e1, e2, e3, e4, hc, ?_⟩
    unfold cycleBranch at hb
    by_cases hfirst : s.first = true
    · rw [if_pos hfirst] at hb
      obtain ⟨w1, hfix, hb⟩ := (bind_eq_ok_iff _ _ _).mp hb
      simp only [pure_eq_ok, Except.ok.injEq] at hb
      subst hb
      refine ⟨by rw [es, f1], ?_, by rw [es, f3], by rw [es, f6], by rw [es, f8],
        by rw [es, f9], by rw [es, f10], by rw [es, f11], by rw [es, f12], by rw [es, f13],
        Or.inl ⟨hfirst, by rw [ew]; exact hfix, by rw [es, f4], ?_, by rw [es, f7]⟩⟩
      · rw [es, f2]
        cases hu : s.use_for_init <;> simp [hu]
      · rw [es, f5]
        exact e4
    · rw [if_neg hfirst] at hb
      obtain ⟨st, hst, hb⟩ := (bind_eq_ok_iff _ _ _).mp hb
      simp only [pure_eq_ok, Except.ok.injEq] at hb
      subst hb
      have hff : s.first = false := by simpa using hfirst
      refine ⟨by rw [es, f1]; exact hff, ?_, by rw [es, f3], by rw [es, f6], by rw [es, f8],
        by rw [es, f9], by rw [es, f10], by rw [es, f11], by rw [es, f12], by rw [es, f13],
        Or.inr ⟨hff, st, hst, ew, by rw [es, f4], by rw [es, f5], by rw [es, f7]⟩⟩
      rw [es, f2]
      cases hu : s.use_for_init <;> simp [hu]
  · cases h

/-- A call of `process` completes when the hardware is bound, the buffers have
the shapes fixed by `setHardwareSensor` and are large enough for the channels:
no arithmetic result (a NaN, an infinity) stops it. -/
theorem fp_process_completes {R : Type} (A : Arith R) (K : QuatKernel R)
    (F : CorrectCall R → Vec R × Mat R → Vec R × Mat R) (id : Nat)
    (s : SensorAbsloc R) (w : World R) (hw : Hardware R) (meas expe inn : Gaussian R)
    (hhw : s.hardware = some hw) (hm : s.measurement = some meas)
    (he : s.expectation = some expe) (hi : s.innovation = some inn)
    (hs : Shapes s meas expe inn) (hc : Channels hw s.inns) :
    ∃ s2 w2, process A K F id s w = .ok (s2, w2) := by
  obtain ⟨c, hcomp, ⟨hr1, hr2⟩, -, ⟨hx, hr, hcc⟩, ⟨hex, heP⟩, ⟨-, hiPos, hiOri⟩, -⟩ :=
    fp_compose_spec A K hw s meas expe inn (fetchReading A hw s id) w hs hc
  obtain ⟨-, ⟨-, he2, he3⟩, ⟨hi1, hi2, hi3⟩, -⟩ := hs
  by_cases hfirst : s.first = true
  · obtain ⟨w1, hfix⟩ := fp_firstFix_ok A K hw s.absolute (s.r A) (leverTr A K s w) c w
      (fun hp => by
        have := hc.1 hp
        rw [hiPos, hx, hr, hcc]
        omega)
      (fun ho => by
        have := hc.2 ho
        rw [hiOri, hx, hr, hcc]
        simp only [ho, if_false]
        split <;> omega)
    have hex : ∃ sw, process A K F id s w = .ok sw := by
      simp only [process, hhw, hm, he, hi, hcomp, bind_ok_eq, cycleBranch, hfirst, if_true,
        hfix, pure_eq_ok]
      exact ⟨_, rfl⟩
    obtain ⟨⟨s2, w2⟩, h⟩ := hex
    exact ⟨s2, w2, h⟩
  · obtain ⟨st, hst, -⟩ :=
      fp_steadyState_ok A F s.ia_rs s.inns inn c w ⟨hr2, hr1⟩
        (by rw [heP, he2, he3]; exact ⟨le_refl _, le_refl _⟩) (by rw [hx, hex])
        (by rw [hex, hi1]) (by rw [heP, hr, hcc, he2, he3]; exact ⟨rfl, rfl⟩)
        (by rw [heP, he2, he3, hi2, hi3]; exact ⟨rfl, rfl⟩)
    have hex : ∃ sw, process A K F id s w = .ok sw := by
      simp only [process, hhw, hm, he, hi, hcomp, bind_ok_eq, cycleBranch, hfirst,
        hst, pure_eq_ok, if_false]
      exact ⟨_, rfl⟩
    obtain ⟨⟨s2, w2⟩, h⟩ := hex
    exact ⟨s2, w2, h⟩


/-! ### The first fix writes the pose -/

/-- An orientation-only sensor whose buffers hold the three angles but not the
rows 3..5 of `Measurement.P`: lines 151-160 lay the segment out at 0..2 and
write the three rows of `EXP_rs`, then the composer goes on to the covariance
writes of lines 161-163, which are outside the buffer. -/
theorem fp_orientation_only_stage {R : Type} (A : Arith R) (K : QuatKernel R) (hw : Hardware R)
    (s : SensorAbsloc R) (meas expe inn : Gaussian R) (reading : Vec R) (w : World R)
    (hs : Shapes s meas expe inn) (hp : hw.qPos = 0) (ho : hw.qOriEuler ≠ 0)
    (h3 : 3 ≤ s.inns) :
    ∃ c2, orientationMean A K hw.qOriEuler reading (w.q A) (s.r A) (cycleStart A s meas expe)
        = .ok c2 ∧
      compose A K hw s meas expe reading w = orientationCov A s.inns hw.qOriEuler reading c2 ∧
      (s.inns < 6 → compose A K hw s meas expe reading w = .error .outOfBounds) ∧
      (c2.measurement.x.size = s.inns ∧ c2.expectation.x.size = s.inns) ∧
      (∀ k, k < 3 →
        c2.measurement.x.e k = reading (hw.qOriEuler + k) ∧
        c2.expectation.x.e k = (K.q2e (K.qProd (w.q A) (s.r A))).1 k) ∧
      (∀ k, 3 ≤ k → c2.measurement.x.e k = meas.x.e k ∧ c2.expectation.x.e k = expe.x.e k) ∧
      (∀ a, a < 3 →
        (∀ b, b < 3 → c2.EXP_rs.e a b = A.zero) ∧
        (∀ b, b < 4 → c2.EXP_rs.e a (3 + b)
          = prod A 4 (K.q2e (K.qProd (w.q A) (s.r A))).2 (K.qProd_by_dq1 (s.r A)) a b)) := by
  obtain ⟨⟨hm1, hm2, hm3⟩, ⟨he1, he2, he3⟩, -, ⟨hr1, hr2⟩, ⟨hq1, hq2⟩, h7⟩ := hs
  apply exists_and_of
  · simp [orientationMean, cycleStart, GMat.clear, GVec.setSub, GMat.setSub, bind_ok_eq,
      pure_eq_ok, hm1, he1, hr1, hr2, h3, h7]
  · intro c2 hc2
    have hcomp : compose A K hw s meas expe reading w
        = orientationCov A s.inns hw.qOriEuler reading c2 := by
      simp only [compose, positionBlock, orientationBlock, hp, ho, ne_eq, not_true_eq_false,
        not_false_eq_true, if_true, if_false, pure_eq_ok, bind_ok_eq, hc2]
    refine ⟨hcomp, ?_, ?_⟩
    · intro h6
      rw [hcomp]
      simp [orientationMean, cycleStart, GMat.clear, GVec.setSub, GMat.setSub, bind_ok_eq,
        pure_eq_ok, hm1, he1, hr1, hr2, h3, h7] at hc2
      subst hc2
      by_cases h33 : 3 < s.inns
      · by_cases h44 : 4 < s.inns
        · have h55 : ¬ 5 < s.inns := by omega
          simp [orientationCov, GMat.set, hm2, hm3, h33, h44, h55, bind_ok_eq, bind_error_eq]
        · simp [orientationCov, GMat.set, hm2, hm3, h33, h44, bind_ok_eq, bind_error_eq]
      · simp [orientationCov, GMat.set, hm2, hm3, h33, bind_error_eq]
    · simp [orientationMean, cycleStart, GMat.clear, GVec.setSub, GMat.setSub, bind_ok_eq,
        pure_eq_ok, hm1, he1, hr1, hr2, h3, h7] at hc2
      subst hc2
      simp [hm1, he1, subrange]
      refine ⟨fun k hk => ⟨?_, ?_⟩, fun k hk => ⟨?_, ?_⟩,
        fun a ha => ⟨fun b hb h1 h2 => ?_, fun b hb h => ?_⟩⟩
      all_goals first
        | omega
        | (exfalso; omega)
        | (split_ifs; rfl)

/-- C8. Layout of the mean vectors, for every arithmetic of the scalars. On
buffers shaped by `setHardwareSensor` and large enough for the channels, a call
of `process` completes and leaves in `Measurement.x` and `Expectation.x`: the
position segment, when the channel is present, at the indices 0..2; the
orientation segment, when the channel is present, at the three indices that
follow (3..5 with a position channel, 0..2 without); every entry from `indexE`
on as it was. The count `indexE` of lines 144 and 166 is three per channel, and
it is the buffer length `inns`, the `dataSize()` read by `setHardwareSensor`,
when `inns` is three times the number of channels. An orientation-only sensor
with `inns` below 6 has its segment laid out at 0..2 by lines 151-160 as well,
before the covariance writes of lines 161-163 leave the buffer. -/
theorem C8_channel_layout {R : Type} (A : Arith R) (K : QuatKernel R)
    (F : CorrectCall R → Vec R × Mat R → Vec R × Mat R) (id : Nat)
    (s : SensorAbsloc R) (w : World R) (hw : Hardware R) (meas expe inn : Gaussian R)
    (hhw : s.hardware = some hw) (hm : s.measurement = some meas)
    (he : s.expectation = some expe) (hi : s.innovation = some inn)
    (hs : Shapes s meas expe inn) :
    (Channels hw s.inns →
      ∃ c s2 w2 meas2 expe2,
        compose A K hw s meas expe (fetchReading A hw s id) w = .ok c ∧
        process A K F id s w = .ok (s2, w2) ∧
        s2.measurement = some meas2 ∧ s2.expectation = some expe2 ∧
        meas2.x = c.measurement.x ∧ expe2.x = c.expectation.x ∧
        (meas2.x.size = s.inns ∧ expe2.x.size = s.inns) ∧
        c.indexE
          = 3 * ((if hw.qPos = 0 then 0 else 1) + (if hw.qOriEuler = 0 then 0 else 1)) ∧
        (hw.qPos ≠ 0 → ∀ k, k < 3 →
          meas2.x.e k = A.sub (fetchReading A hw s id (hw.qPos + k)) (w.origin_sensors k) ∧
          expe2.x.e k = A.add (w.p A k) (leverTr A K s w k)) ∧
        (hw.qOriEuler ≠ 0 → ∀ k, k < 3 →
          meas2.x.e ((if hw.qPos = 0 then 0 else 3) + k)
            = fetchReading A hw s id (hw.qOriEuler + k) ∧
          expe2.x.e ((if hw.qPos = 0 then 0 else 3) + k)
            = (K.q2e (K.qProd (w.q A) (s.r A))).1 k) ∧
        (∀ k, c.indexE ≤ k → meas2.x.e k = meas.x.e k ∧ expe2.x.e k = expe.x.e k) ∧
        (s.inns
            = 3 * ((if hw.qPos = 0 then 0 else 1) + (if hw.qOriEuler = 0 then 0 else 1)) →
          c.indexE = s.inns ∧ c.indexE = meas2.x.size ∧ c.indexE = expe2.x.size)) ∧
    (hw.qPos = 0 → hw.qOriEuler ≠ 0 → 3 ≤ s.inns → s.inns < 6 →
      ∃ c2, orientationMean A K hw.qOriEuler (fetchReading A hw s id) (w.q A) (s.r A)
          (cycleStart A s meas expe) = .ok c2 ∧
        compose A K hw s meas expe (fetchReading A hw s id) w
          = orientationCov A s.inns hw.qOriEuler (fetchReading A hw s id) c2 ∧
        process A K F id s w = .error .outOfBounds ∧
        (c2.measurement.x.size = s.inns ∧ c2.expectation.x.size = s.inns) ∧
        (∀ k, k < 3 →
          c2.measurement.x.e k = fetchReading A hw s id (hw.qOriEuler + k) ∧
          c2.expectation.x.e k = (K.q2e (K.qProd (w.q A) (s.r A))).1 k) ∧
        (∀ k, 3 ≤ k →
          c2.measurement.x.e k = meas.x.e k ∧ c2.expectation.x.e k = expe.x.e k)) ∧
    (∀ s0 : SensorAbsloc R, (setHardwareSensor A hw s0).inns = hw.dataSize) := by
  refine ⟨fun hc => ?_, fun hp ho h3 h6 => ?_, fun _ => rfl⟩
  · obtain ⟨c, hcomp, -, -, ⟨hx, -, -⟩, ⟨hex, -⟩, ⟨hiE, -, hiO⟩, hrest, hpos, hori⟩ :=
      fp_compose_spec A K hw s meas expe inn (fetchReading A hw s id) w hs hc
    obtain ⟨s2, w2, hproc⟩ := fp_process_completes A K F id s w hw meas expe inn hhw hm he hi hs hc
    obtain ⟨hw', meas', expe', inn', c', e1, e2, e3, e4, hcomp', -, -, hmeas2, -, -, -, -, -, -,
      -, hbr⟩ := fp_process_inv A K F id s w s2 w2 hproc
    rw [hhw] at e1
    rw [hm] at e2
    rw [he] at e3
    rw [hi] at e4
    cases e1
    cases e2
    cases e3
    cases e4
    rw [hcomp] at hcomp'
    cases hcomp'
    have hexp : ∃ expe2, s2.expectation = some expe2 ∧ expe2.x = c.expectation.x := by
      rcases hbr with ⟨-, -, h1, -, -⟩ | ⟨hf, st, hst, -, h1, -, -⟩
      · exact ⟨_, h1, rfl⟩
      · refine ⟨_, h1, ?_⟩
        exact (fp_steadyState_inv A F s.ia_rs s.inns inn c w st hst).1
    obtain ⟨expe2, hexpe2, hexx⟩ := hexp
    have hcount : c.indexE
        = 3 * ((if hw.qPos = 0 then 0 else 1) + (if hw.qOriEuler = 0 then 0 else 1)) := by
      rw [hiE]
      split <;> split <;> rfl
    refine ⟨c, s2, w2, c.measurement, expe2, hcomp, hproc, hmeas2, hexpe2, rfl, hexx,
      ⟨hx, by rw [hexx]; exact hex⟩, hcount, ?_, ?_, ?_, ?_⟩
    · intro hp k hk
      rw [hexx]
      exact (hpos hp).1 k hk
    · intro ho k hk
      have := (hori ho).1 k hk
      rw [hiO] at this
      simp only [ho, if_false] at this
      rw [hexx]
      exact this
    · intro k hk
      rw [hexx]
      exact hrest k hk
    · intro hsz
      rw [hexx, hx, hex, hcount, ← hsz]
      exact ⟨rfl, rfl, rfl⟩
  · obtain ⟨c2, h1, h2, h3', h4, h5, h6', -⟩ :=
      fp_orientation_only_stage A K hw s meas expe inn (fetchReading A hw s id) w hs hp ho h3
    refine ⟨c2, h1, h2, ?_, h4, h5, h6'⟩
    simp only [process, hhw, hm, he, hi, h3' h6, bind_error_eq]


/-- C12. For every arithmetic of the scalars, a call of `process` on buffers
shaped by `setHardwareSensor` and large enough for the channels completes and
leaves: when the position channel is present, `p + rotate(q, T)` in the position
segment of `Expectation.x`, and in the three position rows of `EXP_rs` the
identity in the position columns and the output of `rotate_by_dq(q, T)` in the
quaternion columns; when the orientation channel is present, the Euler angles
of `qProd(q, r)` in its segment of `Expectation.x` and, in its three rows of
`EXP_rs` (the rows that follow the position rows), zero in the position columns
and `E_qr * QR_q` in the quaternion columns. Here `p` and `q` are the robot
position and orientation at entry. An orientation-only sensor with `inns`
below 6 has these rows written by lines 151-157 as well, before the covariance
writes of lines 161-163 leave the buffer. -/
theorem C12_expectation_and_jacobian {R : Type} (A : Arith R) (K : QuatKernel R)
    (F : CorrectCall R → Vec R × Mat R → Vec R × Mat R) (id : Nat)
    (s : SensorAbsloc R) (w : World R) (hw : Hardware R) (meas expe inn : Gaussian R)
    (hhw : s.hardware = some hw) (hm : s.measurement = some meas)
    (he : s.expectation = some expe) (hi : s.innovation = some inn)
    (hs : Shapes s meas expe inn) :
    (Channels hw s.inns →
      ∃ s2 w2 expe2, process A K F id s w = .ok (s2, w2) ∧ s2.expectation = some expe2 ∧
        (hw.qPos ≠ 0 →
          (∀ k, k < 3 → expe2.x.e k = A.add (w.p A k) (K.rotate (w.q A) (s.T A) k)) ∧
          (∀ a, a < 3 →
            (∀ b, b < 3 → s2.EXP_rs.e a b = if a = b then A.one else A.zero) ∧
            (∀ b, b < 4 → s2.EXP_rs.e a (3 + b) = K.rotate_by_dq (w.q A) (s.T A) a b))) ∧
        (hw.qOriEuler ≠ 0 →
          (∀ k, k < 3 → expe2.x.e ((if hw.qPos = 0 then 0 else 3) + k)
            = (K.q2e (K.qProd (w.q A) (s.r A))).1 k) ∧
          (∀ a, a < 3 →
            (∀ b, b < 3 → s2.EXP_rs.e ((if hw.qPos = 0 then 0 else 3) + a) b = A.zero) ∧
            (∀ b, b < 4 → s2.EXP_rs.e ((if hw.qPos = 0 then 0 else 3) + a) (3 + b)
              = prod A 4 (K.q2e (K.qProd (w.q A) (s.r A))).2
                  (K.qProd_by_dq1 (s.r A)) a b)))) ∧
    (hw.qPos = 0 → hw.qOriEuler ≠ 0 → 3 ≤ s.inns → s.inns < 6 →
      ∃ c2, orientationMean A K hw.qOriEuler (fetchReading A hw s id) (w.q A) (s.r A)
          (cycleStart A s meas expe) = .ok c2 ∧
        compose A K hw s meas expe (fetchReading A hw s id) w
          = orientationCov A s.inns hw.qOriEuler (fetchReading A hw s id) c2 ∧
        process A K F id s w = .error .outOfBounds ∧
        (∀ k, k < 3 → c2.expectation.x.e k = (K.q2e (K.qProd (w.q A) (s.r A))).1 k) ∧
        (∀ a, a < 3 →
          (∀ b, b < 3 → c2.EXP_rs.e a b = A.zero) ∧
          (∀ b, b < 4 → c2.EXP_rs.e a (3 + b)
            = prod A 4 (K.q2e (K.qProd (w.q A) (s.r A))).2 (K.qProd_by_dq1 (s.r A)) a b))) := by
  refine ⟨fun hc => ?_, fun hp ho h3 h6 => ?_⟩
  · obtain ⟨c, hcomp, -, -, -, -, ⟨-, -, hiO⟩, -, hpos, hori⟩ :=
      fp_compose_spec A K hw s meas expe inn (fetchReading A hw s id) w hs hc
    obtain ⟨s2, w2, hproc⟩ := fp_process_completes A K F id s w hw meas expe inn hhw hm he hi hs hc
    obtain ⟨hw', meas', expe', inn', c', e1, e2, e3, e4, hcomp', -, -, -, hrs, -, -, -, -, -,
      -, hbr⟩ := fp_process_inv A K F id s w s2 w2 hproc
    rw [hhw] at e1
    rw [hm] at e2
    rw [he] at e3
    rw [hi] at e4
    cases e1
    cases e2
    cases e3
    cases e4
    rw [hcomp] at hcomp'
    cases hcomp'
    have hexp : ∃ expe2, s2.expectation = some expe2 ∧ expe2.x = c.expectation.x := by
      rcases hbr with ⟨-, -, h1, -, -⟩ | ⟨hf, st, hst, -, h1, -, -⟩
      · exact ⟨_, h1, rfl⟩
      · exact ⟨_, h1, (fp_steadyState_inv A F s.ia_rs s.inns inn c w st hst).1⟩
    obtain ⟨expe2, hexpe2, hexx⟩ := hexp
    refine ⟨s2, w2, expe2, hproc, hexpe2, fun hp => ?_, fun ho => ?_⟩
    · obtain ⟨h1, h2, -⟩ := hpos hp
      rw [hexx, hrs]
      exact ⟨fun k hk => (h1 k hk).2, h2⟩
    · obtain ⟨h1, h2⟩ := hori ho
      rw [hiO] at h1 h2
      simp only [ho, if_false] at h1 h2
      rw [hexx, hrs]
      exact ⟨fun k hk => (h1 k hk).2, h2⟩
  · obtain ⟨c2, h1, h2, h3', -, h5, -, h7⟩ :=
      fp_orientation_only_stage A K hw s meas expe inn (fetchReading A hw s id) w hs hp ho h3
    refine ⟨c2, h1, h2, ?_, fun k hk => (h5 k hk).2, h7⟩
    simp only [process, hhw, hm, he, hi, h3' h6, bind_error_eq]


/-! ### The life of a sensor -/

theorem fp_ready_request {R : Type} (s : SensorAbsloc R) (b : Bool) (h : Ready s) :
    Ready { s with use_for_init := b } := h

theorem fp_ready_flags {R : Type} (s : SensorAbsloc R) (f u : Bool) (h : Ready s) :
    Ready { s with first := f, use_for_init := u } := h


/-- A sensor built by the constructor and bound by `setHardwareSensor` to a
hardware whose channels fit in `dataSize()` entries is ready. -/
theorem fp_setHardwareSensor_ready {R : Type} (A : Arith R) (hw : Hardware R) (ia : List Nat)
    (b u : Bool) (r p : Vec R) (h7 : 7 ≤ ia.length) (hc : Channels hw hw.dataSize) :
    Ready (setHardwareSensor A hw (SensorAbsloc.new A ia b u r p)) :=
  ⟨hw, Gaussian.ofSize A hw.dataSize, Gaussian.ofSize A hw.dataSize,
    Gaussian.ofSize A hw.dataSize, rfl, rfl, rfl, rfl,
    ⟨⟨rfl, rfl, rfl⟩, ⟨rfl, rfl, rfl⟩, ⟨rfl, rfl, rfl⟩, ⟨rfl, rfl⟩, ⟨rfl, rfl⟩, h7⟩, hc⟩

/-- The fresh sensor of the examples is ready when the channels fit. -/
theorem fp_freshSensor_ready {R : Type} (A : Arith R) (hw : Hardware R) (b : Bool)
    (hc : Channels hw hw.dataSize) : Ready (freshSensor A hw b) :=
  fp_setHardwareSensor_ready A hw _ b false _ _ (by decide) hc

/-- A call of `process` on a ready sensor completes and leaves the sensor
ready, whatever the arithmetic results are. -/
theorem fp_process_ready {R : Type} (A : Arith R) (K : QuatKernel R)
    (F : CorrectCall R → Vec R × Mat R → Vec R × Mat R) (id : Nat)
    (s : SensorAbsloc R) (w : World R) (h : Ready s) :
    ∃ s2 w2, process A K F id s w = .ok (s2, w2) ∧ Ready s2 := by
  obtain ⟨hw, meas, expe, inn, hhw, hm, he, hi, hs, hc⟩ := h
  obtain ⟨c, hcomp, ⟨hr1, hr2⟩, ⟨hq1, hq2⟩, ⟨hx, hr, hcc⟩, ⟨hex, heP⟩, -, -⟩ :=
    fp_compose_spec A K hw s meas expe inn (fetchReading A hw s id) w hs hc
  obtain ⟨s2, w2, hproc⟩ := fp_process_completes A K F id s w hw meas expe inn hhw hm he hi hs hc
  obtain ⟨hw', meas', expe', inn', c', e1, e2, e3, e4, hcomp', -, -, hmeas2, hrs, hq, hhw2,
    hinns, hia, -, -, hbr⟩ := fp_process_inv A K F id s w s2 w2 hproc
  rw [hhw] at e1
  rw [hm] at e2
  rw [he] at e3
  rw [hi] at e4
  cases e1
  cases e2
  cases e3
  cases e4
  rw [hcomp] at hcomp'
  cases hcomp'
  obtain ⟨-, ⟨-, he2, he3⟩, ⟨hi1, hi2, hi3⟩, -, -, h7⟩ := hs
  refine ⟨s2, w2, hproc, ?_⟩
  rcases hbr with ⟨-, -, h1, h2, -⟩ | ⟨-, st, hst, -, h1, h2, -⟩
  · refine ⟨hw, c.measurement, c.expectation, inn, by rw [hhw2, hhw], hmeas2, h1, h2, ?_,
      by rw [hinns]; exact hc⟩
    rw [Shapes, hinns, hrs, hq, hia]
    exact ⟨⟨hx, hr, hcc⟩, ⟨hex, by rw [heP]; exact he2, by rw [heP]; exact he3⟩,
      ⟨hi1, hi2, hi3⟩, ⟨hr1, hr2⟩, ⟨hq1, hq2⟩, h7⟩
  · obtain ⟨g1, ⟨g2, g3⟩, -, ⟨g4, -⟩, ⟨g5, g6, -⟩, -⟩ :=
      fp_steadyState_inv A F s.ia_rs s.inns inn c w st hst
    refine ⟨hw, c.measurement, st.expectation, st.innovation, by rw [hhw2, hhw], hmeas2, h1,
      h2, ?_, by rw [hinns]; exact hc⟩
    rw [Shapes, hinns, hrs, hq, hia]
    exact ⟨⟨hx, hr, hcc⟩,
      ⟨by rw [g1]; exact hex, by rw [g2, heP]; exact he2, by rw [g3, heP]; exact he3⟩,
      ⟨by rw [g4]; exact hx, by rw [g5]; exact hr, by rw [g6]; exact hcc⟩,
      ⟨hr1, hr2⟩, ⟨hq1, hq2⟩, h7⟩

/-- On a ready sensor no call of a sequence stops, and `first` is false at the
entry of every call after the first one. -/
theorem fp_firstAtEntry_ready {R : Type} (A : Arith R) (K : QuatKernel R)
    (F : CorrectCall R → Vec R × Mat R → Vec R × Mat R) (calls : List (Call R))
    (s : SensorAbsloc R) (w : World R) (h : Ready s) :
    firstAtEntry A K F calls s w
      = match calls with
        | [] => []
        | _ :: cs => s.first :: List.replicate cs.length false := by
  have key : ∀ (calls : List (Call R)) (s : SensorAbsloc R) (w : World R), Ready s →
      s.first = false → firstAtEntry A K F calls s w = List.replicate calls.length false := by
    intro calls
    induction calls with
    | nil => intro s w _ _; rfl
    | cons c cs ih =>
      intro s w hr hf
      obtain ⟨s2, w2, hp, hr2⟩ := fp_process_ready A K F c.id
        { s with use_for_init := s.use_for_init || c.request } (c.others w)
        (fp_ready_request s _ hr)
      obtain ⟨-, -, -, -, -, -, -, -, -, -, hf2, -⟩ := fp_process_inv A K F _ _ _ s2 w2 hp
      rw [firstAtEntry, hp]
      simp only [List.length_cons, List.replicate_succ]
      rw [ih s2 w2 hr2 hf2, hf]
  cases calls with
  | nil => rfl
  | cons c cs =>
    obtain ⟨s2, w2, hp, hr2⟩ := fp_process_ready A K F c.id
      { s with use_for_init := s.use_for_init || c.request } (c.others w)
      (fp_ready_request s _ h)
    obtain ⟨-, -, -, -, -, -, -, -, -, -, hf2, -⟩ := fp_process_inv A K F _ _ _ s2 w2 hp
    rw [firstAtEntry, hp]
    simp only
    rw [key cs s2 w2 hr2 hf2]


/-- C9. For every arithmetic of the scalars: a newly constructed sensor has
`first = true` (binding the hardware keeps it); after every call of `process`
that returns, `first` and `use_for_init` are false whatever they were at entry;
a call on a sensor bound by `setHardwareSensor` with room for its channels does
return, whatever `init` computed, and leaves the sensor so bound; hence in any
sequence of calls on such a sensor, with `use_for_init` possibly set again from
outside between calls, no call stops and `first` is true at the entry of the
first call only, so the state injection branch is not taken again. -/
theorem C9_state_machine {R : Type} (A : Arith R) (K : QuatKernel R)
    (F : CorrectCall R → Vec R × Mat R → Vec R × Mat R) :
    (∀ ia b u r p, (SensorAbsloc.new A ia b u r p).first = true) ∧
    (∀ hw s0, (setHardwareSensor A hw s0).first = s0.first) ∧
    (∀ id s w s2 w2, process A K F id s w = .ok (s2, w2) →
      s2.first = false ∧ s2.use_for_init = false) ∧
    (∀ id s w, Ready s →
      ∃ s2 w2, process A K F id s w = .ok (s2, w2) ∧ Ready s2 ∧
        s2.first = false ∧ s2.use_for_init = false) ∧
    (∀ calls s w, Ready s →
      firstAtEntry A K F calls s w
        = match calls with
          | [] => []
          | _ :: cs => s.first :: List.replicate cs.length false) ∧
    (∀ calls s w, ∀ b ∈ (firstAtEntry A K F calls s w).tail, b = false) := by
  have flags : ∀ id s w s2 w2, process A K F id s w = .ok (s2, w2) →
      s2.first = false ∧ s2.use_for_init = false := by
    intro id s w s2 w2 h
    obtain ⟨-, -, -, -, -, -, -, -, -, -, h1, h2, -⟩ := fp_process_inv A K F id s w s2 w2 h
    exact ⟨h1, h2⟩
  refine ⟨fun _ _ _ _ _ => rfl, fun _ _ => rfl, flags, fun id s w hr => ?_,
    fun calls s w hr => fp_firstAtEntry_ready A K F calls s w hr, ?_⟩
  · obtain ⟨s2, w2, hp, hr2⟩ := fp_process_ready A K F id s w hr
    exact ⟨s2, w2, hp, hr2, flags id s w s2 w2 hp⟩
  · have key : ∀ calls s w, s.first = false →
        ∀ b ∈ firstAtEntry A K F calls s w, b = false := by
      intro calls
      induction calls with
      | nil => intro s w _ b hb; cases hb
      | cons c cs ih =>
        intro s w hs b hb
        simp only [firstAtEntry, List.mem_cons] at hb
        rcases hb with hb | hb
        · rw [hb, hs]
        · split at hb
          · next sw hsw => exact ih sw.1 sw.2 (flags _ _ _ sw.1 sw.2 hsw).1 b hb
          · cases hb
    intro calls s w b hb
    cases calls with
    | nil => cases hb
    | cons c cs =>
      simp only [firstAtEntry, List.tail_cons] at hb
      split at hb
      · next sw hsw => exact key cs sw.1 sw.2 (flags _ _ _ sw.1 sw.2 hsw).1 b hb
      · cases hb

theorem C9_state_machine_witness :
    firstAtEntry Dbl.exact (idleKernel Dbl.exact) idleCorrect
        [⟨0, true, fun w => w⟩, ⟨0, true, fun w => w⟩, ⟨0, false, fun w => w⟩]
        (freshSensor Dbl.exact hwNone true) (zeroWorld Dbl.exact) = [true, false, false] ∧
      fetchReading Dbl.exact hwNone
        { freshSensor Dbl.exact hwNone true with use_for_init := true } 0 1 = Dbl.nan :=
  ⟨(C9_state_machine Dbl.exact (idleKernel Dbl.exact) idleCorrect).2.2.2.2.1
      [⟨0, true, fun w => w⟩, ⟨0, true, fun w => w⟩, ⟨0, false, fun w => w⟩]
      (freshSensor Dbl.exact hwNone true) (zeroWorld Dbl.exact)
      (fp_freshSensor_ready Dbl.exact hwNone true ⟨fun _ => by decide, fun h => absurd rfl h⟩),
    by decide!⟩

/-- C10. For every arithmetic of the scalars, a cycle entered with
`first = false` that returns leaves: `Expectation.P = EXP_rs * P_block * EXP_rs^T`
with `P_block` the joint covariance projected on `ia_rs`,
`Innovation.x = Measurement.x - Expectation.x`,
`Innovation.P = Measurement.P + Expectation.P`, `INN_rs = -EXP_rs`; the filter's
`correct` has been called exactly once, with the used state indices, this
innovation, `INN_rs` and `ia_rs`, and the joint state is the one it returned.
The cycle does return on a sensor bound by `setHardwareSensor` with room for
its channels, whatever `init` computed. -/
theorem C10_steady_state_assembly {R : Type} (A : Arith R) (K : QuatKernel R)
    (F : CorrectCall R → Vec R × Mat R → Vec R × Mat R) (id : Nat) (s : SensorAbsloc R)
    (w : World R) (hfirst : s.first = false) :
    (∀ s2 w2, process A K F id s w = .ok (s2, w2) →
      ∃ meas2 expe2 inn2, s2.measurement = some meas2 ∧ s2.expectation = some expe2 ∧
        s2.innovation = some inn2 ∧
        (∀ a b, a < s.inns → b < s.inns → expe2.P.e a b
          = prod_JPJt A s.ia_rs.length (project w.P s.ia_rs) s2.EXP_rs.e a b) ∧
        (inn2.x.size = meas2.x.size ∧
          ∀ k, k < meas2.x.size → inn2.x.e k = A.sub (meas2.x.e k) (expe2.x.e k)) ∧
        (inn2.P.rows = meas2.P.rows ∧ inn2.P.cols = meas2.P.cols ∧
          ∀ a b, a < meas2.P.rows → b < meas2.P.cols →
            inn2.P.e a b = A.add (meas2.P.e a b) (expe2.P.e a b)) ∧
        (s2.INN_rs.rows = s2.EXP_rs.rows ∧ s2.INN_rs.cols = s2.EXP_rs.cols ∧
          ∀ a b, s2.INN_rs.e a b = A.neg (s2.EXP_rs.e a b)) ∧
        w2.corrections = w.corrections ++
          [{ ia_x := w.ia_used_states, innovation := inn2, INN_rs := s2.INN_rs,
             ia_rs := s.ia_rs }] ∧
        (w2.x, w2.P)
          = F { ia_x := w.ia_used_states, innovation := inn2, INN_rs := s2.INN_rs,
                ia_rs := s.ia_rs } (w.x, w.P)) ∧
    (Ready s → ∃ s2 w2, process A K F id s w = .ok (s2, w2)) := by
  refine ⟨fun s2 w2 h => ?_, fun hr => ?_⟩
  · obtain ⟨hw, meas, expe, inn, c, -, -, -, -, -, -, -, hmeas2, hrs, -, -, -, -, -, -, hbr⟩ :=
      fp_process_inv A K F id s w s2 w2 h
    rcases hbr with ⟨ht, -⟩ | ⟨-, st, hst, hw2, h1, h2, h3⟩
    · rw [hfirst] at ht
      cases ht
    · obtain ⟨-, -, g3, g4, g5, g6, g7, g8, -⟩ :=
        fp_steadyState_inv A F s.ia_rs s.inns inn c w st hst
      refine ⟨c.measurement, st.expectation, st.innovation, hmeas2, h1, h2, ?_, g4, g5, ?_, ?_,
        ?_⟩
      · rw [hrs]; exact g3
      · rw [hrs, h3]; exact g6
      · rw [hw2, h3]; exact g7
      · rw [hw2, h3]; exact g8
  · obtain ⟨s2, w2, hp, -⟩ := fp_process_ready A K F id s w hr
    exact ⟨s2, w2, hp⟩

theorem C10_steady_state_assembly_witness :
    ∃ s2 w2 inn2, process Dbl.exact (idleKernel Dbl.exact) idleCorrect 0
        { freshSensor Dbl.exact hwNone true with first := false, use_for_init := true }
        (zeroWorld Dbl.exact) = .ok (s2, w2) ∧
      s2.innovation = some inn2 ∧
      w2.corrections = [{ ia_x := [2, 3, 4, 5, 6, 7, 8], innovation := inn2,
                          INN_rs := s2.INN_rs, ia_rs := [2, 3, 4, 5, 6, 7, 8] }] ∧
      fetchReading Dbl.exact hwNone
        { freshSensor Dbl.exact hwNone true with first := false, use_for_init := true } 0 1
        = Dbl.nan := by
  have hC := C10_steady_state_assembly Dbl.exact (idleKernel Dbl.exact) idleCorrect 0
    { freshSensor Dbl.exact hwNone true with first := false, use_for_init := true }
    (zeroWorld Dbl.exact) rfl
  obtain ⟨s2, w2, h⟩ := hC.2
    (fp_ready_flags (freshSensor Dbl.exact hwNone true) false true
      (fp_freshSensor_ready Dbl.exact hwNone true ⟨fun _ => by decide, fun h => absurd rfl h⟩))
  obtain ⟨meas2, expe2, inn2, -, -, h3, -, -, -, -, h8, -⟩ := hC.1 s2 w2 h
  exact ⟨s2, w2, inn2, h, h3, h8, by decide!⟩

/-- The second loop leaves both sums of an axis as they were when no sample of
the window passes the threshold test on that axis. -/
theorem fp_accumulate_none {R : Type} (A : Arith R) (raw : Nat → Vec R) (inns id : Nat)
    (mv : Fin 3 → R) (i : Fin 3) (l : List Nat) (st : (Fin 3 → R) × (Fin 3 → R) × Vec R)
    (h : ∀ k ∈ window id l, A.lt (raw k (i.val + 1 + inns)) (A.mul (A.lit 2) (mv i)) = false) :
    (accumulate A raw inns id mv l st).1 i = st.1 i ∧
    (accumulate A raw inns id mv l st).2.1 i = st.2.1 i := by
  induction l generalizing st with
  | nil => exact ⟨rfl, rfl⟩
  | cons it rest ih =>
    rw [window_cons] at h
    by_cases e : it = id
    · subst e
      rw [if_pos rfl] at h
      have hq := h it (List.mem_singleton.mpr rfl)
      simp [accumulate, hq]
    · rw [if_neg e] at h
      have hq := h it (List.mem_cons_self _ _)
      have hr := ih (fun i => if A.lt (raw it (i.val + 1 + inns)) (A.mul (A.lit 2) (mv i))
            then A.add (st.1 i) (A.mul (raw it (i.val + 1)) (raw it (i.val + 1 + inns)))
            else st.1 i,
          fun i => if A.lt (raw it (i.val + 1 + inns)) (A.mul (A.lit 2) (mv i))
            then A.add (st.2.1 i) (raw it (i.val + 1 + inns)) else st.2.1 i,
          raw it)
        (fun k hk => h k (List.mem_cons_of_mem _ hk))
      simp only [accumulate, if_neg e]
      rw [hr.1, hr.2]
      simp [hq]

theorem fp_writeBack_apply {R : Type} (inns : Nat) (a m : Fin 3 → R) (r : Vec R) (x : Nat) :
    writeBack inns a m r x =
      if x = 3 + inns then m 2 else if x = 3 then a 2
      else if x = 2 + inns then m 1 else if x = 2 then a 1
      else if x = 1 + inns then m 0 else if x = 1 then a 0 else r x := by
  simp only [writeBack, List.foldl, Function.update_apply]
  simp [Nat.add_comm]

/-- What `init` returns, for a raw layout with `inns >= 3`: on each axis the
quotient of the two sums at the value index and `min_var` at the variance
index. -/
theorem fp_init_written {R : Type} (A : Arith R) (hw : Hardware R) (inns id : Nat)
    (reading : Vec R) (i : Fin 3) (hinns : 3 ≤ inns) :
    init A hw inns id reading (i.val + 1)
        = A.div ((initAccumulate A hw inns id reading).average i)
            ((initAccumulate A hw inns id reading).sum_coeffs i) ∧
      init A hw inns id reading (i.val + 1 + inns)
        = (initAccumulate A hw inns id reading).min_var i := by
  unfold init
  simp only [fp_writeBack_apply]
  fin_cases i
  · have h1 : ¬ (0 + 1 = 3 + inns) := by omega
    have h2 : ¬ (0 + 1 = 2 + inns) := by omega
    have h3 : ¬ (0 + 1 = 1 + inns) := by omega
    have h4 : ¬ (0 + 1 + inns = 3 + inns) := by omega
    have h5 : ¬ (0 + 1 + inns = 3) := by omega
    have h6 : ¬ (0 + 1 + inns = 2 + inns) := by omega
    have h7 : ¬ (0 + 1 + inns = 2) := by omega
    have h8 : 0 + 1 + inns = 1 + inns := by omega
    simp [h1, h2, h3, h4, h5, h6, h7, h8]
  · have h1 : ¬ (1 + 1 = 3 + inns) := by omega
    have h2 : ¬ (1 + 1 = 2 + inns) := by omega
    have h4 : ¬ (1 + 1 + inns = 3 + inns) := by omega
    have h5 : ¬ (1 + 1 + inns = 3) := by omega
    have h8 : 1 + 1 + inns = 2 + inns := by omega
    simp [h1, h2, h4, h5, h8]
  · have h1 : ¬ (2 + 1 = 3 + inns) := by omega
    have h8 : 2 + 1 + inns = 3 + inns := by omega
    simp [h1, h8]

/-! ### The exact rationals as finite doubles -/

theorem fp_scanMinVar_exact (raw : Nat → RVec) (inns id : Nat) (l : List Nat)
    (m : Vec3) (r : RVec) :
    scanMinVar Dbl.exact (fun k => finVec (raw k)) inns id l (fun i => Dbl.fin (m i), finVec r)
      = (fun i => Dbl.fin ((Rtslam.scanMinVar raw inns id l (m, r)).1 i),
         finVec (Rtslam.scanMinVar raw inns id l (m, r)).2) := by
  induction l generalizing m r with
  | nil => rfl
  | cons it rest ih =>
    have hmv : (fun i : Fin 3 =>
        if Dbl.exact.lt (finVec (raw it) (i.val + 1 + inns)) (Dbl.fin (m i))
        then finVec (raw it) (i.val + 1 + inns) else Dbl.fin (m i))
        = fun i => Dbl.fin (if raw it (i.val + 1 + inns) < m i
            then raw it (i.val + 1 + inns) else m i) := by
      funext i
      by_cases h : raw it (i.val + 1 + inns) < m i <;>
        simp [Dbl.exact, Dbl.arith, Dbl.lt, finVec, h]
    by_cases e : it = id
    · simp only [scanMinVar, Rtslam.scanMinVar, if_pos e, hmv]
    · simp only [scanMinVar, Rtslam.scanMinVar, if_neg e, hmv]
      exact ih _ _

theorem fp_accumulate_exact (raw : Nat → RVec) (inns id : Nat) (mv : Vec3) (l : List Nat)
    (a c : Vec3) (r : RVec) :
    accumulate Dbl.exact (fun k => finVec (raw k)) inns id (fun i => Dbl.fin (mv i)) l
        (fun i => Dbl.fin (a i), fun i => Dbl.fin (c i), finVec r)
      = (fun i => Dbl.fin ((Rtslam.accumulate raw inns id mv l (a, c, r)).1 i),
         fun i => Dbl.fin ((Rtslam.accumulate raw inns id mv l (a, c, r)).2.1 i),
         finVec (Rtslam.accumulate raw inns id mv l (a, c, r)).2.2) := by
  induction l generalizing a c r with
  | nil => rfl
  | cons it rest ih =>
    have hav : (fun i : Fin 3 =>
        if Dbl.exact.lt (finVec (raw it) (i.val + 1 + inns))
            (Dbl.exact.mul (Dbl.exact.lit 2) (Dbl.fin (mv i)))
        then Dbl.exact.add (Dbl.fin (a i))
          (Dbl.exact.mul (finVec (raw it) (i.val + 1)) (finVec (raw it) (i.val + 1 + inns)))
        else Dbl.fin (a i))
        = fun i => Dbl.fin (if raw it (i.val + 1 + inns) < 2 * mv i
            then a i + raw it (i.val + 1) * raw it (i.val + 1 + inns) else a i) := by
      funext i
      by_cases h : raw it (i.val + 1 + inns) < 2 * mv i <;>
        simp [Dbl.exact, Dbl.arith, Dbl.lt, Dbl.mul, Dbl.add, finVec, h]
    have hsc : (fun i : Fin 3 =>
        if Dbl.exact.lt (finVec (raw it) (i.val + 1 + inns))
            (Dbl.exact.mul (Dbl.exact.lit 2) (Dbl.fin (mv i)))
        then Dbl.exact.add (Dbl.fin (c i)) (finVec (raw it) (i.val + 1 + inns))
        else Dbl.fin (c i))
        = fun i => Dbl.fin (if raw it (i.val + 1 + inns) < 2 * mv i
            then c i + raw it (i.val + 1 + inns) else c i) := by
      funext i
      by_cases h : raw it (i.val + 1 + inns) < 2 * mv i <;>
        simp [Dbl.exact, Dbl.arith, Dbl.lt, Dbl.mul, Dbl.add, finVec, h]
    by_cases e : it = id
    · simp only [accumulate, Rtslam.accumulate, if_pos e, hav, hsc]
    · simp only [accumulate, Rtslam.accumulate, if_neg e, hav, hsc]
      exact ih _ _ _

/-- On finite data and without rounding, the locals of `init` at line 100 are
the ones of the exact-rational embedding. -/
theorem fp_initAccumulate_exact (hw : Rtslam.Hardware) (inns id : Nat) (reading : RVec) :
    initAccumulate Dbl.exact (ofExact hw) inns id (finVec reading)
      = { min_var := fun i => Dbl.fin ((Rtslam.initAccumulate hw inns id reading).min_var i),
          average := fun i => Dbl.fin ((Rtslam.initAccumulate hw inns id reading).average i),
          sum_coeffs := fun i =>
            Dbl.fin ((Rtslam.initAccumulate hw inns id reading).sum_coeffs i),
          reading := finVec (Rtslam.initAccumulate hw inns id reading).reading } := by
  have h1 := fp_scanMinVar_exact hw.raw inns id hw.available Rtslam.min_var0 reading
  have h2 := fp_accumulate_exact hw.raw inns id
    (Rtslam.scanMinVar hw.raw inns id hw.available (Rtslam.min_var0, reading)).1 hw.available
    (fun _ => 0) (fun _ => 0)
    (Rtslam.scanMinVar hw.raw inns id hw.available (Rtslam.min_var0, reading)).2
  have h0 : min_var0 Dbl.exact = fun i => Dbl.fin (Rtslam.min_var0 i) := rfl
  simp only [initAccumulate, Rtslam.initAccumulate, ofExact, h0, h1]
  have hz : (fun _ : Fin 3 => Dbl.exact.zero) = fun _ => Dbl.fin 0 := rfl
  rw [hz, h2]

/-- When no sample of the window passes the threshold test on an axis, both
sums of the axis are the zero they started from and `init` returns the
quotient of zero by zero at the value index of the axis. -/
theorem fp_init_none_qualifies {R : Type} (A : Arith R) (hw : Hardware R) (inns id : Nat)
    (reading : Vec R) (i : Fin 3) (hinns : 3 ≤ inns)
    (h : ∀ k ∈ window id hw.available,
      A.lt (hw.raw k (i.val + 1 + inns))
        (A.mul (A.lit 2) ((initAccumulate A hw inns id reading).min_var i)) = false) :
    (initAccumulate A hw inns id reading).sum_coeffs i = A.zero ∧
    (initAccumulate A hw inns id reading).average i = A.zero ∧
    init A hw inns id reading (i.val + 1) = A.div A.zero A.zero ∧
    init A hw inns id reading (i.val + 1 + inns)
      = (initAccumulate A hw inns id reading).min_var i := by
  have hacc := fp_accumulate_none A hw.raw inns id
    (scanMinVar A hw.raw inns id hw.available (min_var0 A, reading)).1 i hw.available
    (fun _ => A.zero, fun _ => A.zero,
      (scanMinVar A hw.raw inns id hw.available (min_var0 A, reading)).2) h
  have hs : (initAccumulate A hw inns id reading).sum_coeffs i = A.zero := hacc.2
  have ha : (initAccumulate A hw inns id reading).average i = A.zero := hacc.1
  obtain ⟨h1, h2⟩ := fp_init_written A hw inns id reading i hinns
  exact ⟨hs, ha, by rw [h1, hs, ha], h2⟩

/-- On finite data and without rounding: when no sample of the window
qualifies on an axis, `init` returns a NaN at the value index of that axis and
finite quotients on the axes whose divisor is not zero. -/
theorem fp_init_nan (hw : Rtslam.Hardware) (inns id : Nat) (reading : RVec) (i : Fin 3)
    (hinns : 3 ≤ inns)
    (h : ∀ k ∈ window id hw.available,
      ¬ varOf hw.raw inns i k < 2 * (Rtslam.initAccumulate hw inns id reading).min_var i) :
    init Dbl.exact (ofExact hw) inns id (finVec reading) (i.val + 1) = Dbl.nan := by
  obtain ⟨hs, ha, -⟩ := init_none_qualifies hw inns id reading i h
  rw [(fp_init_written Dbl.exact (ofExact hw) inns id (finVec reading) i hinns).1,
    fp_initAccumulate_exact]
  simp [hs, ha, Dbl.exact, Dbl.arith, Dbl.div]

/-- C14. For every arithmetic of the scalars: when no sample of the scanned
window passes the threshold test on an axis, the variance sum accumulated for
that axis is exactly the zero it started from, so is the weighted sum, and
`init` returns, with the quotient of that zero by that zero at the value index
of the axis and `min_var` at its variance index: there is no test and no error.
With the arithmetic of the doubles, rounded or not, that quotient is a NaN. On
finite data the axes whose divisor is not zero get their finite quotient, and no
sample qualifies on an axis when the list of available samples is empty, when
the minimum variance of the window on the axis is zero, and when the variances
of the window on the axis are all at least 2000. The raw layout has
`inns >= 3`. -/
theorem C14_unguarded_division (hw : Rtslam.Hardware) (inns id : Nat) (reading : RVec)
    (i : Fin 3) (hinns : 3 ≤ inns) :
    (∀ (R : Type) (A : Arith R) (hwR : Hardware R) (rd : Vec R),
      (∀ k ∈ window id hwR.available,
        A.lt (hwR.raw k (i.val + 1 + inns))
          (A.mul (A.lit 2) ((initAccumulate A hwR inns id rd).min_var i)) = false) →
      (initAccumulate A hwR inns id rd).sum_coeffs i = A.zero ∧
      (initAccumulate A hwR inns id rd).average i = A.zero ∧
      init A hwR inns id rd (i.val + 1) = A.div A.zero A.zero ∧
      init A hwR inns id rd (i.val + 1 + inns) = (initAccumulate A hwR inns id rd).min_var i) ∧
    (Dbl.exact.div Dbl.exact.zero Dbl.exact.zero = Dbl.nan ∧
      Dbl.binary64.div Dbl.binary64.zero Dbl.binary64.zero = Dbl.nan) ∧
    ((∀ k ∈ window id hw.available,
        ¬ varOf hw.raw inns i k < 2 * (Rtslam.initAccumulate hw inns id reading).min_var i) →
      init Dbl.exact (ofExact hw) inns id (finVec reading) (i.val + 1) = Dbl.nan ∧
      init Dbl.exact (ofExact hw) inns id (finVec reading) (i.val + 1 + inns)
        = Dbl.fin ((Rtslam.initAccumulate hw inns id reading).min_var i) ∧
      ∀ j : Fin 3, (Rtslam.initAccumulate hw inns id reading).sum_coeffs j ≠ 0 →
        init Dbl.exact (ofExact hw) inns id (finVec reading) (j.val + 1)
          = Dbl.fin ((Rtslam.initAccumulate hw inns id reading).average j
              / (Rtslam.initAccumulate hw inns id reading).sum_coeffs j)) ∧
    (hw.available = [] →
      init Dbl.exact (ofExact hw) inns id (finVec reading) (i.val + 1) = Dbl.nan) ∧
    (trueMin ((window id hw.available).map (varOf hw.raw inns i)) = some 0 →
      init Dbl.exact (ofExact hw) inns id (finVec reading) (i.val + 1) = Dbl.nan) ∧
    ((∀ k ∈ window id hw.available, 2000 ≤ varOf hw.raw inns i k) →
      init Dbl.exact (ofExact hw) inns id (finVec reading) (i.val + 1) = Dbl.nan) := by
  refine ⟨fun R A hwR rd h => fp_init_none_qualifies A hwR inns id rd i hinns h,
    ⟨by decide, by decide⟩, fun h => ⟨fp_init_nan hw inns id reading i hinns h, ?_, ?_⟩,
    fun h => ?_, fun h => ?_, fun h => ?_⟩
  · rw [(fp_init_written Dbl.exact (ofExact hw) inns id (finVec reading) i hinns).2,
      fp_initAccumulate_exact]
  · intro j hj
    rw [(fp_init_written Dbl.exact (ofExact hw) inns id (finVec reading) j hinns).1,
      fp_initAccumulate_exact]
    simp [hj, Dbl.exact, Dbl.arith, Dbl.div]
  · refine fp_init_nan hw inns id reading i hinns ?_
    intro k hk
    rw [h] at hk
    cases hk
  · refine fp_init_nan hw inns id reading i hinns ?_
    intro k hk
    rw [min_var_eq hw inns id reading i 0 h]
    have h0 : (0 : ℚ) ≤ varOf hw.raw inns i k :=
      trueMin_le _ 0 h _ (List.mem_map_of_mem _ hk)
    have h1 : min (1000 : ℚ) 0 = 0 := by norm_num
    rw [h1]
    linarith
  · refine fp_init_nan hw inns id reading i hinns ?_
    intro k hk
    have h1 := min_var_le_sentinel hw inns id reading i
    have h2 := h k hk
    linarith

theorem C14_unguarded_division_witness :
    3 ≤ 3 ∧ (Hardware.withAvailable hwPos []).available = [] ∧
      init Dbl.exact (ofExact (Hardware.withAvailable hwPos [])) 3 0 (finVec (fun _ => 0)) 1
        = Dbl.nan :=
  ⟨by decide, rfl,
    (C14_unguarded_division (Hardware.withAvailable hwPos []) 3 0 (fun _ => 0) 0
      (by decide)).2.2.2.1 rfl⟩

theorem C8_channel_layout_witness :
    ∃ s2 w2 meas2, process Dbl.exact (idleKernel Dbl.exact) idleCorrect 0
        { freshSensor Dbl.exact hwNone true with use_for_init := true }
        (zeroWorld Dbl.exact) = .ok (s2, w2) ∧
      s2.measurement = some meas2 ∧ meas2.x.size = 3 ∧ meas2.x.e 0 = Dbl.nan := by
  obtain ⟨c, s2, w2, meas2, expe2, -, h2, h3, -, -, -, ⟨h7, -⟩, -, h9, -⟩ :=
    (C8_channel_layout Dbl.exact (idleKernel Dbl.exact) idleCorrect 0
      { freshSensor Dbl.exact hwNone true with use_for_init := true }
      (zeroWorld Dbl.exact) hwNone (Gaussian.ofSize Dbl.exact 3) (Gaussian.ofSize Dbl.exact 3)
      (Gaussian.ofSize Dbl.exact 3) rfl rfl rfl rfl
      ⟨⟨rfl, rfl, rfl⟩, ⟨rfl, rfl, rfl⟩, ⟨rfl, rfl, rfl⟩, ⟨rfl, rfl⟩, ⟨rfl, rfl⟩,
        by decide⟩).1 ⟨fun _ => by decide, fun h => absurd rfl h⟩
  refine ⟨s2, w2, meas2, h2, h3, h7, ?_⟩
  rw [(h9 (by decide) 0 (by decide)).1]
  decide!

theorem C12_expectation_and_jacobian_witness :
    ∃ s2 w2, process Dbl.exact (idleKernel Dbl.exact) idleCorrect 0
        (freshSensor Dbl.exact (ofExact hwBoth) true) (zeroWorld Dbl.exact) = .ok (s2, w2) ∧
      s2.EXP_rs.e 0 0 = Dbl.fin 1 ∧ s2.EXP_rs.e 0 1 = Dbl.fin 0 ∧
      s2.EXP_rs.e 3 0 = Dbl.fin 0 := by
  obtain ⟨s2, w2, expe2, h1, -, h3, h4⟩ :=
    (C12_expectation_and_jacobian Dbl.exact (idleKernel Dbl.exact) idleCorrect 0
      (freshSensor Dbl.exact (ofExact hwBoth) true)
      (zeroWorld Dbl.exact) (ofExact hwBoth) (Gaussian.ofSize Dbl.exact 6)
      (Gaussian.ofSize Dbl.exact 6) (Gaussian.ofSize Dbl.exact 6) rfl rfl rfl rfl
      ⟨⟨rfl, rfl, rfl⟩, ⟨rfl, rfl, rfl⟩, ⟨rfl, rfl, rfl⟩, ⟨rfl, rfl⟩, ⟨rfl, rfl⟩,
        by decide⟩).1 ⟨fun _ => by decide, fun _ => by decide⟩
  have ha := ((h3 (by decide)).2 0 (by decide)).1
  have hb := ((h4 (by decide)).2 0 (by decide)).1 0 (by decide)
  exact ⟨s2, w2, h1, ha 0 (by decide), ha 1 (by decide), hb⟩

end Fp

end Rtslam
